import Mathlib

/- A shallow embedding of the filelike library's core: the FileLikeBase
   buffering adapter built on four primitive operations, and the join
   combinator over a list of sub-files.  Python strings are lists of
   characters, python ints are Lean integers, exceptions become an
   explicit error type, and the mutually recursive public operations are
   evaluated with an explicit fuel parameter. -/

namespace Filelike

/-- Seek capabilities of a modelled primitive implementer: which
whence/offset combinations its seek primitive honours before raising
NotImplementedError.  Every flavour except `noneCap` supports seeking
to the start, as the primitive contract requires. -/
inductive SeekCap
  | full
  | absOnly
  | startOnly
  | noneCap
deriving DecidableEq

/-- Model of a backing resource implementing the primitive interface:
byte content with a cursor.  `extra` makes bounded reads over-return
that many additional bytes, `wcap` bounds how many bytes one primitive
write call consumes (`none` = consume everything), and `rlog` is a
ghost log of the size hints passed to the primitive read. -/
structure Prim where
  content : List Char
  pos : Nat
  extra : Nat
  wcap : Option Nat
  cap : SeekCap
  rlog : List Int
deriving DecidableEq

/-- Overwrite `c` at position `pos` with `s`, zero-padding if `pos` is
past the end (StringIO-style write semantics). -/
def overwriteAt (c : List Char) (pos : Nat) (s : List Char) : List Char :=
  c.take pos ++ List.replicate (pos - c.length) (Char.ofNat 0) ++ s ++ c.drop (pos + s.length)

/-- Primitive read: returns up to around `sizehint` bytes, or `none` at
end of resource.  A non-positive hint asks for all remaining content; a
positive hint returns `sizehint + extra` bytes (capped by the content),
exercising the over-return allowance of the primitive contract.  The
hint is recorded in the ghost log. -/
def Prim._read (p : Prim) (sizehint : Int) : Option (List Char) × Prim :=
  let p := { p with rlog := p.rlog ++ [sizehint] }
  if p.content.length ≤ p.pos then (none, p)
  else
    let chunk := if sizehint ≤ 0 then p.content.drop p.pos
      else (p.content.drop p.pos).take (sizehint.toNat + p.extra)
    (some chunk, { p with pos := p.pos + chunk.length })

/-- Primitive write: consumes up to `wcap` bytes (all of them when
`wcap` is `none`), overwriting at the cursor, and returns the bytes it
could not write, or `none` when everything was written. -/
def Prim._write (p : Prim) (s : List Char) (_flushing : Bool) : Option (List Char) × Prim :=
  let m := match p.wcap with
    | none => s.length
    | some c => min c s.length
  let p := { p with content := overwriteAt p.content p.pos (s.take m), pos := p.pos + m }
  if m < s.length then (some (s.drop m), p) else (none, p)

/-- Primitive seek: moves the cursor according to the capability flavour
and returns no gap bytes; unsupported combinations are signalled with
`.error ()`, standing for NotImplementedError. -/
def Prim._seek (p : Prim) (offset : Int) (whence : Nat) : Except Unit (Option (List Char) × Prim) :=
  match p.cap with
  | .full =>
    if whence = 0 then .ok (none, { p with pos := offset.toNat })
    else if whence = 1 then .ok (none, { p with pos := ((p.pos : Int) + offset).toNat })
    else .ok (none, { p with pos := ((p.content.length : Int) + offset).toNat })
  | .absOnly =>
    if whence = 0 then .ok (none, { p with pos := offset.toNat }) else .error ()
  | .startOnly =>
    if whence = 0 ∧ offset = 0 then .ok (none, { p with pos := 0 }) else .error ()
  | .noneCap => .error ()

/-- Primitive tell: the actual position of the backing cursor. -/
def Prim._tell (p : Prim) : Int := p.pos

/-- State of the FileLikeBase adapter: the wrapped primitive, the closed
flag, the optional mode attribute and optional size attribute (absent on
the base class unless a subclass provides them), the chunked-read buffer
size, and the four buffer fields of the constructor. -/
structure FileLikeBase where
  prim : Prim
  closed : Bool
  mode : Option (List Char)
  sizeAttr : Option Int
  bufsize : Nat
  rbuffer : Option (List Char)
  wbuffer : Option (List Char)
  sbuffer : Option (List Char)
  soffset : Int
deriving DecidableEq

/-- Python truthiness of an optional string: `None` and the empty string
are falsy. -/
def truthy : Option (List Char) → Bool
  | some (_ :: _) => true
  | _ => false

/-- Errors of the embedding.  The io-prefixed constructors stand for the
distinct IOError messages of the source, `valueWhence` for the
ValueError on an invalid whence, and `notImplemented` for a
NotImplementedError escaping to the caller.  `fuel` and `never` are
artifacts of the fuel-indexed evaluator, raised by no source path. -/
inductive Err
  | ioClosed
  | ioNotReadable
  | ioNotWritable
  | ioNoSeekSupport
  | ioNotSeekableMode
  | ioFlushFail
  | valueWhence
  | notImplemented
  | fuel
  | never
deriving DecidableEq

/-- The body of `_check_mode` for an explicit mode string `mstr`. -/
def checkModeStr (mode mstr : List Char) : Bool :=
  if '+' ∈ mstr then true
  else if '-' ∈ mstr ∧ '-' ∉ mode then false
  else if 'r' ∈ mode ∧ 'r' ∉ mstr then false
  else if 'w' ∈ mode ∧ 'w' ∉ mstr ∧ 'a' ∉ mstr then false
  else true

/-- `_check_mode`: permission check that returns true when the object
has no mode attribute. -/
def FileLikeBase.checkMode (f : FileLikeBase) (mode : List Char) : Bool :=
  match f.mode with
  | none => true
  | some m => checkModeStr mode m

/-- The body of `_assert_mode` for an explicit mode string, raising the
distinct IOError of each denied permission. -/
def assertModeStr (mode mstr : List Char) : Except Err Unit :=
  if '+' ∈ mstr then .ok ()
  else if '-' ∈ mstr ∧ '-' ∉ mode then .error .ioNoSeekSupport
  else if 'r' ∈ mode ∧ 'r' ∉ mstr then .error .ioNotReadable
  else if 'w' ∈ mode ∧ 'w' ∉ mstr ∧ 'a' ∉ mstr then .error .ioNotWritable
  else .ok ()

/-- `_assert_mode`: like `checkMode` but raising instead of returning
false. -/
def FileLikeBase.assertMode (f : FileLikeBase) (mode : List Char) : Except Err Unit :=
  match f.mode with
  | none => .ok ()
  | some m => assertModeStr mode m

/-- `flush`: raises on a closed file, otherwise writes any pending skip
gap followed by the write buffer with the must-consume flag, failing if
the primitive leaves anything unwritten. -/
def FileLikeBase.flush (f : FileLikeBase) : Except Err FileLikeBase :=
  if f.closed then .error .ioClosed
  else if f.checkMode ['w', '-'] && f.wbuffer.isSome then
    let buffered := (if truthy f.sbuffer then f.sbuffer.getD [] else []) ++ f.wbuffer.getD []
    let f : FileLikeBase := { f with sbuffer := if truthy f.sbuffer then none else f.sbuffer, wbuffer := none }
    match f.prim._write buffered true with
    | (leftover, p) =>
      if truthy leftover then .error .ioFlushFail else .ok { f with prim := p }
  else .ok f

/-- `close`: flush, then mark closed; a no-op on an already closed
file. -/
def FileLikeBase.close (f : FileLikeBase) : Except Err FileLikeBase :=
  if !f.closed then
    match f.flush with
    | .ok g => .ok { g with closed := true }
    | .error e => .error e
  else .ok f

/-- `tell`: the primitive position adjusted for every buffer, giving the
apparent position. -/
def FileLikeBase.tell (f : FileLikeBase) : Int :=
  let pos : Int := f.prim._tell
  let pos := if truthy f.rbuffer then pos - ((f.rbuffer.getD []).length : Int) else pos
  let pos := if truthy f.wbuffer then pos + ((f.wbuffer.getD []).length : Int) else pos
  let pos := if truthy f.sbuffer then pos + ((f.sbuffer.getD []).length : Int) else pos
  if f.soffset ≠ 0 then pos + f.soffset else pos

/-- The unbounded read loop of `read` (size non-positive): keep calling
the primitive read until it signals end of resource. -/
def readAllLoopF : Nat → Prim → List Char → Except Err (List Char × Prim)
  | 0, _, _ => .error .fuel
  | n+1, p, acc =>
    match p._read (-1) with
    | (none, p) => .ok (acc, p)
    | (some c, p) => readAllLoopF n p (acc ++ c)

/-- Whether the object has a mode attribute containing the
no-seeking marker, as tested at the top of `seek`. -/
def FileLikeBase.modeForbidsSeek (f : FileLikeBase) : Bool :=
  match f.mode with
  | some m => decide ('-' ∈ m)
  | none => false

/-- The bounded read loop of `read` (size positive): keep calling the
primitive read with the remaining byte count as hint until enough bytes
have accumulated or end of resource is signalled. -/
def readLoopF : Nat → Prim → Nat → List Char → Except Err (List Char × Prim)
  | 0, _, _, _ => .error .fuel
  | n+1, p, size, acc =>
    if acc.length < size then
      match p._read ((size : Int) - (acc.length : Int)) with
      | (none, p) => .ok (acc, p)
      | (some c, p) => readLoopF n p size (acc ++ c)
    else .ok (acc, p)

/-- Tier three of the seek emulation: reset the primitive to the
absolute start and record the remaining distance in `soffset`; a
primitive refusing even that propagates its NotImplementedError. -/
def seekReset (f : FileLikeBase) (offset : Int) : Except Err FileLikeBase :=
  match f.prim._seek 0 0 with
  | .ok (_, p) => .ok { f with prim := p, soffset := offset, sbuffer := none }
  | .error _ => .error .notImplemented

/-- Tier two's absolute retry of the seek emulation: attempt an absolute
primitive seek, falling back to `seekReset` when unsupported. -/
def seekAbs (f : FileLikeBase) (offset : Int) : Except Err FileLikeBase :=
  match f.prim._seek offset 0 with
  | .ok (sbuf, p) => .ok { f with prim := p, sbuffer := sbuf }
  | .error _ => seekReset f offset

/-- The body of `read` after its buffer-reconciliation preamble: drain
the whole resource when `size` is non-positive, otherwise accumulate
`size` bytes (starting from the read-ahead buffer) and keep any surplus
as the new read-ahead. -/
def readMain (n : Nat) (f : FileLikeBase) (size : Int) : Except Err (List Char × FileLikeBase) :=
  if size ≤ 0 then do
    let dataInit := if truthy f.rbuffer then f.rbuffer.getD [] else []
    let f : FileLikeBase := { f with rbuffer := some [] }
    let (rest, p) ← readAllLoopF n f.prim []
    .ok (dataInit ++ rest, { f with prim := p })
  else do
    let acc0 := if truthy f.rbuffer then f.rbuffer.getD [] else []
    let (acc, p) ← readLoopF n f.prim size.toNat acc0
    if size.toNat < acc.length then
      .ok (acc.take size.toNat,
        { f with prim := p, rbuffer := some (acc.drop size.toNat) })
    else
      .ok (acc, { f with prim := p, rbuffer := some [] })

/-- Requests of the fuel-indexed evaluator: one constructor per mutually
recursive public operation, plus the two internal loops of `read` over
`soffset` and of `readline` over chunks, and the line-drain loop used by
end-relative seek emulation. -/
inductive Req
  | seekR (offset : Int) (whence : Nat)
  | readR (size : Int)
  | readlineR (size : Int)
  | writeR (s : List Char)
  | drainR
  | soLoopR (s : Int)
  | rlLoopR (size : Int) (bits : List (List Char)) (ssf : Nat)
deriving DecidableEq

/-- Results of the fuel-indexed evaluator. -/
inductive Ret
  | unitR (f : FileLikeBase)
  | bytesR (data : List Char) (f : FileLikeBase)
  | soR (s : Int) (f : FileLikeBase)
  | rlR (bits : List (List Char)) (ssf : Nat) (indx : Option Nat) (f : FileLikeBase)
deriving DecidableEq

/-- Extract a state-only result. -/
def asUnit : Except Err Ret → Except Err FileLikeBase
  | .ok (.unitR f) => .ok f
  | .ok _ => .error .never
  | .error e => .error e

/-- Extract a bytes-and-state result. -/
def asBytes : Except Err Ret → Except Err (List Char × FileLikeBase)
  | .ok (.bytesR d f) => .ok (d, f)
  | .ok _ => .error .never
  | .error e => .error e

/-- Extract the result of the soffset-discard loop. -/
def asSo : Except Err Ret → Except Err (Int × FileLikeBase)
  | .ok (.soR s f) => .ok (s, f)
  | .ok _ => .error .never
  | .error e => .error e

/-- Extract the result of the readline chunk loop. -/
def asRl : Except Err Ret → Except Err (List (List Char) × Nat × Option Nat × FileLikeBase)
  | .ok (.rlR bits ssf indx f) => .ok (bits, ssf, indx, f)
  | .ok _ => .error .never
  | .error e => .error e

/-- The fuel-indexed evaluator of the mutually recursive public
operations of FileLikeBase, one request constructor per operation,
translated line by line from the source. -/
def run : Nat → FileLikeBase → Req → Except Err Ret
  | 0, _, _ => .error .fuel
  | n+1, f, q =>
    match q with
    | .seekR offset whence =>
      if whence > 2 then .error .valueWhence
      else if f.modeForbidsSeek then .error .ioNotSeekableMode
      else do
        let f ← if truthy f.wbuffer then f.flush else .ok f
        let offset : Int := if whence = 1 ∧ truthy f.rbuffer then
            offset - ((f.rbuffer.getD []).length : Int) else offset
        let f : FileLikeBase := { f with rbuffer := none }
        let offset : Int :=
          if whence = 1 then
            let o : Int :=
              if truthy f.sbuffer then offset + ((f.sbuffer.getD []).length : Int) else offset
            if f.soffset ≠ 0 then o + f.soffset else o
          else offset
        let f : FileLikeBase := { f with sbuffer := none, soffset := 0 }
        if offset = 0 ∧ whence = 1 then .ok (.unitR f)
        else
          match f.prim._seek offset whence with
          | .ok (sbuf, p) => .ok (.unitR { f with prim := p, sbuffer := sbuf })
          | .error _ =>
            if whence = 1 then
              (seekAbs f (f.prim._tell + offset)).map .unitR
            else if whence = 2 then
              match f.sizeAttr with
              | some sz => (seekAbs f (sz + offset)).map .unitR
              | none => do
                let f ← asUnit (run n f .drainR)
                (seekAbs f (f.tell + offset)).map .unitR
            else
              (seekReset f offset).map .unitR
    | .readR size =>
      if f.closed then .error .ioClosed
      else do
        let _ ← f.assertMode ['r', '-']
        let f ← if f.wbuffer ≠ none then asUnit (run n f (.seekR 0 1)) else .ok f
        let f ←
          if truthy f.sbuffer then do
            let s := ((f.sbuffer.getD []).length : Int)
            let f : FileLikeBase := { f with sbuffer := none }
            let (_, f) ← asBytes (run n f (.readR s))
            .ok f
          else if f.soffset ≠ 0 then do
            let s := f.soffset
            let f : FileLikeBase := { f with soffset := 0 }
            let (s, f) ← asSo (run n f (.soLoopR s))
            let (_, f) ← asBytes (run n f (.readR s))
            .ok f
          else .ok f
        let (data, f) ← readMain n f size
        .ok (.bytesR data f)
    | .readlineR size => do
      let (bits, ssf, indx, f) ← asRl (run n f (.rlLoopR size [] 0))
      match indx with
      | none =>
        let data := bits.flatten
        if 0 < size ∧ (size : Int) < (ssf : Int) then
          let extra := data.drop size.toNat
          let data := data.take size.toNat
          .ok (.bytesR data { f with rbuffer := some (extra ++ f.rbuffer.getD []) })
        else .ok (.bytesR data f)
      | some i =>
        let i := i + 1
        let lastB := (bits.getLast?).getD []
        let extra := lastB.drop i
        let lastB := lastB.take i
        let bits := bits.dropLast ++ [lastB]
        .ok (.bytesR bits.flatten { f with rbuffer := some (extra ++ f.rbuffer.getD []) })
    | .writeR s =>
      if f.closed then .error .ioClosed
      else do
        let _ ← f.assertMode ['w', '-']
        let f ← if f.rbuffer ≠ none then asUnit (run n f (.seekR 0 1)) else .ok f
        let (s, f) ←
          if truthy f.sbuffer then
            .ok ((f.sbuffer.getD [] ++ s, { f with sbuffer := none }) :
              List Char × FileLikeBase)
          else if f.soffset ≠ 0 then do
            let so := f.soffset
            let f : FileLikeBase := { f with soffset := 0 }
            let (g, f) ← asBytes (run n f (.readR so))
            let f ← asUnit (run n f (.seekR 0 0))
            .ok (g ++ s, f)
          else .ok (s, f)
        let s := if truthy f.wbuffer then f.wbuffer.getD [] ++ s else s
        match f.prim._write s false with
        | (none, p) => .ok (.unitR { f with prim := p, wbuffer := some [] })
        | (some l, p) => .ok (.unitR { f with prim := p, wbuffer := some l })
    | .drainR => do
      let (ln, f) ← asBytes (run n f (.readlineR (-1)))
      if ln = [] then .ok (.unitR f)
      else run n f .drainR
    | .soLoopR s =>
      if s > (f.bufsize : Int) then do
        let (_, f) ← asBytes (run n f (.readR (f.bufsize : Int)))
        run n f (.soLoopR (s - (f.bufsize : Int)))
      else .ok (.soR s f)
    | .rlLoopR size bits ssf => do
      let (nextBit, f) ← asBytes (run n f (.readR (f.bufsize : Int)))
      let bits := bits ++ [nextBit]
      let ssf := ssf + nextBit.length
      if nextBit = [] then .ok (.rlR bits ssf none f)
      else if 0 < size ∧ (size : Int) ≤ (ssf : Int) then .ok (.rlR bits ssf none f)
      else
        match nextBit.findIdx? (fun c => c = '\n') with
        | some i => .ok (.rlR bits ssf (some i) f)
        | none => run n f (.rlLoopR size bits ssf)

/-- `seek` entry point. -/
def FileLikeBase.seek (fuel : Nat) (f : FileLikeBase) (offset : Int) (whence : Nat) :
    Except Err FileLikeBase :=
  asUnit (run fuel f (.seekR offset whence))

/-- `read` entry point. -/
def FileLikeBase.read (fuel : Nat) (f : FileLikeBase) (size : Int) :
    Except Err (List Char × FileLikeBase) :=
  asBytes (run fuel f (.readR size))

/-- `readline` entry point. -/
def FileLikeBase.readline (fuel : Nat) (f : FileLikeBase) (size : Int) :
    Except Err (List Char × FileLikeBase) :=
  asBytes (run fuel f (.readlineR size))

/-- `write` entry point. -/
def FileLikeBase.write (fuel : Nat) (f : FileLikeBase) (s : List Char) :
    Except Err FileLikeBase :=
  asUnit (run fuel f (.writeR s))

/-- A sub-file of a join: an in-memory file with StringIO semantics and
an optional explicit size attribute. -/
structure SFile where
  content : List Char
  pos : Nat
  sizeAttr : Option Int
deriving DecidableEq

/-- Sub-file write at the cursor. -/
def SFile.write (sf : SFile) (s : List Char) : SFile :=
  { sf with content := overwriteAt sf.content sf.pos s, pos := sf.pos + s.length }

/-- Sub-file tell. -/
def SFile.tell (sf : SFile) : Int := sf.pos

/-- Sub-file seek for the three whence values. -/
def SFile.seek (sf : SFile) (offset : Int) (whence : Nat) : SFile :=
  if whence = 0 then { sf with pos := offset.toNat }
  else if whence = 1 then { sf with pos := ((sf.pos : Int) + offset).toNat }
  else { sf with pos := ((sf.content.length : Int) + offset).toNat }

/-- Python slice `l[:i]` for a possibly negative `i`. -/
def pyTake (l : List Char) (i : Int) : List Char :=
  if 0 ≤ i then l.take i.toNat else l.take ((l.length : Int) + i).toNat

/-- Python slice `l[i:]` for a possibly negative `i`. -/
def pyDrop (l : List Char) (i : Int) : List Char :=
  if 0 ≤ i then l.drop i.toNat else l.drop ((l.length : Int) + i).toNat

/-- The `_write` of `join`: write unconditionally into the last
sub-file; into an earlier one write only up to its remaining capacity,
the size coming from the explicit size attribute when present and from
seek-to-end/seek-back otherwise, then advance and recurse with the
remainder.  The fuel only bounds the recursion over sub-files; `none`
also models the IndexError of an out-of-range current file. -/
def joinWrite : Nat → List SFile → Nat → List Char → Option (List SFile)
  | 0, _, _, _ => none
  | n+1, files, cur, data =>
    match files[cur]? with
    | none => none
    | some cf =>
      if cur = files.length - 1 then some (files.set cur (cf.write data))
      else
        let pos := cf.tell
        let (size, cf) :=
          match cf.sizeAttr with
          | some s => ((s : Int), cf)
          | none =>
            let cf := cf.seek 0 2
            let size := cf.tell
            let cf := cf.seek pos 0
            (size, cf)
        let gap : Int := size - pos
        if (data.length : Int) ≤ gap then some (files.set cur (cf.write data))
        else
          joinWrite n (files.set cur (cf.write (pyTake data gap))) (cur + 1) (pyDrop data gap)

/-- Specification-side description of one line: the shortest prefix
ending in a newline, or the whole string when it has none. -/
def lineUpTo (l : List Char) : List Char :=
  match l.findIdx? (fun c => c = '\n') with
  | some k => l.take (k + 1)
  | none => l

/-- The bytes still to be delivered to the caller: pending read-ahead
followed by the unread content of the primitive. -/
def availOf (f : FileLikeBase) : List Char :=
  f.rbuffer.getD [] ++ f.prim.content.drop f.prim.pos

/-- A state in a plain reading situation: open, no mode attribute, and
no pending write or skip state. -/
def ReadState (f : FileLikeBase) : Prop :=
  f.closed = false ∧ f.mode = none ∧ f.soffset = 0 ∧ f.sbuffer = none ∧ f.wbuffer = none

/-- The buffer invariant between public operations: the read-ahead and
write-behind buffers are never both non-empty, and a non-empty
write-behind can only exist when the mode permits writing (so that a
seek can always flush it). -/
def BufInv (f : FileLikeBase) : Prop :=
  ¬(truthy f.rbuffer = true ∧ truthy f.wbuffer = true) ∧
    (truthy f.wbuffer = true → f.checkMode ['w', '-'] = true)

/-- The state carried by an evaluator result. -/
def retSt : Ret → FileLikeBase
  | .unitR f => f
  | .bytesR _ f => f
  | .soR _ f => f
  | .rlR _ _ _ f => f

/-- Per-request postcondition of a successful evaluator step, relating
the input state and the result: seek clears the read-ahead (fully so
below end-relative) and leaves no pending write-behind; read and
readline leave no pending write-behind and, when they deliver nothing,
no pending read-ahead; write clears the read-ahead; the internal loops
propagate the corresponding facts. -/
def post (f : FileLikeBase) : Req → Ret → Prop
  | .seekR _ wh, .unitR g =>
      truthy g.rbuffer = false ∧ (wh ≤ 1 → g.rbuffer = none) ∧ truthy g.wbuffer = false
  | .readR _, .bytesR d g => truthy g.wbuffer = false ∧ (d = [] → truthy g.rbuffer = false)
  | .readlineR _, .bytesR d g => truthy g.wbuffer = false ∧ (d = [] → truthy g.rbuffer = false)
  | .writeR _, .unitR g => g.rbuffer = none
  | .drainR, .unitR g => truthy g.wbuffer = false ∧ truthy g.rbuffer = false
  | .soLoopR _, .soR _ g => truthy f.wbuffer = false → truthy g.wbuffer = false
  | .rlLoopR _ _ _, .rlR bits _ indx g =>
      truthy g.wbuffer = false ∧ bits ≠ [] ∧
      (bits.getLast? = some [] → truthy g.rbuffer = false ∧ indx = none)
  | _, _ => True

/-- The offset adjustment at the top of `seek`: a current-relative
offset is corrected for the pending read-ahead, skip-gap and skip
offset. -/
def seekAdjOffset (f : FileLikeBase) (off : Int) (wh : Nat) : Int :=
  let o1 := if wh = 1 ∧ truthy f.rbuffer = true then
    off - ((f.rbuffer.getD []).length : Int) else off
  if wh = 1 then
    let o2 := if truthy f.sbuffer = true then o1 + ((f.sbuffer.getD []).length : Int) else o1
    if f.soffset ≠ 0 then o2 + f.soffset else o2
  else o1

/-- The buffer clearing at the top of `seek`. -/
def seekCleared (f : FileLikeBase) : FileLikeBase :=
  { f with rbuffer := none, sbuffer := none, soffset := 0 }

/-- The tail of `seek` after the write-buffer flush: adjust the offset,
clear the buffers, shortcut staying put, and otherwise run the
three-tier emulation. -/
def seekTail (n : Nat) (f : FileLikeBase) (off : Int) (wh : Nat) : Except Err Ret :=
  if seekAdjOffset f off wh = 0 ∧ wh = 1 then .ok (.unitR (seekCleared f))
  else
    match (seekCleared f).prim._seek (seekAdjOffset f off wh) wh with
    | .ok (sbuf, p) => .ok (.unitR { seekCleared f with prim := p, sbuffer := sbuf })
    | .error _ =>
      if wh = 1 then
        (seekAbs (seekCleared f)
          ((seekCleared f).prim._tell + seekAdjOffset f off wh)).map .unitR
      else if wh = 2 then
        match (seekCleared f).sizeAttr with
        | some sz => (seekAbs (seekCleared f) (sz + seekAdjOffset f off wh)).map .unitR
        | none => do
            let f₄ ← asUnit (run n (seekCleared f) .drainR)
            (seekAbs f₄ (f₄.tell + seekAdjOffset f off wh)).map .unitR
      else (seekReset (seekCleared f) (seekAdjOffset f off wh)).map .unitR

/-- The tail of `read` after its closed/mode/write-buffer preamble:
reconcile the skip buffer or skip offset by recursive reads, then run
the main body. -/
def readMid (n : Nat) (f : FileLikeBase) (size : Int) : Except Err Ret := do
  let f ←
    if truthy f.sbuffer = true then do
      let (_, f₂) ← asBytes (run n { f with sbuffer := none }
        (.readR ((f.sbuffer.getD []).length : Int)))
      (.ok f₂ : Except Err FileLikeBase)
    else if f.soffset ≠ 0 then do
      let (s, f₂) ← asSo (run n { f with soffset := 0 } (.soLoopR f.soffset))
      let (_, f₃) ← asBytes (run n f₂ (.readR s))
      (.ok f₃ : Except Err FileLikeBase)
    else .ok f
  let (data, f₄) ← readMain n f size
  .ok (.bytesR data f₄)

/-- The final stage of `write`: call the primitive write and record the
unwritten remainder as the new write buffer. -/
def writeFin (f : FileLikeBase) (s : List Char) : Except Err Ret :=
  match f.prim._write s false with
  | (none, p) => .ok (.unitR { f with prim := p, wbuffer := some [] })
  | (some l, p) => .ok (.unitR { f with prim := p, wbuffer := some l })

/-- The tail of `write` after its closed/mode/read-buffer preamble:
reconcile the skip buffer or skip offset, prepend the pending write
buffer, and call the primitive write. -/
def writeMid (n : Nat) (f : FileLikeBase) (s : List Char) : Except Err Ret := do
  let (s, f) ←
    if truthy f.sbuffer then
      (.ok (f.sbuffer.getD [] ++ s, { f with sbuffer := none }) :
        Except Err (List Char × FileLikeBase))
    else if f.soffset ≠ 0 then do
      let so := f.soffset
      let f : FileLikeBase := { f with soffset := 0 }
      let (g, f) ← asBytes (run n f (.readR so))
      let f ← asUnit (run n f (.seekR 0 0))
      (.ok (g ++ s, f) : Except Err (List Char × FileLikeBase))
    else .ok (s, f)
  let s := if truthy f.wbuffer then f.wbuffer.getD [] ++ s else s
  writeFin f s

/-- One iteration of the `readline` loop after its chunk read: append
the chunk and decide between the three stop conditions and recursion. -/
def rlStep (n : Nat) (size : Int) (bits : List (List Char)) (ssf : Nat)
    (nb : List Char) (f₂ : FileLikeBase) : Except Err Ret :=
  let bits := bits ++ [nb]
  let ssf := ssf + nb.length
  if nb = [] then .ok (.rlR bits ssf none f₂)
  else if 0 < size ∧ (size : Int) ≤ (ssf : Int) then .ok (.rlR bits ssf none f₂)
  else
    match nb.findIdx? (fun c => c = '\n') with
    | some i => .ok (.rlR bits ssf (some i) f₂)
    | none => run n f₂ (.rlLoopR size bits ssf)

/-- The tail of `readline` after its loop: trim at the found terminator
or at the size limit, pushing the surplus back onto the read buffer. -/
def rlFinish (size : Int) (ssf : Nat) (bits : List (List Char)) (indx : Option Nat)
    (f₂ : FileLikeBase) : Except Err Ret :=
  match indx with
  | none =>
    let data := bits.flatten
    if 0 < size ∧ (size : Int) < (ssf : Int) then
      let extra := data.drop size.toNat
      let data := data.take size.toNat
      .ok (.bytesR data { f₂ with rbuffer := some (extra ++ f₂.rbuffer.getD []) })
    else .ok (.bytesR data f₂)
  | some i =>
    let i := i + 1
    let lastB := (bits.getLast?).getD []
    let extra := lastB.drop i
    let lastB := lastB.take i
    let bits := bits.dropLast ++ [lastB]
    .ok (.bytesR bits.flatten { f₂ with rbuffer := some (extra ++ f₂.rbuffer.getD []) })

/-- The bytes the bounded read loop obtains from the primitive in its
first call when the read-ahead holds fewer than `m` bytes: the remaining
need plus the primitive over-return allowance, capped by the content. -/
def readChunkOf (f : FileLikeBase) (m : Nat) : List Char :=
  (f.prim.content.drop f.prim.pos).take (m - (f.rbuffer.getD []).length + f.prim.extra)

/-- All bytes accumulated by a bounded read of `m` bytes: the pending
read-ahead followed by the first primitive chunk. -/
def readAccumOf (f : FileLikeBase) (m : Nat) : List Char :=
  f.rbuffer.getD [] ++ readChunkOf f m

/-- A sample primitive used by concrete witnesses. -/
def samplePrim : Prim :=
  { content := "abcdef".toList, pos := 0, extra := 0, wcap := none, cap := .full, rlog := [] }

/-- A sample open adapter state used by concrete witnesses. -/
def sampleOpen : FileLikeBase :=
  { prim := samplePrim, closed := false, mode := none, sizeAttr := none,
    bufsize := 1024, rbuffer := none, wbuffer := none, sbuffer := none, soffset := 0 }

/-- A sample closed adapter state used by concrete witnesses. -/
def sampleClosed : FileLikeBase :=
  { sampleOpen with closed := true }

/-- A sample open state whose primitive over-returns two bytes per
read, used to exercise the surplus path of C1. -/
def sampleExtra : FileLikeBase :=
  { sampleOpen with prim := { samplePrim with content := "abcdefgh".toList, extra := 2 } }

/-- A sample open state over a start-only-seekable primitive, used to
exercise the seek emulation of C3. -/
def sampleSkip : FileLikeBase :=
  { sampleOpen with
      bufsize := 100,
      prim := { samplePrim with
        content := "Lorem ipsum dolor sit amet".toList,
        cap := .startOnly } }

/-- A sample state whose content holds a newline early, used to exercise
the size-limit path of readline. -/
def sampleLine : FileLikeBase :=
  { sampleOpen with prim := { samplePrim with content := "ab\ncdef".toList } }

/-- Three sub-files of a sample join: two fixed-size heads (one with an
explicit size attribute, one without) and a growable tail. -/
def sampleFiles : List SFile :=
  [{ content := "abcde".toList, pos := 0, sizeAttr := none },
   { content := "fgh".toList, pos := 0, sizeAttr := some 3 },
   { content := "ijklm".toList, pos := 0, sizeAttr := none }]

/-- The sample join after writing seven bytes at the start: the heads
are overwritten within their sizes, the tail untouched. -/
def sampleJoinOut : List SFile :=
  [{ content := "XXXXX".toList, pos := 5, sizeAttr := none },
   { content := "XXh".toList, pos := 2, sizeAttr := some 3 },
   { content := "ijklm".toList, pos := 0, sizeAttr := none }]

/-- The start-only sample after closing, used to exercise seek and tell
on a closed stream. -/
def sampleClosedSkip : FileLikeBase :=
  { sampleSkip with closed := true }

/-- The state left by readline(5) on the newline sample: the whole
content was read in one chunk, the first five bytes were returned and
the rest pushed back as read-ahead. -/
def sampleLinePost : FileLikeBase :=
  { sampleLine with
      prim := { sampleLine.prim with pos := 7, rlog := [1024, 1017] },
      rbuffer := some ['e', 'f'] }

/-- A sample open state over a primitive that supports no seek at all,
violating the documented seek-to-start contract. -/
def sampleNoSeek : FileLikeBase :=
  { sampleOpen with prim := { samplePrim with cap := .noneCap } }

/-- A sequence of public operations run in order, each continuing from
the state its predecessor returned. -/
def runSeq (fuel : Nat) : FileLikeBase → List Req → Except Err FileLikeBase
  | f, [] => .ok f
  | f, q :: qs => do
      let r ← run fuel f q
      runSeq fuel (retSt r) qs

/- Helper lemmas about truthiness and the buffer arithmetic. -/

theorem getD_nil_of_not_truthy : ∀ {o : Option (List Char)}, truthy o = false → o.getD [] = []
  | none, _ => rfl
  | some [], _ => rfl
  | some (_ :: _), h => by simp [truthy] at h

theorem ite_truthy_add (o : Option (List Char)) (x : Int) :
    (if truthy o then x + ((o.getD []).length : Int) else x) = x + ((o.getD []).length : Int) := by
  cases h : truthy o
  · simp [getD_nil_of_not_truthy h]
  · simp

theorem ite_truthy_sub (o : Option (List Char)) (x : Int) :
    (if truthy o then x - ((o.getD []).length : Int) else x) = x - ((o.getD []).length : Int) := by
  cases h : truthy o
  · simp [getD_nil_of_not_truthy h]
  · simp

theorem ite_soffset_add (so : Int) (x : Int) :
    (if so ≠ 0 then x + so else x) = x + so := by
  by_cases h : so = 0 <;> simp [h]

/-- The tell formula: the primitive position adjusted by every
buffer. -/
theorem tell_formula (f : FileLikeBase) :
    f.tell = (f.prim.pos : Int) - ((f.rbuffer.getD []).length : Int)
      + ((f.wbuffer.getD []).length : Int) + ((f.sbuffer.getD []).length : Int)
      + f.soffset := by
  unfold FileLikeBase.tell Prim._tell
  dsimp only
  rw [ite_truthy_sub, ite_truthy_add, ite_truthy_add, ite_soffset_add]

/-- C2: tell() returns the primitive position minus the read-ahead
length, plus the write-behind length, plus the skip-gap length, plus the
skip offset, with no other resource access (the embedding of `tell` is a
pure function of the state whose only primitive use is `_tell`). -/
theorem tell_adjusts_buffers (f : FileLikeBase) :
    f.tell = (f.prim.pos : Int) - ((f.rbuffer.getD []).length : Int)
      + ((f.wbuffer.getD []).length : Int) + ((f.sbuffer.getD []).length : Int)
      + f.soffset := tell_formula f

/-- C9: close is idempotent — a second close is a no-op returning no
error, the first close flushes then marks closed, and read/write on a
closed stream fail with the closed-file error. -/
theorem close_idempotent_and_closed_rejects (n : Nat) (f : FileLikeBase)
    (size : Int) (s : List Char) :
    (f.closed = true → f.close = .ok f) ∧
    (f.closed = false → f.close = f.flush.map (fun g => { g with closed := true })) ∧
    (f.closed = true → FileLikeBase.read (n+1) f size = .error .ioClosed) ∧
    (f.closed = true → FileLikeBase.write (n+1) f s = .error .ioClosed) := by
  refine ⟨?_, ?_, ?_, ?_⟩
  · intro h; unfold FileLikeBase.close; simp [h]
  · intro h
    unfold FileLikeBase.close
    simp [h]
    cases hf : f.flush <;> simp [Except.map]
  · intro h
    unfold FileLikeBase.read
    simp [run, h, asBytes]
  · intro h
    unfold FileLikeBase.write
    simp [run, h, asUnit]

/- Characterization of the primitive read and of the bounded read
loop on the modelled primitive. -/

theorem _read_eof {p : Prim} (h : p.content.length ≤ p.pos) (hint : Int) :
    p._read hint = (none, { p with rlog := p.rlog ++ [hint] }) := by
  unfold Prim._read
  simp [h]

theorem _read_pos {p : Prim} (h : p.pos < p.content.length) {hint : Int} (hpos : 0 < hint) :
    p._read hint = (some ((p.content.drop p.pos).take (hint.toNat + p.extra)),
      { p with pos := p.pos + ((p.content.drop p.pos).take (hint.toNat + p.extra)).length,
               rlog := p.rlog ++ [hint] }) := by
  unfold Prim._read
  simp [Nat.not_le.mpr h, Int.not_le.mpr hpos]

theorem _read_drain {p : Prim} (h : p.pos < p.content.length) {hint : Int} (hnp : hint ≤ 0) :
    p._read hint = (some (p.content.drop p.pos),
      { p with pos := p.pos + (p.content.drop p.pos).length,
               rlog := p.rlog ++ [hint] }) := by
  unfold Prim._read
  simp [Nat.not_le.mpr h, hnp]

theorem readLoopF_done (n : Nat) (p : Prim) (size : Nat) (acc : List Char)
    (h : size ≤ acc.length) :
    readLoopF (n+1) p size acc = .ok (acc, p) := by
  unfold readLoopF
  simp [Nat.not_lt.mpr h]

theorem readLoopF_eof (n : Nat) (p : Prim) (size : Nat) (acc : List Char)
    (hacc : acc.length < size) (heof : p.content.length ≤ p.pos) :
    readLoopF (n+1) p size acc =
      .ok (acc, { p with rlog := p.rlog ++ [(size : Int) - (acc.length : Int)] }) := by
  unfold readLoopF
  simp [hacc, _read_eof heof]

theorem readLoopF_one (n : Nat) (p : Prim) (size : Nat) (acc : List Char)
    (hacc : acc.length < size) (hlt : p.pos < p.content.length)
    (henough : size ≤ acc.length + ((p.content.drop p.pos).take (size - acc.length + p.extra)).length) :
    readLoopF (n+2) p size acc =
      .ok (acc ++ (p.content.drop p.pos).take (size - acc.length + p.extra),
        { p with pos := p.pos + ((p.content.drop p.pos).take (size - acc.length + p.extra)).length,
                 rlog := p.rlog ++ [(size : Int) - (acc.length : Int)] }) := by
  have hpos : (0 : Int) < (size : Int) - (acc.length : Int) := by omega
  have htn : ((size : Int) - (acc.length : Int)).toNat = size - acc.length := by omega
  show readLoopF (n+1+1) p size acc = _
  unfold readLoopF
  rw [if_pos hacc, _read_pos hlt hpos, htn]
  exact readLoopF_done n _ size _ (by simpa using henough)

theorem readLoopF_short (n : Nat) (p : Prim) (size : Nat) (acc : List Char)
    (hacc : acc.length < size) (hlt : p.pos < p.content.length)
    (hshort : acc.length + ((p.content.drop p.pos).take (size - acc.length + p.extra)).length < size) :
    readLoopF (n+2) p size acc =
      .ok (acc ++ (p.content.drop p.pos).take (size - acc.length + p.extra),
        { p with pos := p.pos + ((p.content.drop p.pos).take (size - acc.length + p.extra)).length,
                 rlog := p.rlog ++ [(size : Int) - (acc.length : Int),
                   (size : Int) - ((acc.length : Int) + ((p.content.drop p.pos).take (size - acc.length + p.extra)).length)] }) := by
  have hpos : (0 : Int) < (size : Int) - (acc.length : Int) := by omega
  have htn : ((size : Int) - (acc.length : Int)).toNat = size - acc.length := by omega
  have hchlen : ((p.content.drop p.pos).take (size - acc.length + p.extra)).length
      = min (size - acc.length + p.extra) (p.content.length - p.pos) := by
    simp [List.length_take, List.length_drop]
  have hall : ((p.content.drop p.pos).take (size - acc.length + p.extra)).length
      = p.content.length - p.pos := by
    omega
  show readLoopF (n+1+1) p size acc = _
  unfold readLoopF
  rw [if_pos hacc, _read_pos hlt hpos, htn]
  show readLoopF (n+1) _ size _ = _
  rw [readLoopF_eof n _ size _ (by simpa using hshort) (by simp; omega)]
  simp [List.append_assoc]

theorem ite_truthy_getD (o : Option (List Char)) :
    (if truthy o then o.getD [] else []) = o.getD [] := by
  cases h : truthy o
  · simp [getD_nil_of_not_truthy h]
  · simp

/-- On a plain reading state the preamble of `read` does nothing, so a
read is exactly its main body. -/
theorem read_preamble_noop (n : Nat) (f : FileLikeBase) (size : Int) (hrs : ReadState f) :
    FileLikeBase.read (n+1) f size = readMain n f size := by
  obtain ⟨h1, h2, h3, h4, h5⟩ := hrs
  unfold FileLikeBase.read
  cases hm : readMain n f size with
  | ok v =>
    obtain ⟨d, f₁⟩ := v
    simp [run, h1, h2, h3, h4, h5, FileLikeBase.assertMode, truthy, asBytes, hm,
      Bind.bind, Except.bind]
  | error e =>
    simp [run, h1, h2, h3, h4, h5, FileLikeBase.assertMode, truthy, asBytes, hm,
      Bind.bind, Except.bind]

theorem take_saturate (l : List Char) (K : Nat) : l.take ((l.take K).length) = l.take K := by
  rcases Nat.le_total K l.length with h | h
  · simp [List.length_take, Nat.min_eq_left h]
  · simp [List.length_take, Nat.min_eq_right h, List.take_of_length_le h, List.take_length]

theorem drop_saturate (l : List Char) (K : Nat) : l.drop ((l.take K).length) = l.drop K := by
  rcases Nat.le_total K l.length with h | h
  · simp [List.length_take, Nat.min_eq_left h]
  · simp [List.length_take, Nat.min_eq_right h, List.drop_eq_nil_of_le h, List.drop_length]

/-- Partial correctness of the bounded read loop on the modelled
primitive: whatever it returns extends the accumulator with the next
bytes of the content, moves the cursor accordingly, changes no other
primitive field, and only stops with enough bytes or at end of
resource. -/
theorem readLoopF_inv : ∀ (fuel : Nat) (p : Prim) (size : Nat) (acc res : List Char) (p₁ : Prim),
    readLoopF fuel p size acc = .ok (res, p₁) →
    ∃ t, res = acc ++ (p.content.drop p.pos).take t ∧
      p₁.pos = p.pos + ((p.content.drop p.pos).take t).length ∧
      p₁.content = p.content ∧ p₁.extra = p.extra ∧ p₁.cap = p.cap ∧ p₁.wcap = p.wcap ∧
      (size ≤ res.length ∨ p.content.length ≤ p₁.pos)
  | 0, p, size, acc, res, p₁, h => by simp [readLoopF] at h
  | fuel+1, p, size, acc, res, p₁, h => by
    unfold readLoopF at h
    by_cases hacc : acc.length < size
    · rw [if_pos hacc] at h
      by_cases heof : p.content.length ≤ p.pos
      · rw [_read_eof heof] at h
        simp only [Except.ok.injEq, Prod.mk.injEq] at h
        obtain ⟨h1, h2⟩ := h
        subst h1
        subst h2
        exact ⟨0, by simp, by simp, rfl, rfl, rfl, rfl, .inr (by simpa using heof)⟩
      · have hlt : p.pos < p.content.length := by omega
        have hip : (0 : Int) < (size : Int) - (acc.length : Int) := by omega
        rw [_read_pos hlt hip] at h
        obtain ⟨t₁, e1, e2, e3, e4, e5, e6, e7⟩ := readLoopF_inv fuel _ size _ res p₁ h
        simp only at e1 e2 e3 e4 e5 e6 e7
        set l := p.content.drop p.pos with hl
        set K := ((size : Int) - (acc.length : Int)).toNat + p.extra with hK
        have hdd : p.content.drop (p.pos + (l.take K).length) = l.drop K := by
          rw [← List.drop_drop, ← hl, drop_saturate]
        rw [hdd] at e1 e2
        refine ⟨K + t₁, ?_, ?_, e3, e4, e5, e6, e7⟩
        · rw [e1]
          conv_rhs => rw [List.take_add]
          rw [List.append_assoc]
        · rw [e2]
          simp only [List.length_take, List.length_drop]
          omega
    · rw [if_neg hacc] at h
      simp only [Except.ok.injEq, Prod.mk.injEq] at h
      obtain ⟨h1, h2⟩ := h
      subst h1
      subst h2
      exact ⟨0, by simp, by simp, rfl, rfl, rfl, rfl, .inl (by omega)⟩

/-- Partial correctness of the main read body for a positive size: it
returns exactly the next `size` pending bytes, the pending stream loses
those bytes, the read-ahead ends up populated, and every other component
of the state is unchanged. -/
theorem readMain_inv (fuel : Nat) (f : FileLikeBase) (size : Int) (data : List Char)
    (f₁ : FileLikeBase) (hpos : 0 < size)
    (h : readMain fuel f size = .ok (data, f₁)) :
    data = (availOf f).take size.toNat ∧
    availOf f₁ = (availOf f).drop size.toNat ∧
    (∃ rb, f₁.rbuffer = some rb) ∧
    f₁.prim.content = f.prim.content ∧ f₁.prim.cap = f.prim.cap ∧
    f₁.prim.extra = f.prim.extra ∧ f₁.prim.wcap = f.prim.wcap ∧
    f₁.closed = f.closed ∧ f₁.mode = f.mode ∧ f₁.soffset = f.soffset ∧
    f₁.sbuffer = f.sbuffer ∧ f₁.wbuffer = f.wbuffer ∧ f₁.bufsize = f.bufsize ∧
    f₁.sizeAttr = f.sizeAttr := by
  have hsz : ¬ size ≤ 0 := by omega
  unfold readMain at h
  rw [if_neg hsz, ite_truthy_getD] at h
  dsimp only at h
  cases hloop : readLoopF fuel f.prim size.toNat (f.rbuffer.getD []) with
  | error e => rw [hloop] at h; simp [Bind.bind, Except.bind] at h
  | ok v =>
    obtain ⟨res, p₁⟩ := v
    rw [hloop] at h
    simp only [Bind.bind, Except.bind] at h
    obtain ⟨t, e1, e2, e3, e4, e5, e6, e7⟩ := readLoopF_inv fuel _ _ _ _ _ hloop
    set m := size.toNat with hm
    set acc0 := f.rbuffer.getD [] with hacc0
    set l := f.prim.content.drop f.prim.pos with hl
    have hlenl : l.length = f.prim.content.length - f.prim.pos := by
      rw [hl, List.length_drop]
    have hlent : (l.take t).length = min t l.length := List.length_take ..
    have hkey : m ≤ res.length ∨ (l.length ≤ t ∧ l.take t = l) := by
      rcases e7 with h7 | h7
      · exact .inl h7
      · right
        have hlet : l.length ≤ t := by
          rw [e2, hlent] at h7
          omega
        exact ⟨hlet, List.take_of_length_le hlet⟩
    have hdd : f.prim.content.drop (f.prim.pos + (l.take t).length) = l.drop t := by
      rw [← List.drop_drop, ← hl, drop_saturate]
    have havail : availOf f = res ++ l.drop t := by
      rw [availOf, ← hacc0, ← hl, e1, List.append_assoc, List.take_append_drop]
    have hres_take : res.take m = (availOf f).take m := by
      rcases hkey with hk | ⟨hkl, hke⟩
      · rw [havail, List.take_append_of_le_length hk]
      · rw [havail, List.drop_eq_nil_of_le hkl, List.append_nil]
    have hres_all : res.length ≤ m → res = (availOf f).take m := by
      intro hrl
      rcases hkey with hk | ⟨hkl, hke⟩
      · have hrm : res.length = m := Nat.le_antisymm hrl hk
        rw [← hres_take, ← hrm, List.take_length]
      · have : l.drop t = [] := List.drop_eq_nil_of_le hkl
        rw [havail, this, List.append_nil, List.take_of_length_le hrl]
    have hdrop_res : (availOf f).drop m = res.drop m ++ (l.drop t).drop (m - res.length) := by
      rw [havail, List.drop_append_eq_append_drop]
    by_cases hc : m < res.length
    · rw [if_pos hc] at h
      simp only [Except.ok.injEq, Prod.mk.injEq] at h
      obtain ⟨hdata, hf⟩ := h
      subst hdata
      subst hf
      refine ⟨hres_take, ?_, ⟨_, rfl⟩, e3, e5, e4, e6, rfl, rfl, rfl, rfl, rfl, rfl, rfl⟩
      show res.drop m ++ p₁.content.drop p₁.pos = _
      rw [e3, e2, hdd, hdrop_res, Nat.sub_eq_zero_of_le (Nat.le_of_lt hc), List.drop_zero]
    · rw [if_neg hc] at h
      simp only [Except.ok.injEq, Prod.mk.injEq] at h
      obtain ⟨hdata, hf⟩ := h
      subst hdata
      subst hf
      have hrl : res.length ≤ m := by omega
      refine ⟨hres_all hrl, ?_, ⟨_, rfl⟩, e3, e5, e4, e6, rfl, rfl, rfl, rfl, rfl, rfl, rfl⟩
      show ([] : List Char) ++ p₁.content.drop p₁.pos = _
      rw [e3, e2, hdd, hdrop_res, List.nil_append]
      have hres_nil : res.drop m = [] := List.drop_eq_nil_of_le hrl
      rcases hkey with hk | ⟨hkl, hke⟩
      · have hrm : res.length = m := Nat.le_antisymm hrl hk
        rw [hres_nil, List.nil_append, hrm, Nat.sub_self, List.drop_zero]
      · have hldt : l.drop t = [] := List.drop_eq_nil_of_le hkl
        rw [hldt, hres_nil]
        simp

theorem readLoopF_isOk (n : Nat) (p : Prim) (size : Nat) (acc : List Char) :
    ∃ v, readLoopF (n+2) p size acc = .ok v := by
  by_cases h1 : size ≤ acc.length
  · exact ⟨_, readLoopF_done (n+1) _ _ _ h1⟩
  · by_cases h2 : p.content.length ≤ p.pos
    · exact ⟨_, readLoopF_eof (n+1) _ _ _ (by omega) h2⟩
    · by_cases h3 : size ≤ acc.length +
          ((p.content.drop p.pos).take (size - acc.length + p.extra)).length
      · exact ⟨_, readLoopF_one n _ _ _ (by omega) (by omega) h3⟩
      · exact ⟨_, readLoopF_short n _ _ _ (by omega) (by omega) (by omega)⟩

/-- Full characterization of `read` with a positive size from a plain
reading state: the preamble does nothing, the call succeeds, and the
main body delivers exactly the next pending bytes. -/
theorem read_spec (n : Nat) (f : FileLikeBase) (size : Int)
    (hrs : ReadState f) (hpos : 0 < size) :
    ∃ f₁, FileLikeBase.read (n+3) f size = .ok ((availOf f).take size.toNat, f₁) ∧
      availOf f₁ = (availOf f).drop size.toNat ∧
      ReadState f₁ ∧
      (∃ rb, f₁.rbuffer = some rb) ∧
      f₁.prim.content = f.prim.content ∧
      f₁.prim.cap = f.prim.cap ∧
      f₁.prim.extra = f.prim.extra ∧
      f₁.prim.wcap = f.prim.wcap ∧
      f₁.bufsize = f.bufsize ∧
      f₁.sizeAttr = f.sizeAttr ∧
      f₁.mode = f.mode := by
  have hsz : ¬ size ≤ 0 := by omega
  cases hv : readMain (n+2) f size with
  | error e =>
    exfalso
    obtain ⟨⟨res, p₁⟩, hloop⟩ := readLoopF_isOk n f.prim size.toNat (f.rbuffer.getD [])
    unfold readMain at hv
    rw [if_neg hsz, ite_truthy_getD] at hv
    dsimp only at hv
    rw [hloop] at hv
    simp only [Bind.bind, Except.bind] at hv
    split at hv <;> simp at hv
  | ok v =>
    obtain ⟨data, f₁⟩ := v
    obtain ⟨hd, ha, hrb, hc1, hc2, hc3, hc4, hc5, hc6, hc7, hc8, hc9, hc10, hc11⟩ :=
      readMain_inv (n+2) f size data f₁ hpos hv
    refine ⟨f₁, ?_, ha, ?_, hrb, hc1, hc2, hc3, hc4, hc10, hc11, hc6⟩
    · rw [read_preamble_noop (n+2) f size hrs, hv, hd]
    · obtain ⟨g1, g2, g3, g4, g5⟩ := hrs
      exact ⟨by rw [hc5, g1], by rw [hc6, g2], by rw [hc7, g3], by rw [hc8, g4],
        by rw [hc9, g5]⟩

/-- C1: for a readable stream and positive maxBytes, read loops on the
primitive with strictly decreasing size hints until enough bytes
(counting the pending read-ahead) have accumulated or the primitive
signals end of resource; it returns at most maxBytes bytes — exactly the
first maxBytes of the accumulated bytes — and the surplus becomes the
new read-ahead buffer, delivered first by the next read. -/
theorem read_accumulates_and_buffers_surplus (n : Nat) (f : FileLikeBase) (size : Int)
    (hrs : ReadState f) (hpos : 0 < size) :
    ∃ f₁,
      FileLikeBase.read (n+3) f size = .ok ((availOf f).take size.toNat, f₁) ∧
      ((availOf f).take size.toNat).length ≤ size.toNat ∧
      (size.toNat ≤ (f.rbuffer.getD []).length →
        f₁.rbuffer = some ((f.rbuffer.getD []).drop size.toNat) ∧ f₁.prim = f.prim) ∧
      ((f.rbuffer.getD []).length < size.toNat →
        f₁.rbuffer = some ((readAccumOf f size.toNat).drop size.toNat) ∧
        (availOf f).take size.toNat ++ (readAccumOf f size.toNat).drop size.toNat
          = readAccumOf f size.toNat ∧
        f₁.prim.pos = f.prim.pos + (readChunkOf f size.toNat).length ∧
        (size.toNat ≤ (readAccumOf f size.toNat).length ∨
          f.prim.content.length ≤ f₁.prim.pos) ∧
        ∃ hints, f₁.prim.rlog = f.prim.rlog ++ hints ∧ hints ≠ [] ∧
          hints.head? = some ((size : Int) - ((f.rbuffer.getD []).length : Int)) ∧
          hints.Chain' (fun a b => b < a)) := by
  have hpre := read_preamble_noop (n+2) f size hrs
  have hsz : ¬ size ≤ 0 := by omega
  have hm0 : 0 < size.toNat := by omega
  have hcast : ((size.toNat : Nat) : Int) = size := Int.toNat_of_nonneg (by omega)
  by_cases hA : size.toNat ≤ (f.rbuffer.getD []).length
  · have hloop := readLoopF_done (n+1) f.prim size.toNat (f.rbuffer.getD []) hA
    have hrun : readMain (n+2) f size =
        .ok ((f.rbuffer.getD []).take size.toNat,
          { f with rbuffer := some ((f.rbuffer.getD []).drop size.toNat) }) := by
      unfold readMain
      rw [if_neg hsz, ite_truthy_getD]
      dsimp only
      rw [hloop]
      simp only [Bind.bind, Except.bind]
      by_cases hA2 : size.toNat < (f.rbuffer.getD []).length
      · rw [if_pos hA2]
      · rw [if_neg hA2]
        have hmeq : size.toNat = (f.rbuffer.getD []).length := by omega
        rw [hmeq, List.take_length, List.drop_length]
    have hdata : (availOf f).take size.toNat = (f.rbuffer.getD []).take size.toNat := by
      rw [availOf]
      exact List.take_append_of_le_length hA
    refine ⟨{ f with rbuffer := some ((f.rbuffer.getD []).drop size.toNat) }, ?_, ?_,
      fun _ => ⟨rfl, rfl⟩, fun hcon => absurd hcon (by omega)⟩
    · rw [hpre, hrun, hdata]
    · simp [List.length_take]
  · have hacc : (f.rbuffer.getD []).length < size.toNat := by omega
    by_cases heof : f.prim.content.length ≤ f.prim.pos
    · have hlnil : f.prim.content.drop f.prim.pos = [] := List.drop_eq_nil_of_le heof
      have hch : readChunkOf f size.toNat = [] := by
        rw [readChunkOf, hlnil, List.take_nil]
      have hloop := readLoopF_eof (n+1) f.prim size.toNat (f.rbuffer.getD []) hacc heof
      rw [hcast] at hloop
      have hav : availOf f = f.rbuffer.getD [] := by
        rw [availOf, hlnil, List.append_nil]
      have hrun : readMain (n+2) f size =
          .ok (f.rbuffer.getD [],
            { f with
                prim := { f.prim with
                  rlog := f.prim.rlog ++ [(size : Int) - ((f.rbuffer.getD []).length : Int)] },
                rbuffer := some [] }) := by
        unfold readMain
        rw [if_neg hsz, ite_truthy_getD]
        dsimp only
        rw [hloop]
        simp only [Bind.bind, Except.bind]
        rw [if_neg (by omega)]
      have hdata : (availOf f).take size.toNat = f.rbuffer.getD [] := by
        rw [hav]
        exact List.take_of_length_le (by omega)
      have haccum : readAccumOf f size.toNat = f.rbuffer.getD [] := by
        rw [readAccumOf, hch, List.append_nil]
      refine ⟨{ f with
          prim := { f.prim with
            rlog := f.prim.rlog ++ [(size : Int) - ((f.rbuffer.getD []).length : Int)] },
          rbuffer := some [] }, ?_, ?_,
        fun hcon => absurd hcon (by omega), fun _ => ?_⟩
      · rw [hpre, hrun, hdata]
      · simp [List.length_take]
      · refine ⟨?_, ?_, ?_, .inr (by simpa using heof), ⟨_, rfl, by simp, rfl, by simp⟩⟩
        · show some [] = _
          rw [haccum, List.drop_eq_nil_of_le (by omega)]
        · rw [hdata, haccum, List.drop_eq_nil_of_le (by omega), List.append_nil]
        · show f.prim.pos = _
          rw [hch]
          simp
    · have hlt : f.prim.pos < f.prim.content.length := by omega
      by_cases henough : size.toNat ≤ (f.rbuffer.getD []).length +
          ((f.prim.content.drop f.prim.pos).take
            (size.toNat - (f.rbuffer.getD []).length + f.prim.extra)).length
      · have hloop := readLoopF_one n f.prim size.toNat (f.rbuffer.getD []) hacc hlt henough
        rw [hcast] at hloop
        have haclen : size.toNat ≤ (readAccumOf f size.toNat).length := by
          rw [readAccumOf, readChunkOf]
          simpa using henough
        have hsplit : availOf f = readAccumOf f size.toNat ++
            (f.prim.content.drop f.prim.pos).drop
              (size.toNat - (f.rbuffer.getD []).length + f.prim.extra) := by
          rw [availOf, readAccumOf, readChunkOf, List.append_assoc, List.take_append_drop]
        have hdata : (availOf f).take size.toNat = (readAccumOf f size.toNat).take size.toNat := by
          rw [hsplit]
          exact List.take_append_of_le_length haclen
        have hrun : readMain (n+2) f size =
            .ok ((readAccumOf f size.toNat).take size.toNat,
              { f with
                  prim := { f.prim with
                    pos := f.prim.pos + (readChunkOf f size.toNat).length,
                    rlog := f.prim.rlog ++ [(size : Int) - ((f.rbuffer.getD []).length : Int)] },
                  rbuffer := some ((readAccumOf f size.toNat).drop size.toNat) }) := by
          unfold readMain
          rw [if_neg hsz, ite_truthy_getD]
          dsimp only
          rw [hloop]
          simp only [Bind.bind, Except.bind]
          rw [show readAccumOf f size.toNat = f.rbuffer.getD [] ++
            (f.prim.content.drop f.prim.pos).take
              (size.toNat - (f.rbuffer.getD []).length + f.prim.extra) from rfl] at haclen ⊢
          by_cases hA2 : size.toNat < ((f.rbuffer.getD []) ++
              (f.prim.content.drop f.prim.pos).take
                (size.toNat - (f.rbuffer.getD []).length + f.prim.extra)).length
          · rw [if_pos hA2]
            rfl
          · rw [if_neg hA2]
            have h1 : ((f.rbuffer.getD []) ++
                (f.prim.content.drop f.prim.pos).take
                  (size.toNat - (f.rbuffer.getD []).length + f.prim.extra)).take size.toNat
                = (f.rbuffer.getD []) ++
                  (f.prim.content.drop f.prim.pos).take
                    (size.toNat - (f.rbuffer.getD []).length + f.prim.extra) :=
              List.take_of_length_le (by omega)
            have h2 : ((f.rbuffer.getD []) ++
                (f.prim.content.drop f.prim.pos).take
                  (size.toNat - (f.rbuffer.getD []).length + f.prim.extra)).drop size.toNat
                = [] := List.drop_eq_nil_of_le (by omega)
            rw [h1, h2]
            rfl
        refine ⟨{ f with
            prim := { f.prim with
              pos := f.prim.pos + (readChunkOf f size.toNat).length,
              rlog := f.prim.rlog ++ [(size : Int) - ((f.rbuffer.getD []).length : Int)] },
            rbuffer := some ((readAccumOf f size.toNat).drop size.toNat) }, ?_, ?_,
          fun hcon => absurd hcon (by omega), fun _ => ?_⟩
        · rw [hpre, hrun, hdata]
        · simp [List.length_take]
        · refine ⟨rfl, ?_, rfl, .inl haclen, ⟨_, rfl, by simp, rfl, by simp⟩⟩
          rw [hdata, List.take_append_drop]
      · have hshort : (f.rbuffer.getD []).length +
            ((f.prim.content.drop f.prim.pos).take
              (size.toNat - (f.rbuffer.getD []).length + f.prim.extra)).length < size.toNat := by
          omega
        have hloop := readLoopF_short n f.prim size.toNat (f.rbuffer.getD []) hacc hlt hshort
        rw [hcast] at hloop
        have hchall : readChunkOf f size.toNat = f.prim.content.drop f.prim.pos := by
          rw [readChunkOf]
          apply List.take_of_length_le
          simp only [List.length_take, List.length_drop] at hshort ⊢
          omega
        have haccum_avail : readAccumOf f size.toNat = availOf f := by
          rw [readAccumOf, hchall, availOf]
        have haclen2 : (readAccumOf f size.toNat).length < size.toNat := by
          rw [readAccumOf, readChunkOf]
          simpa using hshort
        have hdata : (availOf f).take size.toNat = readAccumOf f size.toNat := by
          rw [haccum_avail]
          exact List.take_of_length_le (by rw [← haccum_avail]; omega)
        have hrun : readMain (n+2) f size =
            .ok (readAccumOf f size.toNat,
              { f with
                  prim := { f.prim with
                    pos := f.prim.pos + (readChunkOf f size.toNat).length,
                    rlog := f.prim.rlog ++ [(size : Int) - ((f.rbuffer.getD []).length : Int),
                      (size : Int) - (((f.rbuffer.getD []).length : Int) +
                        ((readChunkOf f size.toNat).length : Int))] },
                  rbuffer := some [] }) := by
          unfold readMain
          rw [if_neg hsz, ite_truthy_getD]
          dsimp only
          rw [hloop]
          simp only [Bind.bind, Except.bind]
          rw [if_neg (by
            rw [show readAccumOf f size.toNat = f.rbuffer.getD [] ++
              (f.prim.content.drop f.prim.pos).take
                (size.toNat - (f.rbuffer.getD []).length + f.prim.extra) from rfl] at haclen2
            omega)]
          rfl
        refine ⟨{ f with
            prim := { f.prim with
              pos := f.prim.pos + (readChunkOf f size.toNat).length,
              rlog := f.prim.rlog ++ [(size : Int) - ((f.rbuffer.getD []).length : Int),
                (size : Int) - (((f.rbuffer.getD []).length : Int) +
                  ((readChunkOf f size.toNat).length : Int))] },
            rbuffer := some [] }, ?_, ?_,
          fun hcon => absurd hcon (by omega), fun _ => ?_⟩
        · rw [hpre, hrun, hdata]
        · simp [List.length_take]
        · have hchpos : 0 < (readChunkOf f size.toNat).length := by
            rw [hchall]
            simp only [List.length_drop]
            omega
          refine ⟨?_, ?_, rfl, .inr ?_, ⟨_, rfl, by simp, rfl, ?_⟩⟩
          · show some [] = _
            rw [List.drop_eq_nil_of_le (by omega)]
          · rw [hdata, List.drop_eq_nil_of_le (by omega), List.append_nil]
          · show f.prim.content.length ≤ f.prim.pos + (readChunkOf f size.toNat).length
            rw [hchall]
            simp only [List.length_drop]
            omega
          · simp only [List.chain'_cons, List.chain'_singleton, and_true]
            have : 0 < ((readChunkOf f size.toNat).length : Int) := by exact_mod_cast hchpos
            omega

/-- Witness for C1 at a concrete state with an over-returning
primitive. -/
theorem read_accumulates_and_buffers_surplus_witness :
    ∃ f₁, FileLikeBase.read 8 sampleExtra 3 =
      .ok ((availOf sampleExtra).take (3 : Int).toNat, f₁) := by
  obtain ⟨f₁, h, -⟩ := read_accumulates_and_buffers_surplus 5 sampleExtra 3
    ⟨rfl, rfl, rfl, rfl, rfl⟩ (by decide)
  exact ⟨f₁, h⟩

/-- Witness for C9 at a concrete closed state. -/
theorem close_idempotent_and_closed_rejects_witness :
    sampleClosed.close = .ok sampleClosed ∧
    FileLikeBase.read 5 sampleClosed 3 = .error .ioClosed ∧
    FileLikeBase.write 5 sampleClosed ['a'] = .error .ioClosed := by
  have h := close_idempotent_and_closed_rejects 4 sampleClosed 3 ['a']
  exact ⟨h.1 rfl, h.2.2.1 rfl, h.2.2.2 rfl⟩

/-- Flushing with a primitive that consumes everything it is given:
the gap and write buffers are written at the cursor and cleared. -/
theorem flush_consumeAll (f : FileLikeBase) (hcl : f.closed = false)
    (hwcap : f.prim.wcap = none) (hck : f.checkMode ['w', '-'] = true)
    (hwbs : f.wbuffer.isSome = true) :
    f.flush = .ok { f with
      prim := { f.prim with
        content := overwriteAt f.prim.content f.prim.pos
          (f.sbuffer.getD [] ++ f.wbuffer.getD []),
        pos := f.prim.pos + (f.sbuffer.getD [] ++ f.wbuffer.getD []).length },
      sbuffer := if truthy f.sbuffer then none else f.sbuffer,
      wbuffer := none } := by
  unfold FileLikeBase.flush Prim._write
  rw [ite_truthy_getD]
  simp [hcl, hck, hwbs, hwcap, truthy]
  rw [← List.length_append, List.take_length]

/-- The flush-or-skip step at the top of `seek`, summarized: it always
succeeds (under a consume-all primitive and a mode that permits writing
whenever a write buffer is pending), advances the actual position past
the flushed bytes, empties the write buffer, and touches nothing
else. -/
theorem seek_flush_step (n : Nat) (f : FileLikeBase)
    (hcl : f.closed = false) (hwcap : f.prim.wcap = none)
    (hwb : truthy f.wbuffer = true → f.checkMode ['w', '-'] = true) :
    ∃ f₁, (if truthy f.wbuffer then f.flush else .ok f) = .ok f₁ ∧
      (f₁.prim.pos : Int) = (f.prim.pos : Int) +
        (if truthy f.wbuffer
          then ((f.sbuffer.getD []).length + (f.wbuffer.getD []).length : Int) else 0) ∧
      f₁.prim.cap = f.prim.cap ∧
      f₁.rbuffer = f.rbuffer ∧
      f₁.soffset = f.soffset ∧
      ((f₁.sbuffer.getD []).length : Int) =
        (if truthy f.wbuffer then 0 else ((f.sbuffer.getD []).length : Int)) ∧
      truthy f₁.sbuffer = (if truthy f.wbuffer then false else truthy f.sbuffer) ∧
      ((f₁.wbuffer.getD []).length : Int) = 0 ∧
      truthy f₁.wbuffer = false ∧
      f₁.closed = f.closed ∧ f₁.mode = f.mode := by
  by_cases hwbt : truthy f.wbuffer
  · have hck := hwb hwbt
    have hwbs : f.wbuffer.isSome = true := by
      cases hw : f.wbuffer with
      | none => rw [hw] at hwbt; simp [truthy] at hwbt
      | some l => rfl
    rw [if_pos hwbt, flush_consumeAll f hcl hwcap hck hwbs]
    refine ⟨_, rfl, ?_, rfl, rfl, rfl, ?_, ?_, ?_, ?_, rfl, rfl⟩
    · rw [if_pos hwbt]
      push_cast [List.length_append]
      ring
    · rw [if_pos hwbt]
      by_cases hsbt : truthy f.sbuffer
      · rw [if_pos hsbt]
        simp
      · rw [if_neg hsbt]
        simp [getD_nil_of_not_truthy (by simpa using hsbt)]
    · rw [if_pos hwbt]
      by_cases hsbt : truthy f.sbuffer
      · rw [if_pos hsbt]
        rfl
      · rw [if_neg hsbt]
        simpa using hsbt
    · simp
    · rfl
  · rw [if_neg hwbt]
    refine ⟨f, rfl, by rw [if_neg hwbt]; ring, rfl, rfl, rfl, by rw [if_neg hwbt],
      by rw [if_neg hwbt], ?_, by simpa using hwbt, rfl, rfl⟩
    simp [getD_nil_of_not_truthy (by simpa using hwbt)]

theorem ite_add_right (c : Prop) [Decidable c] (a b : Int) :
    (if c then a + b else a) = a + (if c then b else 0) := by
  by_cases h : c <;> simp [h]

/-- A seek factors through the flush of the pending write buffer: it
behaves like a seek on the flushed state. -/
theorem seek_after_flush (n : Nat) (f f₁ : FileLikeBase) (x : Int) (wh : Nat)
    (hwh : ¬ wh > 2) (hmode : f.modeForbidsSeek = false)
    (hstep : (if truthy f.wbuffer then f.flush else .ok f) = .ok f₁)
    (hmode₁ : f₁.mode = f.mode) (hwbt₁ : truthy f₁.wbuffer = false) :
    FileLikeBase.seek (n+1) f x wh = FileLikeBase.seek (n+1) f₁ x wh := by
  have hmf₁ : f₁.modeForbidsSeek = false := by
    unfold FileLikeBase.modeForbidsSeek at hmode ⊢
    rw [hmode₁]
    exact hmode
  unfold FileLikeBase.seek
  simp only [run]
  rw [if_neg hwh, if_neg hwh]
  rw [if_neg (show ¬ (f.modeForbidsSeek = true) from by simp [hmode])]
  rw [if_neg (show ¬ (f₁.modeForbidsSeek = true) from by simp [hmf₁])]
  rw [if_neg (show ¬ (truthy f₁.wbuffer = true) from by simp [hwbt₁])]
  by_cases hwbt : truthy f.wbuffer
  · rw [if_pos hwbt] at hstep
    rw [if_pos hwbt]
    rw [hstep]
  · rw [if_neg hwbt] at hstep
    rw [if_neg hwbt]
    have : f = f₁ := by injection hstep
    subst this
    rfl

/-- Seek to an absolute offset on a fully seekable primitive with no
pending write buffer: buffers clear and the primitive moves there. -/
theorem seek0_noflush (n : Nat) (g : FileLikeBase) (x : Int)
    (hmode : g.modeForbidsSeek = false) (hwbt : truthy g.wbuffer = false)
    (hcap : g.prim.cap = .full) :
    FileLikeBase.seek (n+1) g x 0 = .ok
      { g with
          rbuffer := none,
          sbuffer := none,
          soffset := 0,
          prim := { g.prim with pos := x.toNat } } := by
  unfold FileLikeBase.seek
  simp only [run]
  rw [if_neg (by decide)]
  rw [if_neg (show ¬ (g.modeForbidsSeek = true) from by simp [hmode])]
  rw [if_neg (show ¬ (truthy g.wbuffer = true) from by simp [hwbt])]
  simp only [Bind.bind, Except.bind]
  simp [asUnit, Prim._seek, hcap]

theorem ite_truthy_len (o : Option (List Char)) :
    (if truthy o then ((o.getD []).length : Int) else 0) = ((o.getD []).length : Int) := by
  cases h : truthy o
  · simp [getD_nil_of_not_truthy h]
  · simp

/-- Seek relative to the current position on a fully seekable primitive
with no pending write buffer: either the stay-put shortcut fires or the
primitive moves by the adjusted offset. -/
theorem ite_ne_zero (so : Int) : (if so ≠ 0 then so else 0) = so := by
  by_cases h : so = 0 <;> simp [h]

theorem seek1_noflush (n : Nat) (g : FileLikeBase) (off : Int)
    (hmode : g.modeForbidsSeek = false) (hwbt : truthy g.wbuffer = false)
    (hcap : g.prim.cap = .full) :
    FileLikeBase.seek (n+1) g off 1 =
      if off - ((g.rbuffer.getD []).length : Int) + ((g.sbuffer.getD []).length : Int)
          + g.soffset = 0
      then .ok { g with rbuffer := none, sbuffer := none, soffset := 0 }
      else .ok
        { g with
            rbuffer := none,
            sbuffer := none,
            soffset := 0,
            prim := { g.prim with pos := ((g.prim.pos : Int) +
              (off - ((g.rbuffer.getD []).length : Int) + ((g.sbuffer.getD []).length : Int)
                + g.soffset)).toNat } } := by
  unfold FileLikeBase.seek
  simp only [run]
  rw [if_neg (by decide)]
  rw [if_neg (show ¬ (g.modeForbidsSeek = true) from by simp [hmode])]
  rw [if_neg (show ¬ (truthy g.wbuffer = true) from by simp [hwbt])]
  simp only [Bind.bind, Except.bind]
  simp only [show ((1 : Nat) = 1) = True from by simp, true_and, and_true, if_true,
    ite_add_right, ite_truthy_len, ite_truthy_sub, ite_ne_zero]
  by_cases hz : off - ((g.rbuffer.getD []).length : Int) + ((g.sbuffer.getD []).length : Int)
      + g.soffset = 0
  · rw [if_pos hz, if_pos hz]
    simp [asUnit]
  · rw [if_neg hz, if_neg hz]
    unfold Prim._seek
    rw [hcap]
    rw [if_neg (by decide), if_pos rfl]
    simp only [asUnit]

/-- C5: seek/tell consistency on a fully seekable primitive — after
seek(x, start) the apparent position is x, and after seek(off, current)
the apparent position has moved by exactly off, from any buffer
state. -/
theorem seek_tell_consistency (n : Nat) (f : FileLikeBase) (x off : Int)
    (hcap : f.prim.cap = .full) (hwcap : f.prim.wcap = none)
    (hcl : f.closed = false) (hmode : f.modeForbidsSeek = false)
    (hwb : truthy f.wbuffer = true → f.checkMode ['w', '-'] = true)
    (hx : 0 ≤ x) (hoff : 0 ≤ f.tell + off) :
    (∃ g, FileLikeBase.seek (n+1) f x 0 = .ok g ∧ g.tell = x) ∧
    (∃ g, FileLikeBase.seek (n+1) f off 1 = .ok g ∧ g.tell = f.tell + off) := by
  obtain ⟨f₁, hstep, hpos₁, hcapp, hrb₁, hso₁, hsb₁, hsbt₁, hwb₁, hwbt₁, hcl₁, hmode₁⟩ :=
    seek_flush_step n f hcl hwcap hwb
  have htellf : f.tell = (f.prim.pos : Int) - ((f.rbuffer.getD []).length : Int)
      + ((f.wbuffer.getD []).length : Int) + ((f.sbuffer.getD []).length : Int)
      + f.soffset := tell_formula f
  have hwlen0 : truthy f.wbuffer = false → ((f.wbuffer.getD []).length : Int) = 0 := by
    intro h
    simp [getD_nil_of_not_truthy h]
  have hcap₁ : f₁.prim.cap = .full := by rw [hcapp, hcap]
  have hmf₁ : f₁.modeForbidsSeek = false := by
    unfold FileLikeBase.modeForbidsSeek at hmode ⊢
    rw [hmode₁]
    exact hmode
  have hadj : (f₁.prim.pos : Int) +
      (off - ((f₁.rbuffer.getD []).length : Int) + ((f₁.sbuffer.getD []).length : Int)
        + f₁.soffset) = f.tell + off := by
    rw [htellf, hpos₁, hrb₁, hso₁, hsb₁]
    by_cases hwbt : truthy f.wbuffer
    · rw [if_pos hwbt, if_pos hwbt]
      ring
    · rw [if_neg hwbt, if_neg hwbt, hwlen0 (by simpa using hwbt)]
      ring
  constructor
  · -- whence = 0
    have hseek : FileLikeBase.seek (n+1) f x 0 = .ok
        { f₁ with
            rbuffer := none,
            sbuffer := none,
            soffset := 0,
            prim := { f₁.prim with pos := x.toNat } } := by
      rw [seek_after_flush n f f₁ x 0 (by decide) hmode hstep hmode₁ hwbt₁]
      exact seek0_noflush n f₁ x hmf₁ hwbt₁ hcap₁
    refine ⟨_, hseek, ?_⟩
    rw [tell_formula]
    simp only [Option.getD_none, List.length_nil, Nat.cast_zero, sub_zero, add_zero]
    rw [hwb₁]
    rw [Int.toNat_of_nonneg hx]
    ring
  · -- whence = 1
    have hseek := seek1_noflush n f₁ off hmf₁ hwbt₁ hcap₁
    rw [← seek_after_flush n f f₁ off 1 (by decide) hmode hstep hmode₁ hwbt₁] at hseek
    by_cases hz : off - ((f₁.rbuffer.getD []).length : Int)
        + ((f₁.sbuffer.getD []).length : Int) + f₁.soffset = 0
    · rw [if_pos hz] at hseek
      refine ⟨_, hseek, ?_⟩
      rw [tell_formula]
      simp only [Option.getD_none, List.length_nil, Nat.cast_zero, sub_zero, add_zero]
      rw [hwb₁]
      rw [← hadj, hz]
    · rw [if_neg hz] at hseek
      refine ⟨_, hseek, ?_⟩
      rw [tell_formula]
      simp only [Option.getD_none, List.length_nil, Nat.cast_zero, sub_zero, add_zero]
      rw [hwb₁]
      rw [Int.toNat_of_nonneg (by rw [hadj]; exact hoff), hadj]
      ring

/-- Witness for C5 at a concrete clean state. -/
theorem seek_tell_consistency_witness :
    (∃ g, FileLikeBase.seek 6 sampleOpen 7 0 = .ok g ∧ g.tell = 7) ∧
    (∃ g, FileLikeBase.seek 6 sampleOpen 4 1 = .ok g ∧ g.tell = sampleOpen.tell + 4) :=
  seek_tell_consistency 5 sampleOpen 7 4 rfl rfl rfl rfl (by decide) (by decide) (by decide)

/-- The main read body always succeeds with enough fuel. -/
theorem readMain_ok (n : Nat) (f : FileLikeBase) (size : Int) (hpos : 0 < size) :
    ∃ v, readMain (n+2) f size = .ok v := by
  cases hv : readMain (n+2) f size with
  | ok v => exact ⟨v, rfl⟩
  | error e =>
    exfalso
    obtain ⟨⟨res, p₁⟩, hloop⟩ := readLoopF_isOk n f.prim size.toNat (f.rbuffer.getD [])
    have hsz : ¬ size ≤ 0 := by omega
    unfold readMain at hv
    rw [if_neg hsz, ite_truthy_getD] at hv
    dsimp only at hv
    rw [hloop] at hv
    simp only [Bind.bind, Except.bind] at hv
    split at hv <;> simp at hv

/-- A seek on a clean state whose primitive supports only seeking to the
start: the primitive is reset to position zero and the requested target
is recorded as the pending skip offset. -/
theorem seek_reset_clean (n : Nat) (g : FileLikeBase) (off : Int) (wh : Nat)
    (hmode : g.modeForbidsSeek = false) (hrb : g.rbuffer = none) (hsb : g.sbuffer = none)
    (hso : g.soffset = 0) (hwbt : truthy g.wbuffer = false)
    (hcap : g.prim.cap = .startOnly)
    (hwh : wh = 0 ∨ wh = 1) (hns : ¬ (off = 0 ∧ wh = 1))
    (htar : (if wh = 0 then off else (g.prim.pos : Int) + off) ≠ 0) :
    FileLikeBase.seek (n+1) g off wh = .ok
      { g with
          rbuffer := none,
          sbuffer := none,
          soffset := (if wh = 0 then off else (g.prim.pos : Int) + off),
          prim := { g.prim with pos := 0 } } := by
  have hsbt : truthy g.sbuffer = false := by rw [hsb]; rfl
  have hrbt : truthy g.rbuffer = false := by rw [hrb]; rfl
  rcases hwh with hwh | hwh <;> subst hwh
  · -- whence = 0
    rw [if_pos rfl] at htar
    rw [if_pos rfl]
    unfold FileLikeBase.seek
    simp only [run]
    rw [if_neg (by decide)]
    rw [if_neg (show ¬ (g.modeForbidsSeek = true) from by simp [hmode])]
    rw [if_neg (show ¬ (truthy g.wbuffer = true) from by simp [hwbt])]
    simp only [Bind.bind, Except.bind]
    rw [if_neg (show ¬ ((0 : Nat) = 1 ∧ truthy g.rbuffer = true) from by simp)]
    rw [if_neg (show ¬ ((0 : Nat) = 1) from by simp)]
    rw [if_neg (show ¬ (off = 0 ∧ (0 : Nat) = 1) from by simp)]
    unfold Prim._seek
    rw [hcap]
    rw [if_neg (show ¬ ((0 : Nat) = 0 ∧ off = 0) from by simp [htar])]
    rw [if_neg (show ¬ ((0 : Nat) = 1) from by simp),
      if_neg (show ¬ ((0 : Nat) = 2) from by simp)]
    unfold seekReset Prim._seek
    rw [hcap]
    rw [if_pos (show (0 : Nat) = 0 ∧ (0 : Int) = 0 from by simp)]
    simp [asUnit, Except.map]
  · -- whence = 1
    rw [if_neg (by simp)] at htar
    rw [if_neg (by simp)]
    have hoffne : off ≠ 0 := fun h => hns ⟨h, rfl⟩
    unfold FileLikeBase.seek
    simp only [run]
    rw [if_neg (by decide)]
    rw [if_neg (show ¬ (g.modeForbidsSeek = true) from by simp [hmode])]
    rw [if_neg (show ¬ (truthy g.wbuffer = true) from by simp [hwbt])]
    simp only [Bind.bind, Except.bind]
    simp only [show ((1 : Nat) = 1) = True from by simp, true_and, and_true, if_true,
      hrbt, hsbt, hso, Bool.false_eq_true, if_false]
    rw [if_neg (show ¬ ((0 : Int) ≠ 0) from by simp)]
    rw [if_neg hoffne]
    unfold Prim._seek
    rw [hcap]
    rw [if_neg (show ¬ ((1 : Nat) = 0 ∧ off = 0) from by simp)]
    rw [if_pos (show (1 : Nat) = 1 from rfl)]
    unfold seekAbs Prim._seek Prim._tell
    rw [hcap]
    rw [if_neg (show ¬ ((0 : Nat) = 0 ∧ (g.prim.pos : Int) + off = 0) from by simp [htar])]
    unfold seekReset Prim._seek
    rw [hcap]
    rw [if_pos (show (0 : Nat) = 0 ∧ (0 : Int) = 0 from by simp)]
    simp [asUnit, Except.map]

/-- Seek to the absolute start on a start-only-seekable primitive with
no pending write buffer: the primitive honours the request directly and
every buffer is cleared. -/
theorem seek00_startOnly (n : Nat) (g : FileLikeBase)
    (hmode : g.modeForbidsSeek = false) (hwbt : truthy g.wbuffer = false)
    (hcap : g.prim.cap = .startOnly) :
    FileLikeBase.seek (n+1) g 0 0 = .ok
      { g with
          rbuffer := none,
          sbuffer := none,
          soffset := 0,
          prim := { g.prim with pos := 0 } } := by
  unfold FileLikeBase.seek
  simp only [run]
  rw [if_neg (by decide)]
  rw [if_neg (show ¬ (g.modeForbidsSeek = true) from by simp [hmode])]
  rw [if_neg (show ¬ (truthy g.wbuffer = true) from by simp [hwbt])]
  simp only [Bind.bind, Except.bind]
  simp [asUnit, Prim._seek, hcap]

/-- One evaluation step of `read` on a state carrying a pure pending
skip offset fitting in one buffer chunk: the skipped bytes are
discarded by one recursive read and the main body then runs, given the
results of those two inner calls. -/
theorem read_skip_step (n : Nat) (g f₃ f₄ : FileLikeBase) (k : Int) (gap d : List Char)
    (hcl : g.closed = false) (hmd : g.mode = none) (hwb : g.wbuffer = none)
    (hsb : g.sbuffer = none) (hsonz : g.soffset ≠ 0)
    (hbuf : g.soffset ≤ (g.bufsize : Int))
    (hdisc : asBytes (run (n+1) { g with soffset := 0 } (.readR g.soffset)) = .ok (gap, f₃))
    (hmain : readMain (n+1) f₃ k = .ok (d, f₄)) :
    run (n+2) g (.readR k) = .ok (.bytesR d f₄) := by
  obtain ⟨n1, hn1⟩ : ∃ n1, n1 = n + 1 := ⟨n + 1, rfl⟩
  rw [← hn1] at hdisc hmain
  rw [show n + 2 = n1 + 1 from by omega]
  simp only [run]
  rw [if_neg (show ¬ (g.closed = true) from by simp [hcl])]
  have hassert : g.assertMode ['r', '-'] = .ok () := by
    unfold FileLikeBase.assertMode
    rw [hmd]
  rw [hassert]
  simp only [Bind.bind, Except.bind]
  rw [if_neg (show ¬ (g.wbuffer ≠ none) from by simp [hwb])]
  rw [if_neg (show ¬ (truthy g.sbuffer = true) from by rw [hsb]; simp [truthy])]
  rw [if_pos hsonz]
  have hsol : run n1 { g with soffset := 0 } (.soLoopR g.soffset) =
      .ok (.soR g.soffset { g with soffset := 0 }) := by
    rw [hn1]
    simp only [run]
    rw [if_neg (show ¬ (g.soffset > (({ g with soffset := 0 } : FileLikeBase).bufsize : Int))
      from by
        show ¬ g.soffset > (g.bufsize : Int)
        omega)]
  rw [hsol]
  simp only [asSo, Except.bind]
  rw [hdisc]
  simp only [Except.bind]
  rw [hmain]

/-- A read on a state carrying a pure pending skip offset first discards
the skipped bytes (one bounded read, as the offset fits in one buffer
chunk) and then delivers the content at the skip target. -/
theorem read_after_skip (m : Nat) (g : FileLikeBase) (target k : Int)
    (hcl : g.closed = false) (hmd : g.mode = none) (hwb : g.wbuffer = none)
    (hsb : g.sbuffer = none) (hrb : g.rbuffer = none)
    (hso : g.soffset = target) (hpos : g.prim.pos = 0)
    (htar : 0 < target) (hbuf : target ≤ (g.bufsize : Int)) (hk : 0 < k) :
    ∃ f₂, FileLikeBase.read (m+5) g k =
      .ok ((g.prim.content.drop target.toNat).take k.toNat, f₂) := by
  subst hso
  have hrs2 : ReadState { g with soffset := 0 } := ⟨hcl, hmd, rfl, hsb, hwb⟩
  obtain ⟨f₃, hsub, havail₃, -, -, -, -, -, -, -, -, -⟩ :=
    read_spec (m+1) { g with soffset := 0 } g.soffset hrs2 htar
  have hav2 : availOf { g with soffset := 0 } = g.prim.content := by
    simp [availOf, hrb, hpos]
  obtain ⟨⟨d4, f₄⟩, hmain⟩ := readMain_ok (m+2) f₃ k hk
  obtain ⟨hd4, -⟩ := readMain_inv (m+2+2) f₃ k d4 f₄ hk hmain
  have hd4e : d4 = (g.prim.content.drop g.soffset.toNat).take k.toNat := by
    rw [hd4, havail₃, hav2]
  have hdisc : asBytes (run (m+3+1) { g with soffset := 0 } (.readR g.soffset)) =
      .ok ((availOf { g with soffset := 0 }).take g.soffset.toNat, f₃) := hsub
  have hmain4 : readMain (m+3+1) f₃ k = .ok (d4, f₄) := hmain
  have hstep := read_skip_step (m+3) g f₃ f₄ k _ d4 hcl hmd hwb hsb (by omega) hbuf
    hdisc hmain4
  refine ⟨f₄, ?_⟩
  show asBytes (run (m+3+2) g (.readR k)) = _
  rw [hstep]
  simp only [asBytes]
  rw [hd4e]

/-- Writing everything to a primitive with no write cap: the bytes are
overwritten at the cursor and the cursor advances past them. -/
theorem _write_all (p : Prim) (s : List Char) (fl : Bool) (h : p.wcap = none) :
    p._write s fl = (none, { p with
      content := overwriteAt p.content p.pos s,
      pos := p.pos + s.length }) := by
  unfold Prim._write
  rw [h]
  simp

/-- One evaluation step of `write` on a state carrying a pure pending
skip offset: the gap is read back, the resource reseeked to the start,
and the gap followed by the new data written, given the results of
those inner calls. -/
theorem write_skip_step (n : Nat) (g f₃ f₄ : FileLikeBase) (s gap : List Char)
    (hcl : g.closed = false) (hmd : g.mode = none) (hrb : g.rbuffer = none)
    (hsb : g.sbuffer = none) (hsonz : g.soffset ≠ 0)
    (hdisc : asBytes (run (n+1) { g with soffset := 0 } (.readR g.soffset)) = .ok (gap, f₃))
    (hseek : asUnit (run (n+1) f₃ (.seekR 0 0)) = .ok f₄)
    (hwbt : truthy f₄.wbuffer = false)
    (hwcap : f₄.prim.wcap = none) :
    run (n+2) g (.writeR s) = .ok (.unitR { f₄ with
      prim := { f₄.prim with
        content := overwriteAt f₄.prim.content f₄.prim.pos (gap ++ s),
        pos := f₄.prim.pos + (gap ++ s).length },
      wbuffer := some [] }) := by
  obtain ⟨n1, hn1⟩ : ∃ n1, n1 = n + 1 := ⟨n + 1, rfl⟩
  rw [← hn1] at hdisc hseek
  rw [show n + 2 = n1 + 1 from by omega]
  simp only [run]
  rw [if_neg (show ¬ (g.closed = true) from by simp [hcl])]
  have hassert : g.assertMode ['w', '-'] = .ok () := by
    unfold FileLikeBase.assertMode
    rw [hmd]
  rw [hassert]
  simp only [Bind.bind, Except.bind]
  rw [if_neg (show ¬ (g.rbuffer ≠ none) from by simp [hrb])]
  rw [if_neg (show ¬ (truthy g.sbuffer = true) from by rw [hsb]; simp [truthy])]
  rw [if_pos hsonz]
  rw [hdisc]
  simp only [Except.bind]
  rw [hseek]
  simp only [Except.bind]
  rw [if_neg (show ¬ (truthy f₄.wbuffer = true) from by simp [hwbt])]
  rw [_write_all _ _ _ hwcap]

/-- A write on a state carrying a pure pending skip offset first reads
the skipped gap back, reseeks to the start, and writes the gap followed
by the new data, leaving the content overwritten at the skip target and
the cursor past the written data. -/
theorem write_after_skip (q : Nat) (g : FileLikeBase) (target : Int) (s : List Char)
    (hcl : g.closed = false) (hmd : g.mode = none) (hwb : g.wbuffer = none)
    (hsb : g.sbuffer = none) (hrb : g.rbuffer = none)
    (hso : g.soffset = target) (hpos : g.prim.pos = 0)
    (hcap : g.prim.cap = .startOnly) (hwcap : g.prim.wcap = none)
    (htar : 0 < target) (hbuf : target ≤ (g.bufsize : Int))
    (hlen : target.toNat ≤ g.prim.content.length) :
    ∃ f₃, FileLikeBase.write (q+5) g s = .ok f₃ ∧
      f₃.prim.content = g.prim.content.take target.toNat ++ s ++
        g.prim.content.drop (target.toNat + s.length) ∧
      f₃.prim.pos = target.toNat + s.length := by
  subst hso
  have hrs2 : ReadState { g with soffset := 0 } := ⟨hcl, hmd, rfl, hsb, hwb⟩
  obtain ⟨f₃, hsub, havail₃, hrs₃, -, hcont₃, hcap₃, -, hwcap₃, -, -, hmd₃⟩ :=
    read_spec (q+1) { g with soffset := 0 } g.soffset hrs2 htar
  obtain ⟨hcl₃, -, hso₃, hsb₃, hwb₃⟩ := hrs₃
  have hav2 : availOf { g with soffset := 0 } = g.prim.content := by
    simp [availOf, hrb, hpos]
  have hcont : f₃.prim.content = g.prim.content := hcont₃
  have hdisc : asBytes (run (q+3+1) { g with soffset := 0 } (.readR g.soffset)) =
      .ok ((availOf { g with soffset := 0 }).take g.soffset.toNat, f₃) := hsub
  have hseek : asUnit (run (q+3+1) f₃ (.seekR 0 0)) = .ok
      { f₃ with
          rbuffer := none,
          sbuffer := none,
          soffset := 0,
          prim := { f₃.prim with pos := 0 } } :=
    seek00_startOnly (q+3) f₃
      (by
        unfold FileLikeBase.modeForbidsSeek
        rw [hmd₃]
        show (match g.mode with | some m => decide ('-' ∈ m) | none => false) = false
        rw [hmd])
      (by rw [hwb₃]; rfl)
      (hcap₃.trans hcap)
  have hwbt : truthy ({ f₃ with
      rbuffer := none,
      sbuffer := none,
      soffset := 0,
      prim := { f₃.prim with pos := 0 } } : FileLikeBase).wbuffer = false := by
    show truthy f₃.wbuffer = false
    rw [hwb₃]
    rfl
  have hwcap4 : ({ f₃ with
      rbuffer := none,
      sbuffer := none,
      soffset := 0,
      prim := { f₃.prim with pos := 0 } } : FileLikeBase).prim.wcap = none :=
    hwcap₃.trans hwcap
  have hstep := write_skip_step (q+3) g f₃ _ s _ hcl hmd hrb hsb (by omega)
    hdisc hseek hwbt hwcap4
  have hglen : ((availOf { g with soffset := 0 }).take g.soffset.toNat).length =
      g.soffset.toNat := by
    rw [hav2]
    simp only [List.length_take]
    omega
  refine ⟨{ f₃ with
      rbuffer := none,
      sbuffer := none,
      soffset := 0,
      wbuffer := some [],
      prim := { f₃.prim with
        pos := 0 + ((availOf { g with soffset := 0 }).take g.soffset.toNat ++ s).length,
        content := overwriteAt f₃.prim.content 0
          ((availOf { g with soffset := 0 }).take g.soffset.toNat ++ s) } }, ?_, ?_, ?_⟩
  · show asUnit (run (q+3+2) g (.writeR s)) = _
    rw [hstep]
    rfl
  · show overwriteAt f₃.prim.content 0
        ((availOf { g with soffset := 0 }).take g.soffset.toNat ++ s) =
      g.prim.content.take g.soffset.toNat ++ s ++
        g.prim.content.drop (g.soffset.toNat + s.length)
    rw [hav2, hcont]
    unfold overwriteAt
    simp only [List.take_zero, Nat.zero_sub, List.replicate_zero, List.nil_append,
      Nat.zero_add, List.append_assoc]
    rw [show (g.prim.content.take g.soffset.toNat ++ s).length =
        g.soffset.toNat + s.length from by
      rw [List.length_append]
      simp only [List.length_take]
      omega]
  · show 0 + ((availOf { g with soffset := 0 }).take g.soffset.toNat ++ s).length =
      g.soffset.toNat + s.length
    rw [List.length_append, hglen]
    omega
/-- C3: on a primitive supporting only seek-to-start, a seek with a
nonzero resolved absolute target resets the backing resource to
position zero and records the remaining distance as the skip offset;
tell() immediately reports the requested target even though the backing
cursor is at zero, the next read discards the skipped bytes and
delivers the data at the target, and the next write reads the gap back
and writes through it. -/
theorem seek_skip_emulation (n m q : Nat) (f : FileLikeBase) (off target : Int) (wh : Nat)
    (k : Int) (s : List Char)
    (hrs : ReadState f) (hrb : f.rbuffer = none)
    (hcap : f.prim.cap = .startOnly) (hwcap : f.prim.wcap = none)
    (hwh : wh = 0 ∨ wh = 1) (hns : ¬ (off = 0 ∧ wh = 1))
    (hdef : target = (if wh = 0 then off else (f.prim.pos : Int) + off))
    (htar : 0 < target)
    (hbuf : target ≤ (f.bufsize : Int))
    (hlen : target.toNat ≤ f.prim.content.length)
    (hk : 0 < k) :
    ∃ f₁, FileLikeBase.seek (n+1) f off wh = .ok f₁ ∧
      f₁.prim.pos = 0 ∧
      f₁.soffset = target ∧
      f₁.tell = target ∧
      (∃ f₂, FileLikeBase.read (m+5) f₁ k =
        .ok ((f.prim.content.drop target.toNat).take k.toNat, f₂)) ∧
      (∃ f₃, FileLikeBase.write (q+5) f₁ s = .ok f₃ ∧
        f₃.prim.content = f.prim.content.take target.toNat ++ s ++
          f.prim.content.drop (target.toNat + s.length) ∧
        f₃.prim.pos = target.toNat + s.length) := by
  obtain ⟨hcl, hmd, hso, hsb, hwb⟩ := hrs
  have hwbt : truthy f.wbuffer = false := by rw [hwb]; rfl
  have hmode : f.modeForbidsSeek = false := by
    unfold FileLikeBase.modeForbidsSeek
    rw [hmd]
  have hseek := seek_reset_clean n f off wh hmode hrb hsb hso hwbt hcap hwh hns
    (by rw [← hdef]; omega)
  rw [← hdef] at hseek
  refine ⟨_, hseek, rfl, rfl, ?_, ?_, ?_⟩
  · rw [tell_formula]
    simp [hwb]
  · exact read_after_skip m _ target k hcl hmd hwb rfl rfl rfl rfl htar hbuf hk
  · exact write_after_skip q _ target s hcl hmd hwb rfl rfl rfl rfl hcap hwcap htar hbuf hlen

/-- Witness for C3 at a start-only-seekable sample: seek(20, current)
from position zero, then a three-byte read and a two-byte write. -/
theorem seek_skip_emulation_witness :
    (0 : Int) < 20 ∧
    (∃ f₁, FileLikeBase.seek 6 sampleSkip 20 1 = .ok f₁ ∧
      f₁.prim.pos = 0 ∧
      f₁.soffset = 20 ∧
      f₁.tell = 20 ∧
      (∃ f₂, FileLikeBase.read 10 f₁ 3 =
        .ok ((sampleSkip.prim.content.drop (20 : Int).toNat).take (3 : Int).toNat, f₂)) ∧
      (∃ f₃, FileLikeBase.write 10 f₁ ['X', 'Y'] = .ok f₃ ∧
        f₃.prim.content = sampleSkip.prim.content.take (20 : Int).toNat ++ ['X', 'Y'] ++
          sampleSkip.prim.content.drop ((20 : Int).toNat + (['X', 'Y'] : List Char).length) ∧
        f₃.prim.pos = (20 : Int).toNat + (['X', 'Y'] : List Char).length)) :=
  ⟨by decide,
    seek_skip_emulation 5 5 5 sampleSkip 20 20 1 3 ['X', 'Y']
      ⟨rfl, rfl, rfl, rfl, rfl⟩ rfl rfl rfl (Or.inr rfl) (by decide) (by decide)
      (by decide) (by decide) (by decide) (by decide)⟩
/-- Hypothesis-style inversion of a successful `read` at arbitrary fuel
from a plain reading state: the data is the prefix of the available
bytes and the remainder stays available. -/
theorem read_inv (n : Nat) (f : FileLikeBase) (size : Int) (d : List Char) (f₁ : FileLikeBase)
    (hrs : ReadState f) (hpos : 0 < size)
    (h : asBytes (run n f (.readR size)) = .ok (d, f₁)) :
    d = (availOf f).take size.toNat ∧
    availOf f₁ = (availOf f).drop size.toNat ∧
    ReadState f₁ ∧ f₁.bufsize = f.bufsize ∧ f₁.prim.content = f.prim.content := by
  cases n with
  | zero => exact absurd h (by simp [run, asBytes])
  | succ n =>
    have heq : FileLikeBase.read (n+1) f size = readMain n f size :=
      read_preamble_noop n f size hrs
    have h' : readMain n f size = .ok (d, f₁) := by
      rw [← heq]
      exact h
    obtain ⟨hd, hav, -, hcont, -, -, -, hclosed, hmode, hsoff, hsbuf, hwbuf, hbufs, -⟩ :=
      readMain_inv n f size d f₁ hpos h'
    exact ⟨hd, hav, ⟨hclosed.trans hrs.1, hmode.trans hrs.2.1, hsoff.trans hrs.2.2.1,
      hsbuf.trans hrs.2.2.2.1, hwbuf.trans hrs.2.2.2.2⟩, hbufs, hcont⟩

/-- An unsuccessful newline scan means no newline in the chunk. -/
theorem findIdx_newline_none (l : List Char)
    (h : l.findIdx? (fun c => c = '\n') = none) : '\n' ∉ l := by
  intro hmem
  have := List.findIdx?_eq_none_iff.mp h '\n' hmem
  simp at this

/-- A successful newline scan returns the index of the first newline of
the chunk. -/
theorem findIdx_newline_some (l : List Char) (i : Nat)
    (h : l.findIdx? (fun c => c = '\n') = some i) :
    i < l.length ∧ l[i]? = some '\n' ∧ '\n' ∉ l.take i := by
  obtain ⟨hlt, hfi⟩ := List.findIdx?_eq_some_iff_findIdx_eq.mp h
  subst hfi
  refine ⟨hlt, ?_, ?_⟩
  · rw [List.getElem?_eq_getElem hlt]
    have hp := @List.findIdx_getElem _ (fun c => c = '\n') l hlt
    simpa using hp
  · intro hmem
    obtain ⟨j, hj, hje⟩ := List.getElem_of_mem hmem
    rw [List.getElem_take] at hje
    have hjlt : j < List.findIdx (fun c => c = '\n') l := by
      have hj' := hj
      simp only [List.length_take] at hj'
      omega
    have hfalse := List.not_of_lt_findIdx hjlt
    rw [hje] at hfalse
    simp at hfalse
/-- Invariant of the readline chunk loop: the chunks read so far are a
prefix of the available bytes, and the loop exits for one of three
reasons — end of resource (no newline was ever seen), the size limit
(no newline was seen except possibly in the final, unscanned chunk), or
a newline found in the final chunk (at its first position, no earlier
chunk containing one). -/
theorem rlLoop_inv : ∀ (fuel : Nat) (f : FileLikeBase) (size : Int) (bits : List (List Char))
    (ssf : Nat) (r : Ret), ReadState f → 0 < f.bufsize →
    run fuel f (.rlLoopR size bits ssf) = .ok r →
    ∃ added ssf₁ indx f₁,
      r = .rlR (bits ++ added) ssf₁ indx f₁ ∧
      added.flatten ++ availOf f₁ = availOf f ∧
      ReadState f₁ ∧
      f₁.bufsize = f.bufsize ∧
      ssf₁ = ssf + added.flatten.length ∧
      ((indx = none ∧ availOf f₁ = [] ∧ '\n' ∉ added.flatten) ∨
       (indx = none ∧ 0 < size ∧ (size : Int) ≤ (ssf₁ : Int) ∧
         '\n' ∉ added.dropLast.flatten) ∨
       (∃ i last, indx = some i ∧ added ≠ [] ∧ added.getLast? = some last ∧
         i < last.length ∧ last[i]? = some '\n' ∧ '\n' ∉ last.take i ∧
         '\n' ∉ added.dropLast.flatten ∧ (0 < size → (ssf₁ : Int) < size))) := by
  intro fuel
  induction fuel with
  | zero =>
    intro f size bits ssf r hrs hbz h
    exact absurd h (by simp [run])
  | succ n ih =>
    intro f size bits ssf r hrs hbz h
    simp only [run] at h
    cases hread : asBytes (run n f (.readR (f.bufsize : Int))) with
    | error e =>
      rw [hread] at h
      simp [Bind.bind, Except.bind] at h
    | ok p =>
      obtain ⟨nextBit, f'⟩ := p
      rw [hread] at h
      simp only [Bind.bind, Except.bind] at h
      have hbzI : (0 : Int) < (f.bufsize : Int) := by exact_mod_cast hbz
      obtain ⟨hd, hav, hrs', hbufs', hcont'⟩ := read_inv n f _ nextBit f' hrs hbzI hread
      by_cases hnb : nextBit = []
      · subst hnb
        rw [if_pos rfl] at h
        injection h with h'
        have havf : availOf f = [] := by
          have hd' := hd.symm
          rw [List.take_eq_nil_iff] at hd'
          rcases hd' with h0 | hnil
          · omega
          · exact hnil
        have hav' : availOf f' = [] := by
          rw [hav, havf]
          simp
        refine ⟨[[]], ssf + ([] : List Char).length, none, f', h'.symm, ?_, hrs', hbufs',
          by simp, ?_⟩
        · rw [hav']
          rw [havf]
          rfl
        · left
          exact ⟨rfl, hav', by simp⟩
      · rw [if_neg hnb] at h
        have hstep : nextBit ++ availOf f' = availOf f := by
          rw [hd, hav]
          exact List.take_append_drop _ _
        by_cases hsl : 0 < size ∧ (size : Int) ≤ ((ssf + nextBit.length : Nat) : Int)
        · rw [if_pos hsl] at h
          injection h with h'
          refine ⟨[nextBit], ssf + nextBit.length, none, f', h'.symm, ?_, hrs', hbufs',
            by simp, ?_⟩
          · simpa using hstep
          · right; left
            exact ⟨rfl, hsl.1, hsl.2, by simp⟩
        · rw [if_neg hsl] at h
          cases hfi : nextBit.findIdx? (fun c => c = '\n') with
          | some i =>
            rw [hfi] at h
            injection h with h'
            obtain ⟨hilt, hie, hnt⟩ := findIdx_newline_some nextBit i hfi
            refine ⟨[nextBit], ssf + nextBit.length, some i, f', h'.symm, ?_, hrs', hbufs',
              by simp, ?_⟩
            · simpa using hstep
            · right; right
              refine ⟨i, nextBit, rfl, by simp, rfl, hilt, hie, hnt, by simp, ?_⟩
              intro hp
              have hnc : ¬ ((size : Int) ≤ ((ssf + nextBit.length : Nat) : Int)) :=
                fun hc => hsl ⟨hp, hc⟩
              omega
          | none =>
            rw [hfi] at h
            have hbz' : 0 < f'.bufsize := by
              rw [hbufs']
              exact hbz
            obtain ⟨added₂, ssf₁, indx, f₁, hr, hpre, hrs₁, hbufs₁, hssf, hexit⟩ :=
              ih f' size (bits ++ [nextBit]) (ssf + nextBit.length) r hrs' hbz' h
            have hnonl : '\n' ∉ nextBit := findIdx_newline_none nextBit hfi
            refine ⟨nextBit :: added₂, ssf₁, indx, f₁, ?_, ?_, hrs₁, hbufs₁.trans hbufs',
              ?_, ?_⟩
            · rw [hr, List.append_assoc, List.singleton_append]
            · rw [List.flatten_cons, List.append_assoc, hpre, hstep]
            · rw [hssf, List.flatten_cons, List.length_append]
              omega
            · rcases hexit with ⟨hin, hav₁, hnl⟩ | ⟨hin, hp0, hle, hnl⟩ |
                ⟨i, last, hin, hne, hlastq, hilt, hie, hnt, hnl, hslt⟩
              · left
                refine ⟨hin, hav₁, ?_⟩
                simp only [List.flatten_cons, List.mem_append]
                rintro (hx | hx)
                exacts [hnonl hx, hnl hx]
              · right; left
                refine ⟨hin, hp0, hle, ?_⟩
                by_cases ha2 : added₂ = []
                · exfalso
                  apply hsl
                  refine ⟨hp0, ?_⟩
                  subst ha2
                  simp only [List.flatten_nil, List.length_nil, Nat.add_zero] at hssf
                  omega
                · rw [List.dropLast_cons_of_ne_nil ha2, List.flatten_cons]
                  simp only [List.mem_append]
                  rintro (hx | hx)
                  exacts [hnonl hx, hnl hx]
              · right; right
                refine ⟨i, last, hin, by simp, ?_, hilt, hie, hnt, ?_, hslt⟩
                · rw [List.getLast?_cons, hlastq]
                  rfl
                · rw [List.dropLast_cons_of_ne_nil hne, List.flatten_cons]
                  simp only [List.mem_append]
                  rintro (hx | hx)
                  exacts [hnonl hx, hnl hx]
/-- C4 (amended): a successful readLine returns a prefix of the
available bytes whose remainder stays available; with a positive
maxBytes the result never exceeds maxBytes; a terminator strictly
inside the result can only arise from the maxBytes cutoff, in which
case exactly maxBytes bytes are returned; and the call stops only for
one of the three reasons — the result ends at a terminator, the
resource is exhausted, or exactly maxBytes bytes were accumulated. -/
theorem readline_within_limit (fuel : Nat) (f : FileLikeBase) (size : Int)
    (l : List Char) (f₁ : FileLikeBase)
    (hrs : ReadState f) (hbz : 0 < f.bufsize)
    (h : FileLikeBase.readline fuel f size = .ok (l, f₁)) :
    l ++ availOf f₁ = availOf f ∧
    (0 < size → (l.length : Int) ≤ size) ∧
    ('\n' ∈ l.dropLast → 0 < size ∧ (l.length : Int) = size) ∧
    (l.getLast? = some '\n' ∨ availOf f₁ = [] ∨ (0 < size ∧ (l.length : Int) = size)) := by
  cases fuel with
  | zero => exact absurd h (by simp [FileLikeBase.readline, run, asBytes])
  | succ n =>
    unfold FileLikeBase.readline at h
    simp only [run] at h
    cases hlp : run n f (.rlLoopR size [] 0) with
    | error e =>
      rw [hlp] at h
      simp [Bind.bind, Except.bind, asRl, asBytes] at h
    | ok r =>
      obtain ⟨added, ssf₁, indx, f', hr, hpre, hrs', -, hssf, hexit⟩ :=
        rlLoop_inv n f size [] 0 r hrs hbz hlp
      subst hr
      rw [hlp] at h
      simp only [Bind.bind, Except.bind, asRl, List.nil_append] at h
      rcases hexit with ⟨hin, hav', hnl⟩ | ⟨hin, hp0, hle, hnl⟩ |
        ⟨i, last, hin, hne, hlastq, hilt, hie, hnt, hnl, hslt⟩
      · subst hin
        dsimp only at h
        by_cases hc : 0 < size ∧ (size : Int) < (ssf₁ : Int)
        · rw [if_pos hc] at h
          simp only [asBytes, Except.ok.injEq, Prod.mk.injEq] at h
          obtain ⟨hl, hf⟩ := h
          subst hl
          subst hf
          have hava : availOf { f' with
              rbuffer := some (added.flatten.drop size.toNat ++ f'.rbuffer.getD []) } =
              added.flatten.drop size.toNat ++ availOf f' := by
            simp [availOf]
          refine ⟨?_, ?_, ?_, ?_⟩
          · rw [hava, ← List.append_assoc, List.take_append_drop, hpre]
          · intro _
            simp only [List.length_take]
            omega
          · intro _
            exact ⟨hc.1, by simp only [List.length_take]; omega⟩
          · right; right
            exact ⟨hc.1, by simp only [List.length_take]; omega⟩
        · rw [if_neg hc] at h
          simp only [asBytes, Except.ok.injEq, Prod.mk.injEq] at h
          obtain ⟨hl, hf⟩ := h
          subst hl
          subst hf
          refine ⟨hpre, ?_, ?_, ?_⟩
          · intro hp
            omega
          · intro hmem
            exact absurd (List.mem_of_mem_dropLast hmem) hnl
          · right; left
            exact hav'
      · subst hin
        dsimp only at h
        by_cases hc : 0 < size ∧ (size : Int) < (ssf₁ : Int)
        · rw [if_pos hc] at h
          simp only [asBytes, Except.ok.injEq, Prod.mk.injEq] at h
          obtain ⟨hl, hf⟩ := h
          subst hl
          subst hf
          have hava : availOf { f' with
              rbuffer := some (added.flatten.drop size.toNat ++ f'.rbuffer.getD []) } =
              added.flatten.drop size.toNat ++ availOf f' := by
            simp [availOf]
          refine ⟨?_, ?_, ?_, ?_⟩
          · rw [hava, ← List.append_assoc, List.take_append_drop, hpre]
          · intro _
            simp only [List.length_take]
            omega
          · intro _
            exact ⟨hc.1, by simp only [List.length_take]; omega⟩
          · right; right
            exact ⟨hc.1, by simp only [List.length_take]; omega⟩
        · rw [if_neg hc] at h
          simp only [asBytes, Except.ok.injEq, Prod.mk.injEq] at h
          obtain ⟨hl, hf⟩ := h
          subst hl
          subst hf
          refine ⟨hpre, ?_, ?_, ?_⟩
          · intro hp
            omega
          · intro hmem
            exact ⟨hp0, by omega⟩
          · right; right
            exact ⟨hp0, by omega⟩
      · subst hin
        dsimp only at h
        rw [hlastq] at h
        simp only [Option.getD_some, asBytes, Except.ok.injEq, Prod.mk.injEq] at h
        obtain ⟨hl, hf⟩ := h
        subst hl
        subst hf
        have hsplit : added.dropLast ++ [last] = added := by
          have hgl := List.getLast?_eq_getLast added hne
          rw [hgl] at hlastq
          injection hlastq with hlast'
          rw [← hlast']
          exact List.dropLast_append_getLast hne
        have htake : last.take (i+1) = last.take i ++ ['\n'] := by
          rw [List.take_succ, hie]
          rfl
        have hflat : (added.dropLast ++ [last.take (i+1)]).flatten =
            added.dropLast.flatten ++ last.take (i+1) := List.flatten_concat _ _
        have hfl : added.flatten = added.dropLast.flatten ++ last := by
          conv_lhs => rw [← hsplit]
          exact List.flatten_concat _ _
        have hava : availOf { f' with
            rbuffer := some (last.drop (i+1) ++ f'.rbuffer.getD []) } =
            last.drop (i+1) ++ availOf f' := by
          simp [availOf]
        refine ⟨?_, ?_, ?_, ?_⟩
        · rw [hflat, hava, List.append_assoc, ← List.append_assoc (last.take (i+1)),
            List.take_append_drop, ← List.append_assoc, ← hfl, hpre]
        · intro hp
          have h1 := congrArg List.length hfl
          simp only [List.length_append] at h1
          have h2 := hslt hp
          rw [hflat]
          simp only [List.length_append, List.length_take]
          omega
        · intro hmem
          exfalso
          rw [hflat] at hmem
          have hld : (added.dropLast.flatten ++ last.take (i+1)).dropLast =
              added.dropLast.flatten ++ last.take i := by
            rw [htake, ← List.append_assoc, List.dropLast_concat]
          rw [hld] at hmem
          rcases List.mem_append.mp hmem with hx | hx
          exacts [hnl hx, hnt hx]
        · left
          rw [hflat, htake, ← List.append_assoc]
          exact List.getLast?_concat _
/-- C4 counterexample: on content "ab\ncdef", readline(5) reads the
whole content in one chunk, hits the size limit before the chunk is
scanned for a terminator, and returns "ab\ncd" — five bytes extending
past the first terminator, which sits strictly inside the returned
value. -/
theorem readline_size_break_passes_terminator :
    (FileLikeBase.readline 10 sampleLine 5).map Prod.fst =
      .ok ['a', 'b', '\n', 'c', 'd'] ∧
    '\n' ∈ (['a', 'b', '\n', 'c', 'd'] : List Char).dropLast :=
  ⟨rfl, by decide⟩

/-- Witness for the amended C4 at the newline sample. -/
theorem readline_within_limit_witness :
    (['a', 'b', '\n', 'c', 'd'] : List Char) ++ availOf sampleLinePost = availOf sampleLine ∧
    (0 < (5 : Int) → ((['a', 'b', '\n', 'c', 'd'] : List Char).length : Int) ≤ 5) ∧
    ('\n' ∈ (['a', 'b', '\n', 'c', 'd'] : List Char).dropLast →
      0 < (5 : Int) ∧ ((['a', 'b', '\n', 'c', 'd'] : List Char).length : Int) = 5) ∧
    ((['a', 'b', '\n', 'c', 'd'] : List Char).getLast? = some '\n' ∨
      availOf sampleLinePost = [] ∨
      (0 < (5 : Int) ∧ ((['a', 'b', '\n', 'c', 'd'] : List Char).length : Int) = 5)) :=
  readline_within_limit 10 sampleLine 5 ['a', 'b', '\n', 'c', 'd'] sampleLinePost
    ⟨rfl, rfl, rfl, rfl, rfl⟩ (by decide) rfl
/-- C10 counterexample: an end-relative seek on a closed stream with no
size attribute and a primitive that cannot seek drains the stream
through read to find the end, and read rejects the closed stream — so
seek on a closed stream can fail with ClosedError after all. -/
theorem seek_closed_drain_raises :
    FileLikeBase.seek 10 sampleClosedSkip 0 2 = .error .ioClosed := rfl

/-- C10 (amended): neither seek() nor tell() consults the closed flag.
tell() always returns the buffer-adjusted apparent position; on a
closed stream with no pending buffers, a start- or current-relative
seek proceeds exactly as on an open stream (here: succeeding via the
reset-and-record-skip emulation, after which tell() reports the
target); flush, read and write all reject a closed stream.  An
end-relative seek, however, may still surface ClosedError through the
drain it delegates to (see the counterexample). -/
theorem closed_behavior_amended (n : Nat) (f : FileLikeBase) (off : Int) (wh : Nat)
    (s : List Char) (k : Int)
    (hcl : f.closed = true) (hmd : f.mode = none) (hwb : f.wbuffer = none)
    (hrb : f.rbuffer = none) (hsb : f.sbuffer = none) (hso : f.soffset = 0)
    (hcap : f.prim.cap = .startOnly)
    (hwh : wh = 0 ∨ wh = 1) (hns : ¬ (off = 0 ∧ wh = 1))
    (htar : (if wh = 0 then off else (f.prim.pos : Int) + off) ≠ 0) :
    (∃ g, FileLikeBase.seek (n+1) f off wh = .ok g ∧
      g.tell = (if wh = 0 then off else (f.prim.pos : Int) + off)) ∧
    f.tell = (f.prim.pos : Int) - ((f.rbuffer.getD []).length : Int)
      + ((f.wbuffer.getD []).length : Int) + ((f.sbuffer.getD []).length : Int)
      + f.soffset ∧
    f.flush = .error .ioClosed ∧
    FileLikeBase.read (n+1) f k = .error .ioClosed ∧
    FileLikeBase.write (n+1) f s = .error .ioClosed := by
  refine ⟨?_, tell_formula f, ?_, ?_, ?_⟩
  · have hwbt : truthy f.wbuffer = false := by rw [hwb]; rfl
    have hmode : f.modeForbidsSeek = false := by
      unfold FileLikeBase.modeForbidsSeek
      rw [hmd]
    have hseek := seek_reset_clean n f off wh hmode hrb hsb hso hwbt hcap hwh hns htar
    refine ⟨_, hseek, ?_⟩
    rw [tell_formula]
    simp [hwb]
  · unfold FileLikeBase.flush
    rw [if_pos hcl]
  · unfold FileLikeBase.read
    simp only [run]
    rw [if_pos hcl]
    rfl
  · unfold FileLikeBase.write
    simp only [run]
    rw [if_pos hcl]
    rfl

/-- Witness for the amended C10 at the closed start-only sample. -/
theorem closed_behavior_amended_witness :
    (∃ g, FileLikeBase.seek 10 sampleClosedSkip 3 0 = .ok g ∧
      g.tell = (if (0 : Nat) = 0 then (3 : Int)
        else (sampleClosedSkip.prim.pos : Int) + 3)) ∧
    sampleClosedSkip.tell = (sampleClosedSkip.prim.pos : Int)
      - ((sampleClosedSkip.rbuffer.getD []).length : Int)
      + ((sampleClosedSkip.wbuffer.getD []).length : Int)
      + ((sampleClosedSkip.sbuffer.getD []).length : Int)
      + sampleClosedSkip.soffset ∧
    sampleClosedSkip.flush = .error .ioClosed ∧
    FileLikeBase.read 10 sampleClosedSkip 2 = .error .ioClosed ∧
    FileLikeBase.write 10 sampleClosedSkip ['a'] = .error .ioClosed :=
  closed_behavior_amended 9 sampleClosedSkip 3 0 ['a'] 2 rfl rfl rfl rfl rfl rfl rfl
    (Or.inl rfl) (by decide) (by decide)
/-- Overwriting within the existing extent preserves the length. -/
theorem overwriteAt_length_of_le (c : List Char) (pos : Nat) (s : List Char)
    (h : pos + s.length ≤ c.length) : (overwriteAt c pos s).length = c.length := by
  unfold overwriteAt
  simp only [List.length_append, List.length_take, List.length_replicate, List.length_drop]
  omega

/-- One non-final step of the join write, with the two ways of learning
the sub-file size (explicit attribute, or seek-to-end and back)
normalized away: the sub-file receives at most its remaining capacity
and the remainder recurses into the later sub-files. -/
theorem joinWrite_nonlast_step (n : Nat) (files : List SFile) (cur : Nat)
    (data : List Char) (cf : SFile)
    (hcf : files[cur]? = some cf) (hlast : ¬ (cur = files.length - 1))
    (hsz : cf.sizeAttr = none ∨ cf.sizeAttr = some ((cf.content.length : Int))) :
    joinWrite (n+1) files cur data =
      if (data.length : Int) ≤ (cf.content.length : Int) - (cf.pos : Int) then
        some (files.set cur (cf.write data))
      else
        joinWrite n
          (files.set cur (cf.write (pyTake data ((cf.content.length : Int) - (cf.pos : Int)))))
          (cur + 1) (pyDrop data ((cf.content.length : Int) - (cf.pos : Int))) := by
  rcases hsz with h | h
  · simp only [joinWrite]
    rw [hcf]
    dsimp only
    rw [if_neg hlast, h]
    rfl
  · simp only [joinWrite]
    rw [hcf]
    dsimp only
    rw [if_neg hlast, h]
    rfl

/-- C6: a join write delivers to each non-final sub-file at most its
remaining capacity (size minus position, the size read from the
explicit attribute or discovered by seeking), recursing with the
remainder, and writes unconditionally only into the last sub-file —
so, provided each non-final sub-file's recorded size is its actual
length and its cursor is within it, a successful write never changes
the length of any sub-file but the last. -/
theorem join_write_grows_only_last : ∀ (fuel : Nat) (files files' : List SFile)
    (cur : Nat) (data : List Char),
    (∀ i cfi, i + 1 < files.length → files[i]? = some cfi →
      (cfi.sizeAttr = none ∨ cfi.sizeAttr = some ((cfi.content.length : Int))) ∧
      cfi.pos ≤ cfi.content.length) →
    joinWrite fuel files cur data = some files' →
    files'.length = files.length ∧
    (∀ i cfi cfi', i + 1 < files.length → files[i]? = some cfi → files'[i]? = some cfi' →
      cfi'.content.length = cfi.content.length) := by
  intro fuel
  induction fuel with
  | zero =>
    intro files files' cur data hinv h
    exact absurd h (by simp [joinWrite])
  | succ n ih =>
    intro files files' cur data hinv h
    cases hcf : files[cur]? with
    | none =>
      simp only [joinWrite] at h
      rw [hcf] at h
      exact absurd h (by simp)
    | some cf =>
      have hcur : cur < files.length := by
        by_contra hc
        rw [List.getElem?_eq_none (by omega)] at hcf
        cases hcf
      by_cases hlast : cur = files.length - 1
      · simp only [joinWrite] at h
        rw [hcf] at h
        dsimp only at h
        rw [if_pos hlast] at h
        injection h with h'
        subst h'
        refine ⟨List.length_set _ _ _, ?_⟩
        intro i cfi cfi' hi hgi hgi'
        rw [List.getElem?_set_ne (show cur ≠ i from by omega)] at hgi'
        rw [hgi] at hgi'
        injection hgi' with he
        rw [← he]
      · obtain ⟨hor, hpos⟩ := hinv cur cf (by omega) hcf
        rw [joinWrite_nonlast_step n files cur data cf hcf hlast hor] at h
        by_cases hfit : (data.length : Int) ≤ (cf.content.length : Int) - (cf.pos : Int)
        · rw [if_pos hfit] at h
          injection h with h'
          subst h'
          refine ⟨List.length_set _ _ _, ?_⟩
          intro i cfi cfi' hi hgi hgi'
          by_cases hic : i = cur
          · subst hic
            rw [List.getElem?_set_self hcur] at hgi'
            rw [hcf] at hgi
            injection hgi with he1
            injection hgi' with he2
            rw [← he2, ← he1]
            show (overwriteAt cf.content cf.pos data).length = cf.content.length
            exact overwriteAt_length_of_le _ _ _ (by omega)
          · rw [List.getElem?_set_ne (fun hee => hic hee.symm)] at hgi'
            rw [hgi] at hgi'
            injection hgi' with he
            rw [← he]
        · rw [if_neg hfit] at h
          have hgap0 : (0 : Int) ≤ (cf.content.length : Int) - (cf.pos : Int) := by omega
          have hchlen : (pyTake data ((cf.content.length : Int) - (cf.pos : Int))).length =
              ((cf.content.length : Int) - (cf.pos : Int)).toNat := by
            unfold pyTake
            rw [if_pos hgap0]
            simp only [List.length_take]
            omega
          have hwcont : (cf.write (pyTake data
              ((cf.content.length : Int) - (cf.pos : Int)))).content.length =
              cf.content.length := by
            show (overwriteAt cf.content cf.pos _).length = _
            apply overwriteAt_length_of_le
            rw [hchlen]
            omega
          have hwpos : (cf.write (pyTake data
              ((cf.content.length : Int) - (cf.pos : Int)))).pos ≤
              (cf.write (pyTake data
                ((cf.content.length : Int) - (cf.pos : Int)))).content.length := by
            rw [hwcont]
            show cf.pos + _ ≤ _
            rw [hchlen]
            omega
          have hinv₂ : ∀ i cfi,
              i + 1 < (files.set cur (cf.write (pyTake data
                ((cf.content.length : Int) - (cf.pos : Int))))).length →
              (files.set cur (cf.write (pyTake data
                ((cf.content.length : Int) - (cf.pos : Int)))))[i]? = some cfi →
              (cfi.sizeAttr = none ∨ cfi.sizeAttr = some ((cfi.content.length : Int))) ∧
              cfi.pos ≤ cfi.content.length := by
            intro i cfi hi hgi
            rw [List.length_set] at hi
            by_cases hic : i = cur
            · subst hic
              rw [List.getElem?_set_self hcur] at hgi
              injection hgi with he
              subst he
              refine ⟨?_, hwpos⟩
              rcases hor with hn | hs
              · left
                exact hn
              · right
                rw [hwcont]
                exact hs
            · rw [List.getElem?_set_ne (fun hee => hic hee.symm)] at hgi
              exact hinv i cfi (by omega) hgi
          obtain ⟨hlen2, hpres2⟩ := ih _ files' (cur+1) _ hinv₂ h
          constructor
          · rw [hlen2, List.length_set]
          · intro i cfi cfi' hi hgi hgi'
            by_cases hic : i = cur
            · subst hic
              have hg2 : (files.set i (cf.write (pyTake data
                  ((cf.content.length : Int) - (cf.pos : Int)))))[i]? =
                  some (cf.write (pyTake data
                    ((cf.content.length : Int) - (cf.pos : Int)))) :=
                List.getElem?_set_self hcur
              have hstep := hpres2 i _ cfi' (by rw [List.length_set]; omega) hg2 hgi'
              rw [hstep, hwcont]
              rw [hcf] at hgi
              injection hgi with he
              rw [he]
            · exact hpres2 i cfi cfi' (by rw [List.length_set]; omega)
                (by rw [List.getElem?_set_ne (fun hee => hic hee.symm)]; exact hgi) hgi'

/-- Witness for C6: seven bytes over the [5, 3, growable] sample join
fill the first head, spill two bytes into the second, and leave the
second head's length unchanged. -/
theorem join_write_grows_only_last_witness :
    sampleJoinOut.length = sampleFiles.length ∧
    ({ content := "XXh".toList, pos := 2, sizeAttr := some 3 } : SFile).content.length =
      ({ content := "fgh".toList, pos := 0, sizeAttr := some 3 } : SFile).content.length := by
  obtain ⟨h1, h2⟩ := join_write_grows_only_last 5 sampleFiles sampleJoinOut 0
    (List.replicate 7 'X')
    (by
      intro i cfi hi hgi
      simp only [sampleFiles, List.length_cons, List.length_nil] at hi
      have hi2 : i < 2 := by omega
      interval_cases i
      · simp only [sampleFiles] at hgi
        injection hgi with he
        subst he
        exact ⟨Or.inl rfl, by decide⟩
      · simp only [sampleFiles] at hgi
        injection hgi with he
        subst he
        exact ⟨Or.inr (by decide), by decide⟩)
    rfl
  exact ⟨h1, h2 1 _ _ (by decide) rfl rfl⟩
/-- A successful mode assertion implies the boolean mode check. -/
theorem assertMode_ok_checkMode (f : FileLikeBase) (m : List Char)
    (h : f.assertMode m = .ok ()) : f.checkMode m = true := by
  unfold FileLikeBase.assertMode at h
  unfold FileLikeBase.checkMode
  cases hm : f.mode with
  | none => rfl
  | some s =>
    rw [hm] at h
    dsimp only at h ⊢
    unfold assertModeStr at h
    unfold checkModeStr
    by_cases h1 : '+' ∈ s
    · simp [h1]
    · by_cases h2 : '-' ∈ s ∧ '-' ∉ m
      · rw [if_neg h1, if_pos h2] at h
        cases h
      · by_cases h3 : 'r' ∈ m ∧ 'r' ∉ s
        · rw [if_neg h1, if_neg h2, if_pos h3] at h
          cases h
        · by_cases h4 : 'w' ∈ m ∧ 'w' ∉ s ∧ 'a' ∉ s
          · rw [if_neg h1, if_neg h2, if_neg h3, if_pos h4] at h
            cases h
          · simp [h1, h2, h3, h4]

/-- The primitive read does not change the capability. -/
theorem _read_cap (p : Prim) (hint : Int) : (p._read hint).2.cap = p.cap := by
  unfold Prim._read
  dsimp only
  split <;> rfl

/-- The primitive write does not change the capability. -/
theorem _write_cap (p : Prim) (s : List Char) (fl : Bool) :
    (p._write s fl).2.cap = p.cap := by
  unfold Prim._write
  dsimp only
  split <;> rfl

/-- A successful primitive seek does not change the capability. -/
theorem _seek_cap (p : Prim) (off : Int) (wh : Nat) (sb : Option (List Char)) (p' : Prim)
    (h : p._seek off wh = .ok (sb, p')) : p'.cap = p.cap := by
  unfold Prim._seek at h
  cases hc : p.cap <;> rw [hc] at h <;> dsimp only at h
  · split at h
    · injection h with h'
      injection h' with h1 h2
      rw [← h2]
    · split at h
      · injection h with h'
        injection h' with h1 h2
        rw [← h2]
      · injection h with h'
        injection h' with h1 h2
        rw [← h2]
  · split at h
    · injection h with h'
      injection h' with h1 h2
      rw [← h2]
    · cases h
  · split at h
    · injection h with h'
      injection h' with h1 h2
      rw [← h2]
    · cases h
  · cases h

/-- A primitive honouring the mandatory seek-to-start accepts it and
keeps its capability. -/
theorem _seek00_ok (p : Prim) (h : p.cap ≠ .noneCap) :
    p._seek 0 0 = .ok (none, { p with pos := 0 }) := by
  unfold Prim._seek
  cases hc : p.cap with
  | full => rfl
  | absOnly => rfl
  | startOnly => rfl
  | noneCap => exact absurd hc h

/-- Tier-three reset succeeds on any contract-honouring primitive,
keeping the mode, capability and buffers. -/
theorem seekReset_ok (f : FileLikeBase) (off : Int) (h : f.prim.cap ≠ .noneCap) :
    seekReset f off = .ok { f with
      prim := { f.prim with pos := 0 }, soffset := off, sbuffer := none } := by
  unfold seekReset
  rw [_seek00_ok f.prim h]

/-- Tier-two absolute retry never escalates on a contract-honouring
primitive, and preserves the mode, capability, and read/write
buffers. -/
theorem seekAbs_ok (f : FileLikeBase) (off : Int) (h : f.prim.cap ≠ .noneCap) :
    ∃ g, seekAbs f off = .ok g ∧ g.mode = f.mode ∧ g.prim.cap = f.prim.cap ∧
      g.rbuffer = f.rbuffer ∧ g.wbuffer = f.wbuffer := by
  unfold seekAbs
  cases hs : f.prim._seek off 0 with
  | ok v =>
    obtain ⟨sb, p⟩ := v
    exact ⟨_, rfl, rfl, _seek_cap _ _ _ _ _ hs, rfl, rfl⟩
  | error e =>
    rw [seekReset_ok f off h]
    exact ⟨_, rfl, rfl, rfl, rfl, rfl⟩

/-- The flush result: mode, capability and read-ahead unchanged; the
write-behind is either cleared or untouched, and is certainly cleared
when the mode check passes and a write-behind exists. -/
theorem flush_post (f g : FileLikeBase) (h : f.flush = .ok g) :
    g.mode = f.mode ∧ g.prim.cap = f.prim.cap ∧ g.rbuffer = f.rbuffer ∧
    (g.wbuffer = none ∨ g.wbuffer = f.wbuffer) ∧
    (f.checkMode ['w', '-'] = true → f.wbuffer.isSome = true → g.wbuffer = none) := by
  unfold FileLikeBase.flush at h
  by_cases hcl : f.closed = true
  · rw [if_pos hcl] at h
    cases h
  · rw [if_neg hcl] at h
    by_cases hck : (f.checkMode ['w', '-'] && f.wbuffer.isSome) = true
    · rw [if_pos hck] at h
      dsimp only at h
      cases hw : Prim._write f.prim
          ((if truthy f.sbuffer = true then f.sbuffer.getD [] else []) ++ f.wbuffer.getD [])
          true with
      | mk leftover p =>
        rw [hw] at h
        dsimp only at h
        by_cases hl : truthy leftover = true
        · rw [if_pos hl] at h
          cases h
        · rw [if_neg hl] at h
          injection h with h'
          subst h'
          refine ⟨rfl, ?_, rfl, Or.inl rfl, fun _ _ => rfl⟩
          have := _write_cap f.prim
            ((if truthy f.sbuffer = true then f.sbuffer.getD [] else []) ++ f.wbuffer.getD [])
            true
          rw [hw] at this
          exact this
    · rw [if_neg hck] at h
      injection h with h'
      subst h'
      refine ⟨rfl, rfl, rfl, Or.inr rfl, ?_⟩
      intro h1 h2
      exact absurd (by rw [h1, h2]; rfl) hck

/-- A flush failure is a closed-stream or incomplete-flush error, never
an escaped NotImplementedError. -/
theorem flush_no_NI (f : FileLikeBase) (e : Err) (h : f.flush = .error e) :
    e ≠ .notImplemented := by
  unfold FileLikeBase.flush at h
  by_cases hcl : f.closed = true
  · rw [if_pos hcl] at h
    injection h with h'
    subst h'
    simp
  · rw [if_neg hcl] at h
    by_cases hck : (f.checkMode ['w', '-'] && f.wbuffer.isSome) = true
    · rw [if_pos hck] at h
      dsimp only at h
      cases hw : Prim._write f.prim
          ((if truthy f.sbuffer = true then f.sbuffer.getD [] else []) ++ f.wbuffer.getD [])
          true with
      | mk leftover p =>
        rw [hw] at h
        dsimp only at h
        by_cases hl : truthy leftover = true
        · rw [if_pos hl] at h
          injection h with h'
          subst h'
          simp
        · rw [if_neg hl] at h
          cases h
    · rw [if_neg hck] at h
      cases h

/-- A failed mode assertion raises a permission error, never an escaped
NotImplementedError. -/
theorem assertMode_no_NI (f : FileLikeBase) (m : List Char) (e : Err)
    (h : f.assertMode m = .error e) : e ≠ .notImplemented := by
  unfold FileLikeBase.assertMode at h
  cases hm : f.mode with
  | none =>
    rw [hm] at h
    cases h
  | some s =>
    rw [hm] at h
    dsimp only at h
    unfold assertModeStr at h
    by_cases h1 : '+' ∈ s
    · rw [if_pos h1] at h
      cases h
    · by_cases h2 : '-' ∈ s ∧ '-' ∉ m
      · rw [if_neg h1, if_pos h2] at h
        injection h with h'
        subst h'
        decide
      · by_cases h3 : 'r' ∈ m ∧ 'r' ∉ s
        · rw [if_neg h1, if_neg h2, if_pos h3] at h
          injection h with h'
          subst h'
          decide
        · by_cases h4 : 'w' ∈ m ∧ 'w' ∉ s ∧ 'a' ∉ s
          · rw [if_neg h1, if_neg h2, if_neg h3, if_pos h4] at h
            injection h with h'
            subst h'
            decide
          · rw [if_neg h1, if_neg h2, if_neg h3, if_neg h4] at h
            cases h
/-- The drain-all read loop preserves the capability and can only fail
for want of fuel. -/
theorem readAllLoopF_post : ∀ (n : Nat) (p : Prim) (acc : List Char),
    (∀ d p', readAllLoopF n p acc = .ok (d, p') → p'.cap = p.cap) ∧
    (∀ e, readAllLoopF n p acc = .error e → e = .fuel) := by
  intro n
  induction n with
  | zero =>
    intro p acc
    constructor
    · intro d p' h
      cases h
    · intro e h
      injection h with h'
      exact h'.symm
  | succ n ih =>
    intro p acc
    constructor
    · intro d p' h
      unfold readAllLoopF at h
      cases hr : p._read (-1) with
      | mk oc p₁ =>
        rw [hr] at h
        have hcap : p₁.cap = p.cap := by
          have := _read_cap p (-1)
          rw [hr] at this
          exact this
        cases oc with
        | none =>
          dsimp only at h
          injection h with h'
          injection h' with h1 h2
          rw [← h2, hcap]
        | some c =>
          dsimp only at h
          rw [(ih p₁ (acc ++ c)).1 d p' h, hcap]
    · intro e h
      unfold readAllLoopF at h
      cases hr : p._read (-1) with
      | mk oc p₁ =>
        rw [hr] at h
        cases oc with
        | none =>
          dsimp only at h
          cases h
        | some c =>
          dsimp only at h
          exact (ih p₁ (acc ++ c)).2 e h

/-- The bounded read loop preserves the capability and can only fail
for want of fuel. -/
theorem readLoopF_post : ∀ (n : Nat) (p : Prim) (size : Nat) (acc : List Char),
    (∀ d p', readLoopF n p size acc = .ok (d, p') → p'.cap = p.cap) ∧
    (∀ e, readLoopF n p size acc = .error e → e = .fuel) := by
  intro n
  induction n with
  | zero =>
    intro p size acc
    constructor
    · intro d p' h
      cases h
    · intro e h
      injection h with h'
      exact h'.symm
  | succ n ih =>
    intro p size acc
    constructor
    · intro d p' h
      unfold readLoopF at h
      by_cases hlt : acc.length < size
      · rw [if_pos hlt] at h
        cases hr : p._read ((size : Int) - (acc.length : Int)) with
        | mk oc p₁ =>
          rw [hr] at h
          have hcap : p₁.cap = p.cap := by
            have := _read_cap p ((size : Int) - (acc.length : Int))
            rw [hr] at this
            exact this
          cases oc with
          | none =>
            dsimp only at h
            injection h with h'
            injection h' with h1 h2
            rw [← h2, hcap]
          | some c =>
            dsimp only at h
            rw [(ih p₁ size (acc ++ c)).1 d p' h, hcap]
      · rw [if_neg hlt] at h
        injection h with h'
        injection h' with h1 h2
        rw [← h2]
    · intro e h
      unfold readLoopF at h
      by_cases hlt : acc.length < size
      · rw [if_pos hlt] at h
        cases hr : p._read ((size : Int) - (acc.length : Int)) with
        | mk oc p₁ =>
          rw [hr] at h
          cases oc with
          | none =>
            dsimp only at h
            cases h
          | some c =>
            dsimp only at h
            exact (ih p₁ size (acc ++ c)).2 e h
      · rw [if_neg hlt] at h
        cases h

/-- The main read body preserves the write-behind buffer, the mode and
the capability, always installs a read-ahead, installs an empty one
whenever it delivers nothing, and can only fail for want of fuel. -/
theorem readMain_post (n : Nat) (f : FileLikeBase) (size : Int) :
    (∀ d g, readMain n f size = .ok (d, g) →
      g.wbuffer = f.wbuffer ∧ g.mode = f.mode ∧ g.prim.cap = f.prim.cap ∧
      (∃ rb, g.rbuffer = some rb) ∧ (d = [] → g.rbuffer = some [])) ∧
    (∀ e, readMain n f size = .error e → e = .fuel) := by
  constructor
  · intro d g h
    unfold readMain at h
    by_cases hsz : size ≤ 0
    · rw [if_pos hsz] at h
      simp only [Bind.bind, Except.bind] at h
      cases hl : readAllLoopF n f.prim [] with
      | error e =>
        rw [hl] at h
        simp at h
      | ok v =>
        obtain ⟨rest, p⟩ := v
        rw [hl] at h
        dsimp only at h
        injection h with h'
        injection h' with h1 h2
        rw [← h2]
        refine ⟨rfl, rfl, (readAllLoopF_post n _ []).1 rest p hl, ⟨[], rfl⟩, fun _ => rfl⟩
    · rw [if_neg hsz] at h
      simp only [Bind.bind, Except.bind] at h
      cases hl : readLoopF n f.prim size.toNat
          (if truthy f.rbuffer = true then f.rbuffer.getD [] else []) with
      | error e =>
        rw [hl] at h
        simp at h
      | ok v =>
        obtain ⟨acc, p⟩ := v
        rw [hl] at h
        dsimp only at h
        have hcap := (readLoopF_post n f.prim size.toNat _).1 acc p hl
        by_cases hlt : size.toNat < acc.length
        · rw [if_pos hlt] at h
          injection h with h'
          injection h' with h1 h2
          rw [← h2]
          refine ⟨rfl, rfl, hcap, ⟨_, rfl⟩, ?_⟩
          intro hd
          rw [← h1] at hd
          rw [List.take_eq_nil_iff] at hd
          rcases hd with h0 | hnil
          · omega
          · rw [hnil] at hlt
            simp at hlt
        · rw [if_neg hlt] at h
          injection h with h'
          injection h' with h1 h2
          rw [← h2]
          exact ⟨rfl, rfl, hcap, ⟨[], rfl⟩, fun _ => rfl⟩
  · intro e h
    unfold readMain at h
    by_cases hsz : size ≤ 0
    · rw [if_pos hsz] at h
      simp only [Bind.bind, Except.bind] at h
      cases hl : readAllLoopF n f.prim [] with
      | error e₁ =>
        rw [hl] at h
        dsimp only at h
        injection h with h'
        rw [← h']
        exact (readAllLoopF_post n _ []).2 e₁ hl
      | ok v =>
        obtain ⟨rest, p⟩ := v
        rw [hl] at h
        simp at h
    · rw [if_neg hsz] at h
      simp only [Bind.bind, Except.bind] at h
      cases hl : readLoopF n f.prim size.toNat
          (if truthy f.rbuffer = true then f.rbuffer.getD [] else []) with
      | error e₁ =>
        rw [hl] at h
        dsimp only at h
        injection h with h'
        rw [← h']
        exact (readLoopF_post n f.prim size.toNat _).2 e₁ hl
      | ok v =>
        obtain ⟨acc, p⟩ := v
        rw [hl] at h
        dsimp only at h
        by_cases hlt : size.toNat < acc.length
        · rw [if_pos hlt] at h
          cases h
        · rw [if_neg hlt] at h
          cases h
/-- The evaluation of `seek` with no pending write buffer is its tail. -/
theorem run_seek_tail (n : Nat) (f : FileLikeBase) (off : Int) (wh : Nat)
    (hw : ¬ wh > 2) (hm : f.modeForbidsSeek = false) (hwbt : truthy f.wbuffer = false) :
    run (n+1) f (.seekR off wh) = seekTail n f off wh := by
  simp only [run]
  rw [if_neg hw]
  rw [if_neg (show ¬ (f.modeForbidsSeek = true) from by simp [hm])]
  rw [if_neg (show ¬ (truthy f.wbuffer = true) from by simp [hwbt])]
  rfl

/-- The evaluation of `seek` with a pending write buffer that flushes
successfully is its tail over the flushed state. -/
theorem run_seek_tail_flush (n : Nat) (f f₁ : FileLikeBase) (off : Int) (wh : Nat)
    (hw : ¬ wh > 2) (hm : f.modeForbidsSeek = false)
    (hwb : truthy f.wbuffer = true) (hfl : f.flush = .ok f₁) :
    run (n+1) f (.seekR off wh) = seekTail n f₁ off wh := by
  simp only [run]
  rw [if_neg hw]
  rw [if_neg (show ¬ (f.modeForbidsSeek = true) from by simp [hm])]
  rw [if_pos hwb, hfl]
  simp only [Bind.bind, Except.bind]
  rfl

/-- The evaluation of `seek` with a pending write buffer whose flush
fails propagates the flush error. -/
theorem run_seek_flush_err (n : Nat) (f : FileLikeBase) (off : Int) (wh : Nat) (e : Err)
    (hw : ¬ wh > 2) (hm : f.modeForbidsSeek = false)
    (hwb : truthy f.wbuffer = true) (hfl : f.flush = .error e) :
    run (n+1) f (.seekR off wh) = .error e := by
  simp only [run]
  rw [if_neg hw]
  rw [if_neg (show ¬ (f.modeForbidsSeek = true) from by simp [hm])]
  rw [if_pos hwb, hfl]
  simp only [Bind.bind, Except.bind]

/-- The evaluation of `seek` on a no-seek mode. -/
theorem run_seek_mode (n : Nat) (f : FileLikeBase) (off : Int) (wh : Nat)
    (hw : ¬ wh > 2) (hm : f.modeForbidsSeek = true) :
    run (n+1) f (.seekR off wh) = .error .ioNotSeekableMode := by
  simp only [run]
  rw [if_neg hw]
  rw [if_pos hm]

/-- The evaluation of `seek` on an invalid whence. -/
theorem run_seek_whgt2 (n : Nat) (f : FileLikeBase) (off : Int) (wh : Nat)
    (hw : wh > 2) :
    run (n+1) f (.seekR off wh) = .error .valueWhence := by
  simp only [run]
  rw [if_pos hw]
/-- Fields preserved by a successful tier-two retry. -/
theorem seekAbs_post (f g : FileLikeBase) (off : Int) (h : seekAbs f off = .ok g) :
    g.mode = f.mode ∧ g.prim.cap = f.prim.cap ∧ g.rbuffer = f.rbuffer ∧
    g.wbuffer = f.wbuffer := by
  unfold seekAbs at h
  cases hs : f.prim._seek off 0 with
  | ok v =>
    obtain ⟨sb, p⟩ := v
    rw [hs] at h
    dsimp only at h
    injection h with h'
    subst h'
    exact ⟨rfl, _seek_cap _ _ _ _ _ hs, rfl, rfl⟩
  | error e =>
    rw [hs] at h
    dsimp only at h
    unfold seekReset at h
    cases hs0 : f.prim._seek 0 0 with
    | ok v =>
      obtain ⟨sb, p⟩ := v
      rw [hs0] at h
      dsimp only at h
      injection h with h'
      subst h'
      exact ⟨rfl, _seek_cap _ _ _ _ _ hs0, rfl, rfl⟩
    | error e' =>
      rw [hs0] at h
      cases h

/-- Fields preserved by a successful tier-three reset. -/
theorem seekReset_post (f g : FileLikeBase) (off : Int) (h : seekReset f off = .ok g) :
    g.mode = f.mode ∧ g.prim.cap = f.prim.cap ∧ g.rbuffer = f.rbuffer ∧
    g.wbuffer = f.wbuffer := by
  unfold seekReset at h
  cases hs0 : f.prim._seek 0 0 with
  | ok v =>
    obtain ⟨sb, p⟩ := v
    rw [hs0] at h
    dsimp only at h
    injection h with h'
    subst h'
    exact ⟨rfl, _seek_cap _ _ _ _ _ hs0, rfl, rfl⟩
  | error e' =>
    rw [hs0] at h
    cases h
/-- Two non-truthy buffers give the buffer invariant. -/
theorem bufInv_of (g : FileLikeBase) (hrb : truthy g.rbuffer = false)
    (hwb : truthy g.wbuffer = false) : BufInv g := by
  constructor
  · rintro ⟨h1, -⟩
    rw [hrb] at h1
    cases h1
  · intro ht
    rw [hwb] at ht
    cases ht

/-- Analysis of a successful seek tail: capability and mode are
preserved unconditionally; given no pending write buffer, the result
keeps the buffer invariant, carries no read-ahead (none at all below
end-relative) and no pending write buffer. -/
theorem seekTail_ok_post (n : Nat) (f : FileLikeBase) (off : Int) (wh : Nat) (r : Ret)
    (hdrain : ∀ r₀, run n (seekCleared f) .drainR = .ok r₀ →
      (retSt r₀).prim.cap = (seekCleared f).prim.cap ∧
      (retSt r₀).mode = (seekCleared f).mode ∧
      (BufInv (seekCleared f) → BufInv (retSt r₀) ∧ post (seekCleared f) .drainR r₀))
    (h : seekTail n f off wh = .ok r) :
    (retSt r).prim.cap = f.prim.cap ∧ (retSt r).mode = f.mode ∧
    (truthy f.wbuffer = false →
      BufInv (retSt r) ∧ truthy (retSt r).rbuffer = false ∧
      (wh ≤ 1 → (retSt r).rbuffer = none) ∧ truthy (retSt r).wbuffer = false) := by
  unfold seekTail at h
  by_cases hsc : seekAdjOffset f off wh = 0 ∧ wh = 1
  · rw [if_pos hsc] at h
    injection h with h'
    subst h'
    exact ⟨rfl, rfl, fun hwbt => ⟨bufInv_of _ rfl hwbt, rfl, fun _ => rfl, hwbt⟩⟩
  · rw [if_neg hsc] at h
    cases hps : (seekCleared f).prim._seek (seekAdjOffset f off wh) wh with
    | ok v =>
      obtain ⟨sbuf, p⟩ := v
      rw [hps] at h
      dsimp only at h
      injection h with h'
      subst h'
      exact ⟨_seek_cap _ _ _ _ _ hps, rfl,
        fun hwbt => ⟨bufInv_of _ rfl hwbt, rfl, fun _ => rfl, hwbt⟩⟩
    | error e0 =>
      rw [hps] at h
      dsimp only at h
      by_cases hw1 : wh = 1
      · rw [if_pos hw1] at h
        cases hsa : seekAbs (seekCleared f)
            ((seekCleared f).prim._tell + seekAdjOffset f off wh) with
        | error e1 =>
          rw [hsa] at h
          cases h
        | ok g =>
          rw [hsa] at h
          injection h with h'
          subst h'
          obtain ⟨hmode, hcap, hrb, hwbu⟩ := seekAbs_post _ _ _ hsa
          refine ⟨hcap, hmode, ?_⟩
          intro hwbt
          have hrbn : g.rbuffer = none := hrb
          have hwbf : truthy g.wbuffer = false := by
            rw [show g.wbuffer = f.wbuffer from hwbu]
            exact hwbt
          have hrbf : truthy g.rbuffer = false := by
            rw [hrbn]
            rfl
          exact ⟨bufInv_of _ hrbf hwbf, hrbf, fun _ => hrbn, hwbf⟩
      · rw [if_neg hw1] at h
        by_cases hw2 : wh = 2
        · rw [if_pos hw2] at h
          cases hsz : (seekCleared f).sizeAttr with
          | some sz =>
            rw [hsz] at h
            dsimp only at h
            cases hsa : seekAbs (seekCleared f) (sz + seekAdjOffset f off wh) with
            | error e1 =>
              rw [hsa] at h
              cases h
            | ok g =>
              rw [hsa] at h
              injection h with h'
              subst h'
              obtain ⟨hmode, hcap, hrb, hwbu⟩ := seekAbs_post _ _ _ hsa
              refine ⟨hcap, hmode, ?_⟩
              intro hwbt
              have hrbn : g.rbuffer = none := hrb
              have hwbf : truthy g.wbuffer = false := by
                rw [show g.wbuffer = f.wbuffer from hwbu]
                exact hwbt
              have hrbf : truthy g.rbuffer = false := by
                rw [hrbn]
                rfl
              exact ⟨bufInv_of _ hrbf hwbf, hrbf, fun _ => hrbn, hwbf⟩
          | none =>
            rw [hsz] at h
            dsimp only at h
            cases hdr : run n (seekCleared f) .drainR with
            | error e1 =>
              rw [hdr] at h
              simp [asUnit, Bind.bind, Except.bind] at h
            | ok r₀ =>
              rw [hdr] at h
              obtain ⟨hcap₀, hmode₀, hbuf₀⟩ := hdrain r₀ hdr
              cases r₀ with
              | unitR g₀ =>
                simp only [asUnit, Bind.bind, Except.bind] at h
                cases hsa : seekAbs g₀ (g₀.tell + seekAdjOffset f off wh) with
                | error e1 =>
                  rw [hsa] at h
                  cases h
                | ok g =>
                  rw [hsa] at h
                  injection h with h'
                  subst h'
                  obtain ⟨hmode, hcap, hrb, hwbu⟩ := seekAbs_post _ _ _ hsa
                  refine ⟨hcap.trans hcap₀, hmode.trans hmode₀, ?_⟩
                  intro hwbt
                  have hbi₀ : BufInv (seekCleared f) :=
                    bufInv_of _ rfl hwbt
                  obtain ⟨hbinv₀, hwb₀, hrb₀⟩ := hbuf₀ hbi₀
                  have hwbf : truthy g.wbuffer = false := by
                    rw [show g.wbuffer = g₀.wbuffer from hwbu]
                    exact hwb₀
                  have hrbf : truthy g.rbuffer = false := by
                    rw [show g.rbuffer = g₀.rbuffer from hrb]
                    exact hrb₀
                  refine ⟨bufInv_of _ hrbf hwbf, hrbf, ?_, hwbf⟩
                  intro hwle
                  exfalso
                  omega
              | bytesR d g₀ =>
                simp [asUnit, Bind.bind, Except.bind] at h
              | soR s g₀ =>
                simp [asUnit, Bind.bind, Except.bind] at h
              | rlR a b c g₀ =>
                simp [asUnit, Bind.bind, Except.bind] at h
        · rw [if_neg hw2] at h
          cases hsr : seekReset (seekCleared f) (seekAdjOffset f off wh) with
          | error e1 =>
            rw [hsr] at h
            cases h
          | ok g =>
            rw [hsr] at h
            injection h with h'
            subst h'
            obtain ⟨hmode, hcap, hrb, hwbu⟩ := seekReset_post _ _ _ hsr
            refine ⟨hcap, hmode, ?_⟩
            intro hwbt
            have hrbn : g.rbuffer = none := hrb
            have hwbf : truthy g.wbuffer = false := by
              rw [show g.wbuffer = f.wbuffer from hwbu]
              exact hwbt
            have hrbf : truthy g.rbuffer = false := by
              rw [hrbn]
              rfl
            exact ⟨bufInv_of _ hrbf hwbf, hrbf, fun _ => hrbn, hwbf⟩
/-- A seek tail on a contract-honouring primitive never lets the
unsupported-seek signal escape as NotImplementedError. -/
theorem seekTail_no_NI (n : Nat) (f : FileLikeBase) (off : Int) (wh : Nat)
    (hdrainA : ∀ r₀, run n (seekCleared f) .drainR = .ok r₀ →
      (retSt r₀).prim.cap = (seekCleared f).prim.cap)
    (hdrainB : ∀ e, run n (seekCleared f) .drainR = .error e → e ≠ .notImplemented)
    (hcap : f.prim.cap ≠ .noneCap) :
    ∀ e, seekTail n f off wh = .error e → e ≠ .notImplemented := by
  intro e h
  unfold seekTail at h
  by_cases hsc : seekAdjOffset f off wh = 0 ∧ wh = 1
  · rw [if_pos hsc] at h
    cases h
  · rw [if_neg hsc] at h
    cases hps : (seekCleared f).prim._seek (seekAdjOffset f off wh) wh with
    | ok v =>
      obtain ⟨sbuf, p⟩ := v
      rw [hps] at h
      cases h
    | error e0 =>
      rw [hps] at h
      dsimp only at h
      have hcapc : (seekCleared f).prim.cap ≠ .noneCap := hcap
      by_cases hw1 : wh = 1
      · rw [if_pos hw1] at h
        obtain ⟨g, hsa, -⟩ := seekAbs_ok (seekCleared f)
          ((seekCleared f).prim._tell + seekAdjOffset f off wh) hcapc
        rw [hsa] at h
        cases h
      · rw [if_neg hw1] at h
        by_cases hw2 : wh = 2
        · rw [if_pos hw2] at h
          cases hsz : (seekCleared f).sizeAttr with
          | some sz =>
            rw [hsz] at h
            dsimp only at h
            obtain ⟨g, hsa, -⟩ := seekAbs_ok (seekCleared f)
              (sz + seekAdjOffset f off wh) hcapc
            rw [hsa] at h
            cases h
          | none =>
            rw [hsz] at h
            dsimp only at h
            cases hdr : run n (seekCleared f) .drainR with
            | error e1 =>
              rw [hdr] at h
              simp only [asUnit, Bind.bind, Except.bind] at h
              injection h with h'
              rw [← h']
              exact hdrainB e1 hdr
            | ok r₀ =>
              rw [hdr] at h
              cases r₀ with
              | unitR g₀ =>
                simp only [asUnit, Bind.bind, Except.bind] at h
                have hcg : g₀.prim.cap ≠ .noneCap := by
                  have := hdrainA (.unitR g₀) hdr
                  rw [show (retSt (Ret.unitR g₀)).prim.cap = g₀.prim.cap from rfl] at this
                  rw [this]
                  exact hcapc
                obtain ⟨g, hsa, -⟩ := seekAbs_ok g₀
                  (g₀.tell + seekAdjOffset f off wh) hcg
                rw [hsa] at h
                cases h
              | bytesR d g₀ =>
                simp only [asUnit, Bind.bind, Except.bind] at h
                injection h with h'
                rw [← h']
                decide
              | soR s g₀ =>
                simp only [asUnit, Bind.bind, Except.bind] at h
                injection h with h'
                rw [← h']
                decide
              | rlR a b c g₀ =>
                simp only [asUnit, Bind.bind, Except.bind] at h
                injection h with h'
                rw [← h']
                decide
        · rw [if_neg hw2] at h
          rw [seekReset_ok (seekCleared f) (seekAdjOffset f off wh) hcapc] at h
          cases h
/-- A non-truthy write buffer alone gives the buffer invariant. -/
theorem bufInv_of_wb (g : FileLikeBase) (hwb : truthy g.wbuffer = false) : BufInv g := by
  constructor
  · rintro ⟨-, h2⟩
    rw [hwb] at h2
    cases h2
  · intro ht
    rw [hwb] at ht
    cases ht

/-- `read` on a closed stream. -/
theorem run_read_closed (n : Nat) (f : FileLikeBase) (size : Int) (hcl : f.closed = true) :
    run (n+1) f (.readR size) = .error .ioClosed := by
  simp only [run]
  rw [if_pos hcl]

/-- `read` propagates a mode-assertion failure. -/
theorem run_read_assert_err (n : Nat) (f : FileLikeBase) (size : Int) (e : Err)
    (hcl : f.closed = false) (hass : f.assertMode ['r', '-'] = .error e) :
    run (n+1) f (.readR size) = .error e := by
  simp only [run]
  rw [if_neg (show ¬ (f.closed = true) from by simp [hcl]), hass]
  rfl

/-- `read` with no pending write buffer proceeds to its tail. -/
theorem run_read_nowb (n : Nat) (f : FileLikeBase) (size : Int)
    (hcl : f.closed = false) (hass : f.assertMode ['r', '-'] = .ok ())
    (hwb : f.wbuffer = none) :
    run (n+1) f (.readR size) = readMid n f size := by
  simp only [run]
  rw [if_neg (show ¬ (f.closed = true) from by simp [hcl]), hass]
  simp only [Bind.bind, Except.bind]
  rw [if_neg (show ¬ (f.wbuffer ≠ none) from by simp [hwb])]
  rfl

/-- `read` propagates a failure of its write-buffer flushing seek. -/
theorem run_read_wb_err (n : Nat) (f : FileLikeBase) (size : Int) (e : Err)
    (hcl : f.closed = false) (hass : f.assertMode ['r', '-'] = .ok ())
    (hwb : f.wbuffer ≠ none) (hsk : run n f (.seekR 0 1) = .error e) :
    run (n+1) f (.readR size) = .error e := by
  simp only [run]
  rw [if_neg (show ¬ (f.closed = true) from by simp [hcl]), hass]
  simp only [Bind.bind, Except.bind]
  rw [if_pos hwb, hsk]
  rfl

/-- `read` after a successful write-buffer flushing seek proceeds to
its tail over the new state. -/
theorem run_read_wb_ok (n : Nat) (f f₁ : FileLikeBase) (size : Int)
    (hcl : f.closed = false) (hass : f.assertMode ['r', '-'] = .ok ())
    (hwb : f.wbuffer ≠ none) (hsk : run n f (.seekR 0 1) = .ok (.unitR f₁)) :
    run (n+1) f (.readR size) = readMid n f₁ size := by
  simp only [run]
  rw [if_neg (show ¬ (f.closed = true) from by simp [hcl]), hass]
  simp only [Bind.bind, Except.bind]
  rw [if_pos hwb, hsk]
  rfl

/-- `read` when the flushing seek yields a malformed result. -/
theorem run_read_wb_bad (n : Nat) (f : FileLikeBase) (size : Int) (r₁ : Ret)
    (hcl : f.closed = false) (hass : f.assertMode ['r', '-'] = .ok ())
    (hwb : f.wbuffer ≠ none) (hsk : run n f (.seekR 0 1) = .ok r₁)
    (hne : ∀ g, r₁ ≠ .unitR g) :
    run (n+1) f (.readR size) = .error .never := by
  simp only [run]
  rw [if_neg (show ¬ (f.closed = true) from by simp [hcl]), hass]
  simp only [Bind.bind, Except.bind]
  rw [if_pos hwb, hsk]
  cases r₁ with
  | unitR g => exact absurd rfl (hne g)
  | bytesR d g => rfl
  | soR s g => rfl
  | rlR a b c g => rfl
/-- For a read request the postcondition does not depend on the initial
state, since the `soLoopR` clause is the only one reading it. -/
theorem post_readR_congr (f f' : FileLikeBase) (size : Int) (r : Ret) :
    post f (.readR size) r = post f' (.readR size) r := by
  cases r <;> rfl

/-- The drain postcondition does not depend on the initial state. -/
theorem post_drain_congr (f f' : FileLikeBase) (r : Ret) :
    post f .drainR r = post f' .drainR r := by
  cases r <;> rfl

/-- The readline-loop postcondition depends only on the result. -/
theorem post_rl_congr (f f' : FileLikeBase) (size size' : Int)
    (bits bits' : List (List Char)) (ssf ssf' : Nat) (r : Ret) :
    post f (.rlLoopR size bits ssf) r = post f' (.rlLoopR size' bits' ssf') r := by
  cases r <;> rfl

/-- The write postcondition does not depend on the initial state. -/
theorem post_write_congr (f f' : FileLikeBase) (s : List Char) (r : Ret) :
    post f (.writeR s) r = post f' (.writeR s) r := by
  cases r <;> rfl

/-- The evaluation of the skip-offset loop when the gap fits the buffer. -/
theorem run_so_le (n : Nat) (f : FileLikeBase) (s : Int)
    (hle : ¬ s > (f.bufsize : Int)) :
    run (n+1) f (.soLoopR s) = .ok (.soR s f) := by
  simp only [run]
  rw [if_neg hle]

/-- The skip-offset loop propagates a failing chunk read. -/
theorem run_so_err (n : Nat) (f : FileLikeBase) (s : Int) (e : Err)
    (hgt : s > (f.bufsize : Int))
    (hrd : run n f (.readR (f.bufsize : Int)) = .error e) :
    run (n+1) f (.soLoopR s) = .error e := by
  simp only [run]
  rw [if_pos hgt, hrd]
  rfl

/-- The skip-offset loop recurses after a successful chunk read. -/
theorem run_so_step (n : Nat) (f f₂ : FileLikeBase) (s : Int) (d : List Char)
    (hgt : s > (f.bufsize : Int))
    (hrd : run n f (.readR (f.bufsize : Int)) = .ok (.bytesR d f₂)) :
    run (n+1) f (.soLoopR s) = run n f₂ (.soLoopR (s - (f₂.bufsize : Int))) := by
  simp only [run]
  rw [if_pos hgt, hrd]
  rfl

/-- The skip-offset loop rejects a chunk read of the wrong shape. -/
theorem run_so_bad (n : Nat) (f : FileLikeBase) (s : Int) (r₁ : Ret)
    (hgt : s > (f.bufsize : Int))
    (hrd : run n f (.readR (f.bufsize : Int)) = .ok r₁)
    (hne : ∀ d g, r₁ ≠ .bytesR d g) :
    run (n+1) f (.soLoopR s) = .error .never := by
  simp only [run]
  rw [if_pos hgt, hrd]
  cases r₁ with
  | bytesR d g => exact absurd rfl (hne d g)
  | unitR g => rfl
  | soR a g => rfl
  | rlR a b c g => rfl

/-- The drain loop propagates a failing readline. -/
theorem run_drain_err (n : Nat) (f : FileLikeBase) (e : Err)
    (hrl : run n f (.readlineR (-1)) = .error e) :
    run (n+1) f .drainR = .error e := by
  simp only [run]
  rw [hrl]
  rfl

/-- The drain loop after a successful readline: stop on an empty line,
otherwise recurse. -/
theorem run_drain_ok (n : Nat) (f f₂ : FileLikeBase) (ln : List Char)
    (hrl : run n f (.readlineR (-1)) = .ok (.bytesR ln f₂)) :
    run (n+1) f .drainR =
      if ln = [] then .ok (.unitR f₂) else run n f₂ .drainR := by
  simp only [run]
  rw [hrl]
  rfl

/-- The drain loop rejects a readline result of the wrong shape. -/
theorem run_drain_bad (n : Nat) (f : FileLikeBase) (r₁ : Ret)
    (hrl : run n f (.readlineR (-1)) = .ok r₁)
    (hne : ∀ d g, r₁ ≠ .bytesR d g) :
    run (n+1) f .drainR = .error .never := by
  simp only [run]
  rw [hrl]
  cases r₁ with
  | bytesR d g => exact absurd rfl (hne d g)
  | unitR g => rfl
  | soR a g => rfl
  | rlR a b c g => rfl

/-- The readline loop propagates a failing chunk read. -/
theorem run_rl_err (n : Nat) (f : FileLikeBase) (size : Int)
    (bits : List (List Char)) (ssf : Nat) (e : Err)
    (hrd : run n f (.readR (f.bufsize : Int)) = .error e) :
    run (n+1) f (.rlLoopR size bits ssf) = .error e := by
  simp only [run]
  rw [hrd]
  rfl

/-- The readline loop after a successful chunk read runs one step. -/
theorem run_rl_ok (n : Nat) (f f₂ : FileLikeBase) (size : Int)
    (bits : List (List Char)) (ssf : Nat) (nb : List Char)
    (hrd : run n f (.readR (f.bufsize : Int)) = .ok (.bytesR nb f₂)) :
    run (n+1) f (.rlLoopR size bits ssf) = rlStep n size bits ssf nb f₂ := by
  simp only [run]
  rw [hrd]
  rfl

/-- The readline loop rejects a chunk read of the wrong shape. -/
theorem run_rl_bad (n : Nat) (f : FileLikeBase) (size : Int)
    (bits : List (List Char)) (ssf : Nat) (r₁ : Ret)
    (hrd : run n f (.readR (f.bufsize : Int)) = .ok r₁)
    (hne : ∀ d g, r₁ ≠ .bytesR d g) :
    run (n+1) f (.rlLoopR size bits ssf) = .error .never := by
  simp only [run]
  rw [hrd]
  cases r₁ with
  | bytesR d g => exact absurd rfl (hne d g)
  | unitR g => rfl
  | soR a g => rfl
  | rlR a b c g => rfl

/-- Readline propagates a failing loop. -/
theorem run_rline_err (n : Nat) (f : FileLikeBase) (size : Int) (e : Err)
    (hrl : run n f (.rlLoopR size [] 0) = .error e) :
    run (n+1) f (.readlineR size) = .error e := by
  simp only [run]
  rw [hrl]
  rfl

/-- Readline after a successful loop runs its trimming tail. -/
theorem run_rline_ok (n : Nat) (f f₂ : FileLikeBase) (size : Int)
    (bits : List (List Char)) (ssf : Nat) (indx : Option Nat)
    (hrl : run n f (.rlLoopR size [] 0) = .ok (.rlR bits ssf indx f₂)) :
    run (n+1) f (.readlineR size) = rlFinish size ssf bits indx f₂ := by
  simp only [run]
  rw [hrl]
  cases indx <;> rfl

/-- Readline rejects a loop result of the wrong shape. -/
theorem run_rline_bad (n : Nat) (f : FileLikeBase) (size : Int) (r₁ : Ret)
    (hrl : run n f (.rlLoopR size [] 0) = .ok r₁)
    (hne : ∀ a b c g, r₁ ≠ .rlR a b c g) :
    run (n+1) f (.readlineR size) = .error .never := by
  simp only [run]
  rw [hrl]
  cases r₁ with
  | rlR a b c g => exact absurd rfl (hne a b c g)
  | unitR g => rfl
  | bytesR d g => rfl
  | soR a g => rfl

/-- The evaluation of `write` on a closed file. -/
theorem run_write_closed (n : Nat) (f : FileLikeBase) (s : List Char)
    (hcl : f.closed = true) :
    run (n+1) f (.writeR s) = .error .ioClosed := by
  simp only [run]
  rw [if_pos hcl]

/-- `write` propagates a mode-assertion failure. -/
theorem run_write_assert_err (n : Nat) (f : FileLikeBase) (s : List Char) (e : Err)
    (hcl : f.closed = false) (hass : f.assertMode ['w', '-'] = .error e) :
    run (n+1) f (.writeR s) = .error e := by
  simp only [run]
  rw [if_neg (show ¬ (f.closed = true) from by simp [hcl]), hass]
  rfl

/-- `write` with no pending read buffer proceeds to its tail. -/
theorem run_write_norb (n : Nat) (f : FileLikeBase) (s : List Char)
    (hcl : f.closed = false) (hass : f.assertMode ['w', '-'] = .ok ())
    (hrb : f.rbuffer = none) :
    run (n+1) f (.writeR s) = writeMid n f s := by
  simp only [run]
  rw [if_neg (show ¬ (f.closed = true) from by simp [hcl]), hass]
  simp only [Bind.bind, Except.bind]
  rw [if_neg (show ¬ (f.rbuffer ≠ none) from by simp [hrb])]
  rfl

/-- `write` with a pending read buffer propagates a failing flush seek. -/
theorem run_write_rb_err (n : Nat) (f : FileLikeBase) (s : List Char) (e : Err)
    (hcl : f.closed = false) (hass : f.assertMode ['w', '-'] = .ok ())
    (hrb : f.rbuffer ≠ none) (hsk : run n f (.seekR 0 1) = .error e) :
    run (n+1) f (.writeR s) = .error e := by
  simp only [run]
  rw [if_neg (show ¬ (f.closed = true) from by simp [hcl]), hass]
  simp only [Bind.bind, Except.bind]
  rw [if_pos hrb, hsk]
  rfl

/-- `write` with a pending read buffer proceeds to its tail after the
flushing seek. -/
theorem run_write_rb_ok (n : Nat) (f f₁ : FileLikeBase) (s : List Char)
    (hcl : f.closed = false) (hass : f.assertMode ['w', '-'] = .ok ())
    (hrb : f.rbuffer ≠ none) (hsk : run n f (.seekR 0 1) = .ok (.unitR f₁)) :
    run (n+1) f (.writeR s) = writeMid n f₁ s := by
  simp only [run]
  rw [if_neg (show ¬ (f.closed = true) from by simp [hcl]), hass]
  simp only [Bind.bind, Except.bind]
  rw [if_pos hrb, hsk]
  rfl

/-- `write` rejects a flushing seek of the wrong shape. -/
theorem run_write_rb_bad (n : Nat) (f : FileLikeBase) (s : List Char) (r₁ : Ret)
    (hcl : f.closed = false) (hass : f.assertMode ['w', '-'] = .ok ())
    (hrb : f.rbuffer ≠ none) (hsk : run n f (.seekR 0 1) = .ok r₁)
    (hne : ∀ g, r₁ ≠ .unitR g) :
    run (n+1) f (.writeR s) = .error .never := by
  simp only [run]
  rw [if_neg (show ¬ (f.closed = true) from by simp [hcl]), hass]
  simp only [Bind.bind, Except.bind]
  rw [if_pos hrb, hsk]
  cases r₁ with
  | unitR g => exact absurd rfl (hne g)
  | bytesR d g => rfl
  | soR a g => rfl
  | rlR a b c g => rfl

/-- Analysis of the read tail: capability and mode are preserved; under
the buffer invariant with no pending write buffer, the result keeps the
invariant and satisfies the read postcondition; and no
NotImplementedError escapes on a contract-honouring primitive. -/
theorem readMid_master (n : Nat) (f : FileLikeBase) (size : Int)
    (ih : ∀ (f' : FileLikeBase) (q' : Req),
      (∀ r, run n f' q' = .ok r →
        (retSt r).prim.cap = f'.prim.cap ∧ (retSt r).mode = f'.mode ∧
        (BufInv f' → BufInv (retSt r) ∧ post f' q' r)) ∧
      (f'.prim.cap ≠ .noneCap → ∀ e, run n f' q' = .error e → e ≠ .notImplemented)) :
    (∀ r, readMid n f size = .ok r →
      (retSt r).prim.cap = f.prim.cap ∧ (retSt r).mode = f.mode ∧
      (BufInv f → truthy f.wbuffer = false → BufInv (retSt r) ∧ post f (.readR size) r)) ∧
    (f.prim.cap ≠ .noneCap → ∀ e, readMid n f size = .error e → e ≠ .notImplemented) := by
  unfold readMid
  by_cases hsb : truthy f.sbuffer = true
  · rw [if_pos hsb]
    constructor
    · intro r h
      cases hrd : run n { f with sbuffer := none }
          (.readR ((f.sbuffer.getD []).length : Int)) with
      | error e₁ =>
        rw [hrd] at h
        simp [asBytes, Bind.bind, Except.bind] at h
      | ok r₁ =>
        rw [hrd] at h
        cases r₁ with
        | bytesR d₁ f₂ =>
          simp only [asBytes, Bind.bind, Except.bind] at h
          obtain ⟨hcap₂, hmode₂, hbi₂⟩ := (ih _ _).1 _ hrd
          cases hm : readMain n f₂ size with
          | error e₁ =>
            rw [hm] at h
            simp [Bind.bind, Except.bind] at h
          | ok v =>
            obtain ⟨data, f₃⟩ := v
            rw [hm] at h
            simp only [Bind.bind, Except.bind] at h
            injection h with h'
            subst h'
            obtain ⟨hwb₃, hmode₃, hcap₃, hrbs₃, hrbe₃⟩ := (readMain_post n f₂ size).1 data f₃ hm
            refine ⟨?_, ?_, ?_⟩
            · show f₃.prim.cap = f.prim.cap
              rw [hcap₃]
              exact hcap₂
            · show f₃.mode = f.mode
              rw [hmode₃]
              exact hmode₂
            · intro hbi hwbt
              obtain ⟨hbinv₂, hpost₂⟩ := hbi₂ hbi
              obtain ⟨hwb₂, -⟩ := hpost₂
              have hwb₃f : truthy f₃.wbuffer = false := by
                rw [hwb₃]
                exact hwb₂
              refine ⟨bufInv_of_wb f₃ hwb₃f, hwb₃f, ?_⟩
              intro hde
              rw [hrbe₃ hde]
              rfl
        | unitR g =>
          simp [asBytes, Bind.bind, Except.bind] at h
        | soR s g =>
          simp [asBytes, Bind.bind, Except.bind] at h
        | rlR a b c g =>
          simp [asBytes, Bind.bind, Except.bind] at h
    · intro hcap e h
      cases hrd : run n { f with sbuffer := none }
          (.readR ((f.sbuffer.getD []).length : Int)) with
      | error e₁ =>
        rw [hrd] at h
        simp only [asBytes, Bind.bind, Except.bind] at h
        injection h with h'
        rw [← h']
        exact (ih { f with sbuffer := none }
          (.readR ((f.sbuffer.getD []).length : Int))).2 hcap e₁ hrd
      | ok r₁ =>
        rw [hrd] at h
        cases r₁ with
        | bytesR d₁ f₂ =>
          simp only [asBytes, Bind.bind, Except.bind] at h
          obtain ⟨hcap₂, -, -⟩ := (ih _ _).1 _ hrd
          cases hm : readMain n f₂ size with
          | error e₁ =>
            rw [hm] at h
            simp only [Bind.bind, Except.bind] at h
            injection h with h'
            rw [← h', (readMain_post n f₂ size).2 e₁ hm]
            decide
          | ok v =>
            obtain ⟨data, f₃⟩ := v
            rw [hm] at h
            simp only [Bind.bind, Except.bind] at h
            cases h
        | unitR g =>
          simp only [asBytes, Bind.bind, Except.bind] at h
          injection h with h'
          rw [← h']
          decide
        | soR s g =>
          simp only [asBytes, Bind.bind, Except.bind] at h
          injection h with h'
          rw [← h']
          decide
        | rlR a b c g =>
          simp only [asBytes, Bind.bind, Except.bind] at h
          injection h with h'
          rw [← h']
          decide
  · rw [if_neg hsb]
    by_cases hso : f.soffset ≠ 0
    · rw [if_pos hso]
      constructor
      · intro r h
        cases hsl : run n { f with soffset := 0 } (.soLoopR f.soffset) with
        | error e₁ =>
          rw [hsl] at h
          simp [asSo, Bind.bind, Except.bind] at h
        | ok r₁ =>
          rw [hsl] at h
          cases r₁ with
          | soR s₁ f₂ =>
            simp only [asSo, Bind.bind, Except.bind] at h
            obtain ⟨hcap₂, hmode₂, hbi₂⟩ := (ih _ _).1 _ hsl
            cases hrd : run n f₂ (.readR s₁) with
            | error e₁ =>
              rw [hrd] at h
              simp [asBytes, Bind.bind, Except.bind] at h
            | ok r₂ =>
              rw [hrd] at h
              cases r₂ with
              | bytesR d₂ f₂' =>
                simp only [asBytes, Bind.bind, Except.bind] at h
                obtain ⟨hcap₂', hmode₂', hbi₂'⟩ := (ih _ _).1 _ hrd
                cases hm : readMain n f₂' size with
                | error e₁ =>
                  rw [hm] at h
                  simp [Bind.bind, Except.bind] at h
                | ok v =>
                  obtain ⟨data, f₃⟩ := v
                  rw [hm] at h
                  simp only [Bind.bind, Except.bind] at h
                  injection h with h'
                  subst h'
                  obtain ⟨hwb₃, hmode₃, hcap₃, hrbs₃, hrbe₃⟩ :=
                    (readMain_post n f₂' size).1 data f₃ hm
                  refine ⟨?_, ?_, ?_⟩
                  · show f₃.prim.cap = f.prim.cap
                    rw [hcap₃]
                    exact hcap₂'.trans hcap₂
                  · show f₃.mode = f.mode
                    rw [hmode₃]
                    exact hmode₂'.trans hmode₂
                  · intro hbi hwbt
                    obtain ⟨hbinv₂, hpost₂⟩ := hbi₂ hbi
                    have hwb₂ : truthy f₂.wbuffer = false := hpost₂ hwbt
                    obtain ⟨hbinv₂', hpost₂'⟩ := hbi₂' hbinv₂
                    obtain ⟨hwb₂', -⟩ := hpost₂'
                    have hwb₃f : truthy f₃.wbuffer = false := by
                      rw [hwb₃]
                      exact hwb₂'
                    refine ⟨bufInv_of_wb f₃ hwb₃f, hwb₃f, ?_⟩
                    intro hde
                    rw [hrbe₃ hde]
                    rfl
              | unitR g =>
                simp [asBytes, Bind.bind, Except.bind] at h
              | soR s g =>
                simp [asBytes, Bind.bind, Except.bind] at h
              | rlR a b c g =>
                simp [asBytes, Bind.bind, Except.bind] at h
          | unitR g =>
            simp [asSo, Bind.bind, Except.bind] at h
          | bytesR d g =>
            simp [asSo, Bind.bind, Except.bind] at h
          | rlR a b c g =>
            simp [asSo, Bind.bind, Except.bind] at h
      · intro hcap e h
        cases hsl : run n { f with soffset := 0 } (.soLoopR f.soffset) with
        | error e₁ =>
          rw [hsl] at h
          simp only [asSo, Bind.bind, Except.bind] at h
          injection h with h'
          rw [← h']
          exact (ih { f with soffset := 0 } (.soLoopR f.soffset)).2 hcap e₁ hsl
        | ok r₁ =>
          rw [hsl] at h
          cases r₁ with
          | soR s₁ f₂ =>
            simp only [asSo, Bind.bind, Except.bind] at h
            obtain ⟨hcap₂, -, -⟩ := (ih _ _).1 _ hsl
            have hcap₂' : f₂.prim.cap ≠ .noneCap := by
              rw [show f₂.prim.cap = f.prim.cap from hcap₂]
              exact hcap
            cases hrd : run n f₂ (.readR s₁) with
            | error e₁ =>
              rw [hrd] at h
              simp only [asBytes, Bind.bind, Except.bind] at h
              injection h with h'
              rw [← h']
              exact (ih _ _).2 hcap₂' e₁ hrd
            | ok r₂ =>
              rw [hrd] at h
              cases r₂ with
              | bytesR d₂ f₂' =>
                simp only [asBytes, Bind.bind, Except.bind] at h
                cases hm : readMain n f₂' size with
                | error e₁ =>
                  rw [hm] at h
                  simp only [Bind.bind, Except.bind] at h
                  injection h with h'
                  rw [← h', (readMain_post n f₂' size).2 e₁ hm]
                  decide
                | ok v =>
                  obtain ⟨data, f₃⟩ := v
                  rw [hm] at h
                  simp only [Bind.bind, Except.bind] at h
                  cases h
              | unitR g =>
                simp only [asBytes, Bind.bind, Except.bind] at h
                injection h with h'
                rw [← h']
                decide
              | soR s g =>
                simp only [asBytes, Bind.bind, Except.bind] at h
                injection h with h'
                rw [← h']
                decide
              | rlR a b c g =>
                simp only [asBytes, Bind.bind, Except.bind] at h
                injection h with h'
                rw [← h']
                decide
          | unitR g =>
            simp only [asSo, Bind.bind, Except.bind] at h
            injection h with h'
            rw [← h']
            decide
          | bytesR d g =>
            simp only [asSo, Bind.bind, Except.bind] at h
            injection h with h'
            rw [← h']
            decide
          | rlR a b c g =>
            simp only [asSo, Bind.bind, Except.bind] at h
            injection h with h'
            rw [← h']
            decide
    · rw [if_neg hso]
      constructor
      · intro r h
        simp only [Bind.bind, Except.bind] at h
        cases hm : readMain n f size with
        | error e₁ =>
          rw [hm] at h
          simp [Bind.bind, Except.bind] at h
        | ok v =>
          obtain ⟨data, f₃⟩ := v
          rw [hm] at h
          simp only [Bind.bind, Except.bind] at h
          injection h with h'
          subst h'
          obtain ⟨hwb₃, hmode₃, hcap₃, hrbs₃, hrbe₃⟩ := (readMain_post n f size).1 data f₃ hm
          refine ⟨hcap₃, hmode₃, ?_⟩
          intro hbi hwbt
          have hwb₃f : truthy f₃.wbuffer = false := by
            rw [hwb₃]
            exact hwbt
          refine ⟨bufInv_of_wb f₃ hwb₃f, hwb₃f, ?_⟩
          intro hde
          rw [hrbe₃ hde]
          rfl
      · intro hcap e h
        simp only [Bind.bind, Except.bind] at h
        cases hm : readMain n f size with
        | error e₁ =>
          rw [hm] at h
          simp only [Bind.bind, Except.bind] at h
          injection h with h'
          rw [← h', (readMain_post n f size).2 e₁ hm]
          decide
        | ok v =>
          obtain ⟨data, f₃⟩ := v
          rw [hm] at h
          simp only [Bind.bind, Except.bind] at h
          cases h

/-- The buffer invariant follows from an empty read buffer together
with write permission. -/
theorem bufInv_of_rb_ck (g : FileLikeBase) (hrb : truthy g.rbuffer = false)
    (hck : g.checkMode ['w', '-'] = true) : BufInv g := by
  constructor
  · rintro ⟨h1, -⟩
    rw [hrb] at h1
    cases h1
  · exact fun h => hck

/-- `_check_mode` depends only on the mode string. -/
theorem checkMode_of_mode (g f : FileLikeBase) (m : List Char) (h : g.mode = f.mode) :
    g.checkMode m = f.checkMode m := by
  unfold FileLikeBase.checkMode
  rw [h]

/-- The skip-offset loop postcondition transfers along an initial state
whose write buffer is already clear. -/
theorem post_soLoop_of (f f₂ : FileLikeBase) (s s' : Int) (r : Ret)
    (h : post f₂ (.soLoopR s') r) (hwb : truthy f₂.wbuffer = false) :
    post f (.soLoopR s) r := by
  cases r with
  | soR a g => exact fun x => h hwb
  | unitR g => trivial
  | bytesR d g => trivial
  | rlR a b c g => trivial

/-- A nonempty list of chunks with an empty concatenation ends in an
empty chunk. -/
theorem getLast?_flatten_nil (bits : List (List Char)) (hne : bits ≠ [])
    (hfl : bits.flatten = []) : bits.getLast? = some [] := by
  rw [List.getLast?_eq_getLast bits hne]
  have hmem := List.getLast_mem hne
  have hlnil := (List.flatten_eq_nil_iff.mp hfl) _ hmem
  rw [hlnil]

/-- A successful final write stage returns a unit result whose state
keeps the capability, mode and read buffer. -/
theorem writeFin_post (f' : FileLikeBase) (s' : List Char) (r : Ret)
    (h : writeFin f' s' = .ok r) :
    ∃ g, r = .unitR g ∧ g.prim.cap = f'.prim.cap ∧ g.mode = f'.mode ∧
      g.rbuffer = f'.rbuffer := by
  unfold writeFin at h
  cases hw : f'.prim._write s' false with
  | mk o p =>
    rw [hw] at h
    have hcap : p.cap = f'.prim.cap := by
      have hc := _write_cap f'.prim s' false
      rw [hw] at hc
      exact hc
    cases o with
    | none =>
      injection h with h'
      exact ⟨_, h'.symm, hcap, rfl, rfl⟩
    | some l =>
      injection h with h'
      exact ⟨_, h'.symm, hcap, rfl, rfl⟩

/-- The final write stage never fails. -/
theorem writeFin_no_err (f' : FileLikeBase) (s' : List Char) (e : Err)
    (h : writeFin f' s' = .error e) : False := by
  unfold writeFin at h
  cases hw : f'.prim._write s' false with
  | mk o p =>
    rw [hw] at h
    cases o with
    | none => cases h
    | some l => cases h

/-- Analysis of the write tail: capability and mode are preserved; under
the buffer invariant with a cleared read buffer and write permission,
the result keeps the invariant and satisfies the write postcondition;
and no NotImplementedError escapes on a contract-honouring primitive. -/
theorem writeMid_master (n : Nat) (f : FileLikeBase) (s : List Char)
    (ih : ∀ (f' : FileLikeBase) (q' : Req),
      (∀ r, run n f' q' = .ok r →
        (retSt r).prim.cap = f'.prim.cap ∧ (retSt r).mode = f'.mode ∧
        (BufInv f' → BufInv (retSt r) ∧ post f' q' r)) ∧
      (f'.prim.cap ≠ .noneCap → ∀ e, run n f' q' = .error e → e ≠ .notImplemented)) :
    (∀ r, writeMid n f s = .ok r →
      (retSt r).prim.cap = f.prim.cap ∧ (retSt r).mode = f.mode ∧
      (BufInv f → f.rbuffer = none → f.checkMode ['w', '-'] = true →
        BufInv (retSt r) ∧ post f (.writeR s) r)) ∧
    (f.prim.cap ≠ .noneCap → ∀ e, writeMid n f s = .error e → e ≠ .notImplemented) := by
  constructor
  · intro r h
    simp only [writeMid, Bind.bind, Except.bind] at h
    by_cases hsb : truthy f.sbuffer = true
    · rw [if_pos hsb] at h
      obtain ⟨g, rfl, hcap₁, hmode₁, hrb₁⟩ := writeFin_post _ _ r h
      refine ⟨hcap₁, hmode₁, ?_⟩
      intro hbi hrb hck
      have hrbg : g.rbuffer = none := by
        rw [hrb₁]
        exact hrb
      have hrbt : truthy g.rbuffer = false := by
        rw [hrbg]
        rfl
      have hckg : g.checkMode ['w', '-'] = true := by
        rw [checkMode_of_mode g f ['w', '-'] (show g.mode = f.mode from hmode₁)]
        exact hck
      exact ⟨bufInv_of_rb_ck g hrbt hckg, hrbg⟩
    · rw [if_neg hsb] at h
      by_cases hso : f.soffset ≠ 0
      · rw [if_pos hso] at h
        cases hrd : run n { f with soffset := 0 } (.readR f.soffset) with
        | error e₁ =>
          rw [hrd] at h
          simp only [asBytes, Bind.bind, Except.bind] at h
          cases h
        | ok r₁ =>
          cases r₁ with
          | bytesR d f₂ =>
            rw [hrd] at h
            simp only [asBytes, Bind.bind, Except.bind] at h
            cases hsk : run n f₂ (.seekR 0 0) with
            | error e₂ =>
              rw [hsk] at h
              simp only [asUnit, Bind.bind, Except.bind] at h
              cases h
            | ok r₂ =>
              cases r₂ with
              | unitR f₃ =>
                rw [hsk] at h
                simp only [asUnit, Bind.bind, Except.bind] at h
                obtain ⟨g, rfl, hcap₃, hmode₃, hrb₃⟩ := writeFin_post _ _ r h
                obtain ⟨hcap₁, hmode₁, hbi₁⟩ :=
                  (ih { f with soffset := 0 } (.readR f.soffset)).1 _ hrd
                obtain ⟨hcap₂, hmode₂, hbi₂⟩ := (ih f₂ (.seekR 0 0)).1 _ hsk
                have hmg : g.mode = f.mode := hmode₃.trans (hmode₂.trans hmode₁)
                refine ⟨hcap₃.trans (hcap₂.trans hcap₁), hmg, ?_⟩
                intro hbi hrb hck
                obtain ⟨hbinv₂, hpost₂⟩ := hbi₁ hbi
                obtain ⟨hbinv₃, hpost₃⟩ := hbi₂ hbinv₂
                have hrb₃n : f₃.rbuffer = none := hpost₃.2.1 (by decide)
                have hrbg : g.rbuffer = none := by
                  rw [hrb₃]
                  exact hrb₃n
                have hrbt : truthy g.rbuffer = false := by
                  rw [hrbg]
                  rfl
                have hckg : g.checkMode ['w', '-'] = true := by
                  rw [checkMode_of_mode g f ['w', '-'] hmg]
                  exact hck
                exact ⟨bufInv_of_rb_ck g hrbt hckg, hrbg⟩
              | bytesR d₂ g₂ =>
                rw [hsk] at h
                simp only [asUnit, Bind.bind, Except.bind] at h
                cases h
              | soR a g₂ =>
                rw [hsk] at h
                simp only [asUnit, Bind.bind, Except.bind] at h
                cases h
              | rlR a b c g₂ =>
                rw [hsk] at h
                simp only [asUnit, Bind.bind, Except.bind] at h
                cases h
          | unitR g₁ =>
            rw [hrd] at h
            simp only [asBytes, Bind.bind, Except.bind] at h
            cases h
          | soR a g₁ =>
            rw [hrd] at h
            simp only [asBytes, Bind.bind, Except.bind] at h
            cases h
          | rlR a b c g₁ =>
            rw [hrd] at h
            simp only [asBytes, Bind.bind, Except.bind] at h
            cases h
      · rw [if_neg hso] at h
        obtain ⟨g, rfl, hcap₁, hmode₁, hrb₁⟩ := writeFin_post _ _ r h
        refine ⟨hcap₁, hmode₁, ?_⟩
        intro hbi hrb hck
        have hrbg : g.rbuffer = none := by
          rw [hrb₁]
          exact hrb
        have hrbt : truthy g.rbuffer = false := by
          rw [hrbg]
          rfl
        have hckg : g.checkMode ['w', '-'] = true := by
          rw [checkMode_of_mode g f ['w', '-'] hmode₁]
          exact hck
        exact ⟨bufInv_of_rb_ck g hrbt hckg, hrbg⟩
  · intro hcap e h
    simp only [writeMid, Bind.bind, Except.bind] at h
    by_cases hsb : truthy f.sbuffer = true
    · rw [if_pos hsb] at h
      exact (writeFin_no_err _ _ e h).elim
    · rw [if_neg hsb] at h
      by_cases hso : f.soffset ≠ 0
      · rw [if_pos hso] at h
        cases hrd : run n { f with soffset := 0 } (.readR f.soffset) with
        | error e₁ =>
          rw [hrd] at h
          simp only [asBytes, Bind.bind, Except.bind] at h
          injection h with h'
          rw [← h']
          exact (ih { f with soffset := 0 } (.readR f.soffset)).2 hcap e₁ hrd
        | ok r₁ =>
          cases r₁ with
          | bytesR d f₂ =>
            rw [hrd] at h
            simp only [asBytes, Bind.bind, Except.bind] at h
            cases hsk : run n f₂ (.seekR 0 0) with
            | error e₂ =>
              rw [hsk] at h
              simp only [asUnit, Bind.bind, Except.bind] at h
              injection h with h'
              rw [← h']
              obtain ⟨hcap₁, -, -⟩ :=
                (ih { f with soffset := 0 } (.readR f.soffset)).1 _ hrd
              have hcap₂ : f₂.prim.cap ≠ .noneCap := by
                rw [show f₂.prim.cap = f.prim.cap from hcap₁]
                exact hcap
              exact (ih f₂ (.seekR 0 0)).2 hcap₂ e₂ hsk
            | ok r₂ =>
              cases r₂ with
              | unitR f₃ =>
                rw [hsk] at h
                simp only [asUnit, Bind.bind, Except.bind] at h
                exact (writeFin_no_err _ _ e h).elim
              | bytesR d₂ g₂ =>
                rw [hsk] at h
                simp only [asUnit, Bind.bind, Except.bind] at h
                injection h with h'
                rw [← h']
                decide
              | soR a g₂ =>
                rw [hsk] at h
                simp only [asUnit, Bind.bind, Except.bind] at h
                injection h with h'
                rw [← h']
                decide
              | rlR a b c g₂ =>
                rw [hsk] at h
                simp only [asUnit, Bind.bind, Except.bind] at h
                injection h with h'
                rw [← h']
                decide
          | unitR g₁ =>
            rw [hrd] at h
            simp only [asBytes, Bind.bind, Except.bind] at h
            injection h with h'
            rw [← h']
            decide
          | soR a g₁ =>
            rw [hrd] at h
            simp only [asBytes, Bind.bind, Except.bind] at h
            injection h with h'
            rw [← h']
            decide
          | rlR a b c g₁ =>
            rw [hrd] at h
            simp only [asBytes, Bind.bind, Except.bind] at h
            injection h with h'
            rw [← h']
            decide
      · rw [if_neg hso] at h
        exact (writeFin_no_err _ _ e h).elim

/-- Master invariant of the evaluator: a successful step preserves the
capability and the mode, preserves the buffer invariant and satisfies
the per-request postcondition; and on a contract-honouring primitive no
step lets NotImplementedError escape. -/
theorem run_master : ∀ (fuel : Nat) (f : FileLikeBase) (q : Req),
    (∀ r, run fuel f q = .ok r →
      (retSt r).prim.cap = f.prim.cap ∧ (retSt r).mode = f.mode ∧
      (BufInv f → BufInv (retSt r) ∧ post f q r)) ∧
    (f.prim.cap ≠ .noneCap → ∀ e, run fuel f q = .error e → e ≠ .notImplemented) := by
  intro fuel
  induction fuel with
  | zero =>
    intro f q
    constructor
    · intro r h
      exact absurd h (by simp [run])
    · intro hcap e h
      have he : e = Err.fuel := by
        have : (Except.error Err.fuel : Except Err Ret) = .error e := h
        injection this with h'
        exact h'.symm
      rw [he]
      decide
  | succ n ih =>
    intro f q
    cases q with
    | seekR off wh =>
      constructor
      · intro r h
        by_cases hw : wh > 2
        · rw [run_seek_whgt2 n f off wh hw] at h
          cases h
        · cases hmv : f.modeForbidsSeek with
          | true =>
            rw [run_seek_mode n f off wh hw hmv] at h
            cases h
          | false =>
            by_cases hwb : truthy f.wbuffer = true
            · cases hfl : f.flush with
              | error e =>
                rw [run_seek_flush_err n f off wh e hw hmv hwb hfl] at h
                cases h
              | ok f₁ =>
                rw [run_seek_tail_flush n f f₁ off wh hw hmv hwb hfl] at h
                obtain ⟨hmode₁, hcap₁, hrb₁, hwor, hwcl⟩ := flush_post f f₁ hfl
                obtain ⟨hcapr, hmoder, hbody⟩ := seekTail_ok_post n f₁ off wh r
                  (fun r₀ h₀ => ((ih (seekCleared f₁) .drainR).1 r₀ h₀)) h
                refine ⟨hcapr.trans hcap₁, hmoder.trans hmode₁, ?_⟩
                intro hbi
                have hck : f.checkMode ['w', '-'] = true := hbi.2 hwb
                have hsome : f.wbuffer.isSome = true := by
                  cases hwbv : f.wbuffer with
                  | none =>
                    rw [hwbv] at hwb
                    cases hwb
                  | some l => rfl
                have hw1n : f₁.wbuffer = none := hwcl hck hsome
                have hwbt₁ : truthy f₁.wbuffer = false := by
                  rw [hw1n]
                  rfl
                obtain ⟨hbir, hrbf, hrbn, hwbf⟩ := hbody hwbt₁
                refine ⟨hbir, ?_⟩
                cases r with
                | unitR g => exact ⟨hrbf, hrbn, hwbf⟩
                | bytesR d g => trivial
                | soR s g => trivial
                | rlR a b c g => trivial
            · have hwbt : truthy f.wbuffer = false := by
                cases hx : truthy f.wbuffer
                · rfl
                · exact absurd hx hwb
              rw [run_seek_tail n f off wh hw hmv hwbt] at h
              obtain ⟨hcapr, hmoder, hbody⟩ := seekTail_ok_post n f off wh r
                (fun r₀ h₀ => ((ih (seekCleared f) .drainR).1 r₀ h₀)) h
              refine ⟨hcapr, hmoder, ?_⟩
              intro hbi
              obtain ⟨hbir, hrbf, hrbn, hwbf⟩ := hbody hwbt
              refine ⟨hbir, ?_⟩
              cases r with
              | unitR g => exact ⟨hrbf, hrbn, hwbf⟩
              | bytesR d g => trivial
              | soR s g => trivial
              | rlR a b c g => trivial
      · intro hcap e h
        by_cases hw : wh > 2
        · rw [run_seek_whgt2 n f off wh hw] at h
          injection h with h'
          rw [← h']
          decide
        · cases hmv : f.modeForbidsSeek with
          | true =>
            rw [run_seek_mode n f off wh hw hmv] at h
            injection h with h'
            rw [← h']
            decide
          | false =>
            by_cases hwb : truthy f.wbuffer = true
            · cases hfl : f.flush with
              | error e₁ =>
                rw [run_seek_flush_err n f off wh e₁ hw hmv hwb hfl] at h
                injection h with h'
                rw [← h']
                exact flush_no_NI f e₁ hfl
              | ok f₁ =>
                rw [run_seek_tail_flush n f f₁ off wh hw hmv hwb hfl] at h
                have hc₁ : f₁.prim.cap ≠ .noneCap := by
                  rw [(flush_post f f₁ hfl).2.1]
                  exact hcap
                exact seekTail_no_NI n f₁ off wh
                  (fun r₀ h₀ => ((ih (seekCleared f₁) .drainR).1 r₀ h₀).1)
                  (fun e₀ h₀ => ((ih (seekCleared f₁) .drainR).2 hc₁ e₀ h₀))
                  hc₁ e h
            · have hwbt : truthy f.wbuffer = false := by
                cases hx : truthy f.wbuffer
                · rfl
                · exact absurd hx hwb
              rw [run_seek_tail n f off wh hw hmv hwbt] at h
              exact seekTail_no_NI n f off wh
                (fun r₀ h₀ => ((ih (seekCleared f) .drainR).1 r₀ h₀).1)
                (fun e₀ h₀ => ((ih (seekCleared f) .drainR).2 hcap e₀ h₀))
                hcap e h
    | readR size =>
      constructor
      · intro r h
        by_cases hclt : f.closed = true
        · rw [run_read_closed n f size hclt] at h
          cases h
        · have hcl : f.closed = false := by
            cases hx : f.closed
            · rfl
            · exact absurd hx hclt
          cases hass : f.assertMode ['r', '-'] with
          | error e₁ =>
            rw [run_read_assert_err n f size e₁ hcl hass] at h
            cases h
          | ok u =>
            cases u
            by_cases hwn : f.wbuffer ≠ none
            · cases hsk : run n f (.seekR 0 1) with
              | error e₁ =>
                rw [run_read_wb_err n f size e₁ hcl hass hwn hsk] at h
                cases h
              | ok r₁ =>
                cases r₁ with
                | unitR f₁ =>
                  rw [run_read_wb_ok n f f₁ size hcl hass hwn hsk] at h
                  obtain ⟨hcap₁, hmode₁, hbi₁⟩ := (ih f (.seekR 0 1)).1 _ hsk
                  obtain ⟨hA, -⟩ := readMid_master n f₁ size ih
                  obtain ⟨hcapR, hmodeR, hbiR⟩ := hA r h
                  refine ⟨hcapR.trans hcap₁, hmodeR.trans hmode₁, ?_⟩
                  intro hbi
                  obtain ⟨hbinv₁, hpost₁⟩ := hbi₁ hbi
                  obtain ⟨-, -, hwbt₁⟩ := hpost₁
                  rw [post_readR_congr f f₁ size r]
                  exact hbiR hbinv₁ hwbt₁
                | bytesR d g =>
                  rw [run_read_wb_bad n f size _ hcl hass hwn hsk
                    (fun g' hx => Ret.noConfusion hx)] at h
                  cases h
                | soR s g =>
                  rw [run_read_wb_bad n f size _ hcl hass hwn hsk
                    (fun g' hx => Ret.noConfusion hx)] at h
                  cases h
                | rlR a b c g =>
                  rw [run_read_wb_bad n f size _ hcl hass hwn hsk
                    (fun g' hx => Ret.noConfusion hx)] at h
                  cases h
            · have hwb : f.wbuffer = none := not_not.mp hwn
              rw [run_read_nowb n f size hcl hass hwb] at h
              obtain ⟨hA, -⟩ := readMid_master n f size ih
              obtain ⟨hcapR, hmodeR, hbiR⟩ := hA r h
              refine ⟨hcapR, hmodeR, ?_⟩
              intro hbi
              have hwbt : truthy f.wbuffer = false := by
                rw [hwb]
                rfl
              exact hbiR hbi hwbt
      · intro hcap e h
        by_cases hclt : f.closed = true
        · rw [run_read_closed n f size hclt] at h
          injection h with h'
          rw [← h']
          decide
        · have hcl : f.closed = false := by
            cases hx : f.closed
            · rfl
            · exact absurd hx hclt
          cases hass : f.assertMode ['r', '-'] with
          | error e₁ =>
            rw [run_read_assert_err n f size e₁ hcl hass] at h
            injection h with h'
            rw [← h']
            exact assertMode_no_NI f _ e₁ hass
          | ok u =>
            cases u
            by_cases hwn : f.wbuffer ≠ none
            · cases hsk : run n f (.seekR 0 1) with
              | error e₁ =>
                rw [run_read_wb_err n f size e₁ hcl hass hwn hsk] at h
                injection h with h'
                rw [← h']
                exact (ih f (.seekR 0 1)).2 hcap e₁ hsk
              | ok r₁ =>
                cases r₁ with
                | unitR f₁ =>
                  rw [run_read_wb_ok n f f₁ size hcl hass hwn hsk] at h
                  obtain ⟨hcap₁, -, -⟩ := (ih f (.seekR 0 1)).1 _ hsk
                  have hcap₁' : f₁.prim.cap ≠ .noneCap := by
                    rw [show f₁.prim.cap = f.prim.cap from hcap₁]
                    exact hcap
                  exact (readMid_master n f₁ size ih).2 hcap₁' e h
                | bytesR d g =>
                  rw [run_read_wb_bad n f size _ hcl hass hwn hsk
                    (fun g' hx => Ret.noConfusion hx)] at h
                  injection h with h'
                  rw [← h']
                  decide
                | soR s g =>
                  rw [run_read_wb_bad n f size _ hcl hass hwn hsk
                    (fun g' hx => Ret.noConfusion hx)] at h
                  injection h with h'
                  rw [← h']
                  decide
                | rlR a b c g =>
                  rw [run_read_wb_bad n f size _ hcl hass hwn hsk
                    (fun g' hx => Ret.noConfusion hx)] at h
                  injection h with h'
                  rw [← h']
                  decide
            · have hwb : f.wbuffer = none := not_not.mp hwn
              rw [run_read_nowb n f size hcl hass hwb] at h
              exact (readMid_master n f size ih).2 hcap e h
    | readlineR size =>
      constructor
      · intro r h
        cases hrl : run n f (.rlLoopR size [] 0) with
        | error e₁ =>
          rw [run_rline_err n f size e₁ hrl] at h
          cases h
        | ok r₁ =>
          cases r₁ with
          | rlR bits ssf indx f₂ =>
            rw [run_rline_ok n f f₂ size bits ssf indx hrl] at h
            obtain ⟨hcap₁, hmode₁, hbi₁⟩ := (ih f (.rlLoopR size [] 0)).1 _ hrl
            cases indx with
            | none =>
              simp only [rlFinish] at h
              by_cases hc : 0 < size ∧ (size : Int) < (ssf : Int)
              · rw [if_pos hc] at h
                injection h with h'
                subst h'
                refine ⟨hcap₁, hmode₁, ?_⟩
                intro hbi
                obtain ⟨hbinv₁, hpost₁⟩ := hbi₁ hbi
                obtain ⟨hwb₂, hne₂, hlast₂⟩ := hpost₁
                refine ⟨bufInv_of_wb _ hwb₂, hwb₂, ?_⟩
                intro hd
                have hfl : bits.flatten = [] := by
                  cases hbf : bits.flatten with
                  | nil => rfl
                  | cons a t =>
                    exfalso
                    rw [hbf] at hd
                    have hz : size.toNat = 0 := by
                      cases hx : size.toNat with
                      | zero => rfl
                      | succ k =>
                        rw [hx] at hd
                        simp at hd
                    have hpos := hc.1
                    omega
                obtain ⟨hrb₂, -⟩ := hlast₂ (getLast?_flatten_nil bits hne₂ hfl)
                show truthy (some (bits.flatten.drop size.toNat ++ f₂.rbuffer.getD [])) = false
                rw [hfl, List.drop_nil, getD_nil_of_not_truthy hrb₂]
                rfl
              · rw [if_neg hc] at h
                injection h with h'
                subst h'
                refine ⟨hcap₁, hmode₁, ?_⟩
                intro hbi
                obtain ⟨hbinv₁, hpost₁⟩ := hbi₁ hbi
                obtain ⟨hwb₂, hne₂, hlast₂⟩ := hpost₁
                refine ⟨hbinv₁, hwb₂, ?_⟩
                intro hd
                exact (hlast₂ (getLast?_flatten_nil bits hne₂ hd)).1
            | some i =>
              simp only [rlFinish] at h
              injection h with h'
              subst h'
              refine ⟨hcap₁, hmode₁, ?_⟩
              intro hbi
              obtain ⟨hbinv₁, hpost₁⟩ := hbi₁ hbi
              obtain ⟨hwb₂, hne₂, hlast₂⟩ := hpost₁
              refine ⟨bufInv_of_wb _ hwb₂, hwb₂, ?_⟩
              intro hd
              exfalso
              have hlb : (bits.getLast?.getD []).take (i + 1) = [] := by
                simp only [List.flatten_append, List.flatten_cons, List.flatten_nil,
                  List.append_nil, List.append_eq_nil] at hd
                exact hd.2
              have hlast : bits.getLast?.getD [] = [] := by
                cases hx : bits.getLast?.getD [] with
                | nil => rfl
                | cons a t =>
                  rw [hx] at hlb
                  simp at hlb
              have hsome : bits.getLast? = some [] := by
                rw [List.getLast?_eq_getLast bits hne₂] at hlast ⊢
                simp only [Option.getD_some] at hlast
                rw [hlast]
              obtain ⟨-, hidx⟩ := hlast₂ hsome
              exact Option.noConfusion hidx
          | unitR g =>
            rw [run_rline_bad n f size _ hrl (fun a b c g' hx => Ret.noConfusion hx)] at h
            cases h
          | bytesR d g =>
            rw [run_rline_bad n f size _ hrl (fun a b c g' hx => Ret.noConfusion hx)] at h
            cases h
          | soR a g =>
            rw [run_rline_bad n f size _ hrl (fun a b c g' hx => Ret.noConfusion hx)] at h
            cases h
      · intro hcap e h
        cases hrl : run n f (.rlLoopR size [] 0) with
        | error e₁ =>
          rw [run_rline_err n f size e₁ hrl] at h
          injection h with h'
          rw [← h']
          exact (ih f (.rlLoopR size [] 0)).2 hcap e₁ hrl
        | ok r₁ =>
          cases r₁ with
          | rlR bits ssf indx f₂ =>
            rw [run_rline_ok n f f₂ size bits ssf indx hrl] at h
            cases indx with
            | none =>
              simp only [rlFinish] at h
              by_cases hc : 0 < size ∧ (size : Int) < (ssf : Int)
              · rw [if_pos hc] at h
                cases h
              · rw [if_neg hc] at h
                cases h
            | some i =>
              simp only [rlFinish] at h
              cases h
          | unitR g =>
            rw [run_rline_bad n f size _ hrl (fun a b c g' hx => Ret.noConfusion hx)] at h
            injection h with h'
            rw [← h']
            decide
          | bytesR d g =>
            rw [run_rline_bad n f size _ hrl (fun a b c g' hx => Ret.noConfusion hx)] at h
            injection h with h'
            rw [← h']
            decide
          | soR a g =>
            rw [run_rline_bad n f size _ hrl (fun a b c g' hx => Ret.noConfusion hx)] at h
            injection h with h'
            rw [← h']
            decide
    | writeR s =>
      constructor
      · intro r h
        by_cases hclt : f.closed = true
        · rw [run_write_closed n f s hclt] at h
          cases h
        · have hcl : f.closed = false := by
            cases hx : f.closed
            · rfl
            · exact absurd hx hclt
          cases hass : f.assertMode ['w', '-'] with
          | error e₁ =>
            rw [run_write_assert_err n f s e₁ hcl hass] at h
            cases h
          | ok u =>
            cases u
            have hck : f.checkMode ['w', '-'] = true := assertMode_ok_checkMode f _ hass
            by_cases hrn : f.rbuffer ≠ none
            · cases hsk : run n f (.seekR 0 1) with
              | error e₁ =>
                rw [run_write_rb_err n f s e₁ hcl hass hrn hsk] at h
                cases h
              | ok r₁ =>
                cases r₁ with
                | unitR f₁ =>
                  rw [run_write_rb_ok n f f₁ s hcl hass hrn hsk] at h
                  obtain ⟨hcap₁, hmode₁, hbi₁⟩ := (ih f (.seekR 0 1)).1 _ hsk
                  obtain ⟨hA, -⟩ := writeMid_master n f₁ s ih
                  obtain ⟨hcapR, hmodeR, hbiR⟩ := hA r h
                  refine ⟨hcapR.trans hcap₁, hmodeR.trans hmode₁, ?_⟩
                  intro hbi
                  obtain ⟨hbinv₁, hpost₁⟩ := hbi₁ hbi
                  obtain ⟨-, hrb₁, -⟩ := hpost₁
                  have hck₁ : f₁.checkMode ['w', '-'] = true := by
                    rw [checkMode_of_mode f₁ f ['w', '-'] (show f₁.mode = f.mode from hmode₁)]
                    exact hck
                  rw [post_write_congr f f₁ s r]
                  exact hbiR hbinv₁ (hrb₁ (by decide)) hck₁
                | bytesR d g =>
                  rw [run_write_rb_bad n f s _ hcl hass hrn hsk
                    (fun g' hx => Ret.noConfusion hx)] at h
                  cases h
                | soR a g =>
                  rw [run_write_rb_bad n f s _ hcl hass hrn hsk
                    (fun g' hx => Ret.noConfusion hx)] at h
                  cases h
                | rlR a b c g =>
                  rw [run_write_rb_bad n f s _ hcl hass hrn hsk
                    (fun g' hx => Ret.noConfusion hx)] at h
                  cases h
            · have hrb : f.rbuffer = none := not_not.mp hrn
              rw [run_write_norb n f s hcl hass hrb] at h
              obtain ⟨hA, -⟩ := writeMid_master n f s ih
              obtain ⟨hcapR, hmodeR, hbiR⟩ := hA r h
              refine ⟨hcapR, hmodeR, ?_⟩
              intro hbi
              exact hbiR hbi hrb hck
      · intro hcap e h
        by_cases hclt : f.closed = true
        · rw [run_write_closed n f s hclt] at h
          injection h with h'
          rw [← h']
          decide
        · have hcl : f.closed = false := by
            cases hx : f.closed
            · rfl
            · exact absurd hx hclt
          cases hass : f.assertMode ['w', '-'] with
          | error e₁ =>
            rw [run_write_assert_err n f s e₁ hcl hass] at h
            injection h with h'
            rw [← h']
            exact assertMode_no_NI f _ e₁ hass
          | ok u =>
            cases u
            by_cases hrn : f.rbuffer ≠ none
            · cases hsk : run n f (.seekR 0 1) with
              | error e₁ =>
                rw [run_write_rb_err n f s e₁ hcl hass hrn hsk] at h
                injection h with h'
                rw [← h']
                exact (ih f (.seekR 0 1)).2 hcap e₁ hsk
              | ok r₁ =>
                cases r₁ with
                | unitR f₁ =>
                  rw [run_write_rb_ok n f f₁ s hcl hass hrn hsk] at h
                  obtain ⟨hcap₁, -, -⟩ := (ih f (.seekR 0 1)).1 _ hsk
                  have hcap₁' : f₁.prim.cap ≠ .noneCap := by
                    rw [show f₁.prim.cap = f.prim.cap from hcap₁]
                    exact hcap
                  exact (writeMid_master n f₁ s ih).2 hcap₁' e h
                | bytesR d g =>
                  rw [run_write_rb_bad n f s _ hcl hass hrn hsk
                    (fun g' hx => Ret.noConfusion hx)] at h
                  injection h with h'
                  rw [← h']
                  decide
                | soR a g =>
                  rw [run_write_rb_bad n f s _ hcl hass hrn hsk
                    (fun g' hx => Ret.noConfusion hx)] at h
                  injection h with h'
                  rw [← h']
                  decide
                | rlR a b c g =>
                  rw [run_write_rb_bad n f s _ hcl hass hrn hsk
                    (fun g' hx => Ret.noConfusion hx)] at h
                  injection h with h'
                  rw [← h']
                  decide
            · have hrb : f.rbuffer = none := not_not.mp hrn
              rw [run_write_norb n f s hcl hass hrb] at h
              exact (writeMid_master n f s ih).2 hcap e h
    | drainR =>
      constructor
      · intro r h
        cases hrl : run n f (.readlineR (-1)) with
        | error e₁ =>
          rw [run_drain_err n f e₁ hrl] at h
          cases h
        | ok r₁ =>
          cases r₁ with
          | bytesR ln f₂ =>
            rw [run_drain_ok n f f₂ ln hrl] at h
            obtain ⟨hcap₁, hmode₁, hbi₁⟩ := (ih f (.readlineR (-1))).1 _ hrl
            by_cases hln : ln = []
            · rw [if_pos hln] at h
              injection h with h'
              subst h'
              refine ⟨hcap₁, hmode₁, ?_⟩
              intro hbi
              obtain ⟨hbinv₁, hpost₁⟩ := hbi₁ hbi
              obtain ⟨hwb₂, hrb₂⟩ := hpost₁
              exact ⟨hbinv₁, hwb₂, hrb₂ hln⟩
            · rw [if_neg hln] at h
              obtain ⟨hcap₂, hmode₂, hbi₂⟩ := (ih f₂ .drainR).1 r h
              refine ⟨hcap₂.trans hcap₁, hmode₂.trans hmode₁, ?_⟩
              intro hbi
              obtain ⟨hbinv₁, -⟩ := hbi₁ hbi
              obtain ⟨hbinv₂, hpost₂⟩ := hbi₂ hbinv₁
              rw [post_drain_congr f f₂ r]
              exact ⟨hbinv₂, hpost₂⟩
          | unitR g =>
            rw [run_drain_bad n f _ hrl (fun d g' hx => Ret.noConfusion hx)] at h
            cases h
          | soR a g =>
            rw [run_drain_bad n f _ hrl (fun d g' hx => Ret.noConfusion hx)] at h
            cases h
          | rlR a b c g =>
            rw [run_drain_bad n f _ hrl (fun d g' hx => Ret.noConfusion hx)] at h
            cases h
      · intro hcap e h
        cases hrl : run n f (.readlineR (-1)) with
        | error e₁ =>
          rw [run_drain_err n f e₁ hrl] at h
          injection h with h'
          rw [← h']
          exact (ih f (.readlineR (-1))).2 hcap e₁ hrl
        | ok r₁ =>
          cases r₁ with
          | bytesR ln f₂ =>
            rw [run_drain_ok n f f₂ ln hrl] at h
            by_cases hln : ln = []
            · rw [if_pos hln] at h
              cases h
            · rw [if_neg hln] at h
              obtain ⟨hcap₁, -, -⟩ := (ih f (.readlineR (-1))).1 _ hrl
              have hcap₂ : f₂.prim.cap ≠ .noneCap := by
                rw [show f₂.prim.cap = f.prim.cap from hcap₁]
                exact hcap
              exact (ih f₂ .drainR).2 hcap₂ e h
          | unitR g =>
            rw [run_drain_bad n f _ hrl (fun d g' hx => Ret.noConfusion hx)] at h
            injection h with h'
            rw [← h']
            decide
          | soR a g =>
            rw [run_drain_bad n f _ hrl (fun d g' hx => Ret.noConfusion hx)] at h
            injection h with h'
            rw [← h']
            decide
          | rlR a b c g =>
            rw [run_drain_bad n f _ hrl (fun d g' hx => Ret.noConfusion hx)] at h
            injection h with h'
            rw [← h']
            decide
    | soLoopR s =>
      constructor
      · intro r h
        by_cases hgt : s > (f.bufsize : Int)
        · cases hrd : run n f (.readR (f.bufsize : Int)) with
          | error e₁ =>
            rw [run_so_err n f s e₁ hgt hrd] at h
            cases h
          | ok r₁ =>
            cases r₁ with
            | bytesR d f₂ =>
              rw [run_so_step n f f₂ s d hgt hrd] at h
              obtain ⟨hcap₁, hmode₁, hbi₁⟩ := (ih f (.readR (f.bufsize : Int))).1 _ hrd
              obtain ⟨hcap₂, hmode₂, hbi₂⟩ :=
                (ih f₂ (.soLoopR (s - (f₂.bufsize : Int)))).1 r h
              refine ⟨hcap₂.trans hcap₁, hmode₂.trans hmode₁, ?_⟩
              intro hbi
              obtain ⟨hbinv₁, hpost₁⟩ := hbi₁ hbi
              obtain ⟨hbinv₂, hpost₂⟩ := hbi₂ hbinv₁
              obtain ⟨hwb₂, -⟩ := hpost₁
              exact ⟨hbinv₂, post_soLoop_of f f₂ s _ r hpost₂ hwb₂⟩
            | unitR g =>
              rw [run_so_bad n f s _ hgt hrd (fun d g' hx => Ret.noConfusion hx)] at h
              cases h
            | soR a g =>
              rw [run_so_bad n f s _ hgt hrd (fun d g' hx => Ret.noConfusion hx)] at h
              cases h
            | rlR a b c g =>
              rw [run_so_bad n f s _ hgt hrd (fun d g' hx => Ret.noConfusion hx)] at h
              cases h
        · rw [run_so_le n f s hgt] at h
          injection h with h'
          subst h'
          refine ⟨rfl, rfl, ?_⟩
          intro hbi
          exact ⟨hbi, fun hwf => hwf⟩
      · intro hcap e h
        by_cases hgt : s > (f.bufsize : Int)
        · cases hrd : run n f (.readR (f.bufsize : Int)) with
          | error e₁ =>
            rw [run_so_err n f s e₁ hgt hrd] at h
            injection h with h'
            rw [← h']
            exact (ih f (.readR (f.bufsize : Int))).2 hcap e₁ hrd
          | ok r₁ =>
            cases r₁ with
            | bytesR d f₂ =>
              rw [run_so_step n f f₂ s d hgt hrd] at h
              obtain ⟨hcap₁, -, -⟩ := (ih f (.readR (f.bufsize : Int))).1 _ hrd
              have hcap₂ : f₂.prim.cap ≠ .noneCap := by
                rw [show f₂.prim.cap = f.prim.cap from hcap₁]
                exact hcap
              exact (ih f₂ (.soLoopR (s - (f₂.bufsize : Int)))).2 hcap₂ e h
            | unitR g =>
              rw [run_so_bad n f s _ hgt hrd (fun d g' hx => Ret.noConfusion hx)] at h
              injection h with h'
              rw [← h']
              decide
            | soR a g =>
              rw [run_so_bad n f s _ hgt hrd (fun d g' hx => Ret.noConfusion hx)] at h
              injection h with h'
              rw [← h']
              decide
            | rlR a b c g =>
              rw [run_so_bad n f s _ hgt hrd (fun d g' hx => Ret.noConfusion hx)] at h
              injection h with h'
              rw [← h']
              decide
        · rw [run_so_le n f s hgt] at h
          cases h
    | rlLoopR size bits ssf =>
      constructor
      · intro r h
        cases hrd : run n f (.readR (f.bufsize : Int)) with
        | error e₁ =>
          rw [run_rl_err n f size bits ssf e₁ hrd] at h
          cases h
        | ok r₁ =>
          cases r₁ with
          | bytesR nb f₂ =>
            rw [run_rl_ok n f f₂ size bits ssf nb hrd] at h
            simp only [rlStep] at h
            obtain ⟨hcap₁, hmode₁, hbi₁⟩ := (ih f (.readR (f.bufsize : Int))).1 _ hrd
            by_cases hnb : nb = []
            · rw [if_pos hnb] at h
              injection h with h'
              subst h'
              refine ⟨hcap₁, hmode₁, ?_⟩
              intro hbi
              obtain ⟨hbinv₁, hpost₁⟩ := hbi₁ hbi
              obtain ⟨hwb₂, hrb₂⟩ := hpost₁
              exact ⟨hbinv₁, hwb₂, by simp, fun hx => ⟨hrb₂ hnb, rfl⟩⟩
            · by_cases hsz : 0 < size ∧ (size : Int) ≤ ((ssf + nb.length : Nat) : Int)
              · rw [if_neg hnb, if_pos hsz] at h
                injection h with h'
                subst h'
                refine ⟨hcap₁, hmode₁, ?_⟩
                intro hbi
                obtain ⟨hbinv₁, hpost₁⟩ := hbi₁ hbi
                obtain ⟨hwb₂, -⟩ := hpost₁
                refine ⟨hbinv₁, hwb₂, by simp, ?_⟩
                intro hlast
                have hnb' : nb = [] := by simpa using hlast
                exact absurd hnb' hnb
              · cases hfi : nb.findIdx? (fun c => c = '\n') with
                | some i =>
                  rw [if_neg hnb, if_neg hsz, hfi] at h
                  injection h with h'
                  subst h'
                  refine ⟨hcap₁, hmode₁, ?_⟩
                  intro hbi
                  obtain ⟨hbinv₁, hpost₁⟩ := hbi₁ hbi
                  obtain ⟨hwb₂, -⟩ := hpost₁
                  refine ⟨hbinv₁, hwb₂, by simp, ?_⟩
                  intro hlast
                  have hnb' : nb = [] := by simpa using hlast
                  exact absurd hnb' hnb
                | none =>
                  rw [if_neg hnb, if_neg hsz, hfi] at h
                  obtain ⟨hcap₂, hmode₂, hbi₂⟩ :=
                    (ih f₂ (.rlLoopR size (bits ++ [nb]) (ssf + nb.length))).1 r h
                  refine ⟨hcap₂.trans hcap₁, hmode₂.trans hmode₁, ?_⟩
                  intro hbi
                  obtain ⟨hbinv₁, -⟩ := hbi₁ hbi
                  obtain ⟨hbinv₂, hpost₂⟩ := hbi₂ hbinv₁
                  rw [post_rl_congr f f₂ size size bits (bits ++ [nb]) ssf
                    (ssf + nb.length) r]
                  exact ⟨hbinv₂, hpost₂⟩
          | unitR g =>
            rw [run_rl_bad n f size bits ssf _ hrd (fun d g' hx => Ret.noConfusion hx)] at h
            cases h
          | soR a g =>
            rw [run_rl_bad n f size bits ssf _ hrd (fun d g' hx => Ret.noConfusion hx)] at h
            cases h
          | rlR a b c g =>
            rw [run_rl_bad n f size bits ssf _ hrd (fun d g' hx => Ret.noConfusion hx)] at h
            cases h
      · intro hcap e h
        cases hrd : run n f (.readR (f.bufsize : Int)) with
        | error e₁ =>
          rw [run_rl_err n f size bits ssf e₁ hrd] at h
          injection h with h'
          rw [← h']
          exact (ih f (.readR (f.bufsize : Int))).2 hcap e₁ hrd
        | ok r₁ =>
          cases r₁ with
          | bytesR nb f₂ =>
            rw [run_rl_ok n f f₂ size bits ssf nb hrd] at h
            simp only [rlStep] at h
            by_cases hnb : nb = []
            · rw [if_pos hnb] at h
              cases h
            · by_cases hsz : 0 < size ∧ (size : Int) ≤ ((ssf + nb.length : Nat) : Int)
              · rw [if_neg hnb, if_pos hsz] at h
                cases h
              · cases hfi : nb.findIdx? (fun c => c = '\n') with
                | some i =>
                  rw [if_neg hnb, if_neg hsz, hfi] at h
                  cases h
                | none =>
                  rw [if_neg hnb, if_neg hsz, hfi] at h
                  obtain ⟨hcap₁, -, -⟩ := (ih f (.readR (f.bufsize : Int))).1 _ hrd
                  have hcap₂ : f₂.prim.cap ≠ .noneCap := by
                    rw [show f₂.prim.cap = f.prim.cap from hcap₁]
                    exact hcap
                  exact (ih f₂ (.rlLoopR size (bits ++ [nb]) (ssf + nb.length))).2 hcap₂ e h
          | unitR g =>
            rw [run_rl_bad n f size bits ssf _ hrd (fun d g' hx => Ret.noConfusion hx)] at h
            injection h with h'
            rw [← h']
            decide
          | soR a g =>
            rw [run_rl_bad n f size bits ssf _ hrd (fun d g' hx => Ret.noConfusion hx)] at h
            injection h with h'
            rw [← h']
            decide
          | rlR a b c g =>
            rw [run_rl_bad n f size bits ssf _ hrd (fun d g' hx => Ret.noConfusion hx)] at h
            injection h with h'
            rw [← h']
            decide
/-- Running a sequence of operations preserves the buffer invariant. -/
theorem runSeq_bufInv (fuel : Nat) (qs : List Req) :
    ∀ (f g : FileLikeBase), BufInv f → runSeq fuel f qs = .ok g → BufInv g := by
  induction qs with
  | nil =>
    intro f g hbi h
    simp only [runSeq] at h
    injection h with h'
    rw [← h']
    exact hbi
  | cons q qs ihq =>
    intro f g hbi h
    simp only [runSeq, Bind.bind, Except.bind] at h
    cases hr : run fuel f q with
    | error e =>
      rw [hr] at h
      cases h
    | ok r =>
      rw [hr] at h
      have hbir := ((run_master fuel f q).1 r hr).2.2 hbi
      exact ihq (retSt r) g hbir.1 h

/-- C7: from any state satisfying the buffer invariant, every sequence
of public operations (seeks, reads, readlines, writes and the internal
drain and loop steps) that completes successfully leaves a state in
which at most one of the read-ahead and write-behind buffers is
populated: read flushes a pending write-behind through an implicit
seek(0, 1) before reading, and write discards a pending read-ahead
through an implicit seek(0, 1) before writing, so no operation leaves
both buffers non-empty. -/
theorem public_ops_preserve_buffer_exclusion (fuel : Nat) (f g : FileLikeBase)
    (qs : List Req) (hbi : BufInv f) (h : runSeq fuel f qs = .ok g) :
    ¬(truthy g.rbuffer = true ∧ truthy g.wbuffer = true) :=
  (runSeq_bufInv fuel qs f g hbi h).1

/-- Witness for C7: a write followed by a read on a fresh sample state
leaves buffers that are not both populated. -/
theorem public_ops_preserve_buffer_exclusion_witness :
    BufInv sampleOpen ∧
    ¬(truthy ((runSeq 9 sampleOpen
        [.writeR ['X', 'Y'], .readR 2]).toOption.getD sampleOpen).rbuffer = true ∧
      truthy ((runSeq 9 sampleOpen
        [.writeR ['X', 'Y'], .readR 2]).toOption.getD sampleOpen).wbuffer = true) :=
  ⟨bufInv_of sampleOpen (by decide) (by decide),
   public_ops_preserve_buffer_exclusion 9 sampleOpen _ [.writeR ['X', 'Y'], .readR 2]
     (bufInv_of sampleOpen (by decide) (by decide)) rfl⟩

/-- C8 counterexample: on a primitive that does not support even
seek-to-start, the raw unsupported-seek signal escapes seek() itself:
the tier-three emulation calls the primitive seek-to-start outside any
handler, so the claim that the signal never propagates out of seek()
fails for such a primitive. -/
theorem seek_nonecap_not_implemented :
    run 3 sampleNoSeek (.seekR 3 0) = .error .notImplemented := rfl

/-- C8 amended: on any primitive that supports at least absolute or
start seeks (every capability except none), seek() always catches the
unsupported-seek signal and retries via emulation — converting
current- or end-relative offsets to absolute, or resetting to the start
and recording the remaining distance as a skip offset — so the raw
signal never propagates out of seek() to the caller. -/
theorem seek_unsupported_always_caught (fuel : Nat) (f : FileLikeBase)
    (off : Int) (wh : Nat) (hcap : f.prim.cap ≠ .noneCap) (e : Err)
    (h : run fuel f (.seekR off wh) = .error e) : e ≠ .notImplemented :=
  (run_master fuel f (.seekR off wh)).2 hcap e h

/-- Witness for C8 amended: an end-relative seek on a closed start-only
sample fails, but never with the unsupported-seek signal. -/
theorem seek_unsupported_always_caught_witness :
    sampleClosedSkip.prim.cap ≠ SeekCap.noneCap ∧
    Err.ioClosed ≠ Err.notImplemented :=
  ⟨by decide, seek_unsupported_always_caught 9 sampleClosedSkip 0 2 (by decide)
    .ioClosed rfl⟩

end Filelike
